import Mathlib

/-!
# Software I2C master (`hal_i2c.c`): embedding and verified properties

The bit-banged two-wire bus master of `hal_i2c.c` is embedded as state-passing
functions over a machine state `State`.

* The two pins are the direction bit and the output latch of the clock line
  (`OCM_SCL`) and of the data line (`OCM_SDA`); `cfg` holds their remaining
  configuration bits, which only `HalI2CInit` writes.
* Reading a pin (`OCM_SCL_STATE`, `OCM_SDA_STATE`) takes the next level from an
  input stream: `sclIn k` is the level the clock line has at the `k`-th future
  read, likewise `sdaIn`. The theorems quantify over every such stream, hence
  over every behaviour of the peripheral and of the pull-ups.
* `mem` is byte memory; a pointer is an address, `NULL` is address `0` and
  `buffer[i]` is the byte at `buffer + i`. Addresses are unbounded naturals:
  pointer arithmetic does not wrap.
* `trace` logs every pin-level action in program order; `calls` logs, in program
  order, every return of the four protocol primitives together with the
  argument and the returned value. Both logs are ghost state: nothing in the
  code reads them.
* Machine integers are naturals reduced modulo `2 ^ width` where the C code
  truncates; result codes are integers (`int8_t`).
* The width of `int` is not fixed by the sources; the one expression whose
  value depends on it, `i < len - 1` in `HalI2CReceive`, takes it as the
  parameter `intBits` (16 on the 8051 target of this HAL).
* A loop is a recursive function. Loops with a counter that the code itself
  runs down or up to a constant recurse on that counter; the three data loops
  and the stretch loop carry a bound on the number of iterations that is
  proved never to be reached.
-/

namespace HalI2C

/-! ## Constants of `hal_i2c.h`, `hal_i2c.c` and `hal_gpio_defs.h` -/

def I2C_SUCCESS : Int := 0
def I2C_E_ARB : Int := 1
def I2C_E_NODEV : Int := 2
def I2C_E_INCOMPLETE : Int := 3
def I2C_E_REG : Int := 4
def I2C_E_INVAL : Int := 5

def HAL_I2C_STARTSTOP_WAITS : Nat := 30
def HAL_I2C_STRETCH_WAITS : Nat := 100

def I2C_OP_READ : Nat := 0x01
def I2C_OP_WRITE : Nat := 0x00

def I2C_ACK : Int := 0
def I2C_NAK : Int := 1

def IO_GIO : Nat := 0
def IO_PER : Nat := 1
def IO_IN : Nat := 0
def IO_OUT : Nat := 1
def IO_PUD : Nat := 0
def IO_TRI : Nat := 1
def IO_PUP : Nat := 0
def IO_PDN : Nat := 1

/-- The null pointer. -/
def NULL : Nat := 0

/-! ## Machine state -/

/-- The two bus lines. -/
inductive Line
  | scl
  | sda
  deriving DecidableEq, Repr

/-- Pin-level actions, in the granularity of the register accesses of the
macros `IO_DIR_PORT_PIN`, `IO_PIN` and `MicroWait`. -/
inductive Event
  /-- Direction bit of the line written: `true` is output, `false` is input. -/
  | dir (l : Line) (out : Bool)
  /-- Output latch of the line written. -/
  | latch (l : Line) (v : Bool)
  /-- Line level read: `true` is high. -/
  | sample (l : Line) (v : Bool)
  /-- Busy wait of `us` microseconds. -/
  | wait (us : Nat)
  deriving DecidableEq, Repr

/-- Returns of the protocol primitives, with argument and returned value. -/
inductive Call
  | start (ret : Int)
  | stop (ret : Int)
  | sendByte (value : Nat) (ack : Int)
  | receiveByte (ack : Int) (rval : Nat)
  deriving DecidableEq, Repr

/-- Port configuration bits of the two pins other than direction and latch, as
written by `HalI2CInit`. -/
structure PortConfig where
  /-- Function-select bit of the clock pin in `PxSEL` (`true` = peripheral). -/
  sclSel : Bool
  /-- Function-select bit of the data pin in `PxSEL` (`true` = peripheral). -/
  sdaSel : Bool
  /-- Input-mode bit of the clock pin in `PxINP` (`true` = tri-state). -/
  sclInp : Bool
  /-- Input-mode bit of the data pin in `PxINP` (`true` = tri-state). -/
  sdaInp : Bool
  /-- Pull-direction bit in `P2INP` of the port of the clock pin (`true` =
  pull-down). -/
  sclPdn : Bool
  /-- Pull-direction bit in `P2INP` of the port of the data pin (`true` =
  pull-down); with both pins on one port, as configured by default, this is
  the same register bit as `sclPdn` and `HalI2CInit` writes it twice with the
  same value. -/
  sdaPdn : Bool
  deriving DecidableEq, Repr

structure State where
  /-- Function select, input mode and pull direction of the two pins. -/
  cfg : PortConfig
  /-- Direction bit of the clock pin (`true` = output). -/
  sclDir : Bool
  /-- Output latch of the clock pin. -/
  sclOut : Bool
  /-- Direction bit of the data pin (`true` = output). -/
  sdaDir : Bool
  /-- Output latch of the data pin. -/
  sdaOut : Bool
  /-- Levels of the clock line at the future reads of `OCM_SCL_STATE`. -/
  sclIn : Nat → Bool
  /-- Levels of the data line at the future reads of `OCM_SDA_STATE`. -/
  sdaIn : Nat → Bool
  /-- Byte memory. -/
  mem : Nat → Nat
  /-- Pin-level actions so far, oldest first. -/
  trace : List Event
  /-- Returns of the protocol primitives so far, oldest first. -/
  calls : List Call

/-! ## Line driver and timing macros -/

def emit (e : Event) (s : State) : State :=
  { s with trace := s.trace ++ [e] }

def logCall (c : Call) (s : State) : State :=
  { s with calls := s.calls ++ [c] }

/-- The macro `IO_DIR_PORT_PIN(port, pin, dir)`: sets the direction bit when `dir == IO_OUT`,
clears it otherwise. -/
def IO_DIR_PORT_PIN (l : Line) (dir : Nat) (s : State) : State :=
  match l with
  | .scl => emit (.dir .scl (dir == IO_OUT)) { s with sclDir := (dir == IO_OUT) }
  | .sda => emit (.dir .sda (dir == IO_OUT)) { s with sdaDir := (dir == IO_OUT) }

/-- The assignment `IO_PIN(port, pin) = v`: writes the output latch. -/
def IO_PIN_set (l : Line) (v : Bool) (s : State) : State :=
  match l with
  | .scl => emit (.latch .scl v) { s with sclOut := v }
  | .sda => emit (.latch .sda v) { s with sdaOut := v }

/-- The busy wait `MicroWait(us)`. -/
def MicroWait (us : Nat) (s : State) : State :=
  emit (.wait us) s

/-- The macro `OCM_SCL_STATE`: reads the clock line. -/
def OCM_SCL_STATE (s : State) : Bool × State :=
  (s.sclIn 0, emit (.sample .scl (s.sclIn 0)) { s with sclIn := fun k => s.sclIn (k + 1) })

/-- The macro `OCM_SDA_STATE`: reads the data line. -/
def OCM_SDA_STATE (s : State) : Bool × State :=
  (s.sdaIn 0, emit (.sample .sda (s.sdaIn 0)) { s with sdaIn := fun k => s.sdaIn (k + 1) })

/-- The macro `IO_FUNC_PORT_PIN(port, pin, func)` for a pin of port 0 or 1: sets
the function-select bit when `func == IO_PER`, clears it otherwise. -/
def IO_FUNC_PORT_PIN (l : Line) (func : Nat) (s : State) : State :=
  match l with
  | .scl => { s with cfg := { s.cfg with sclSel := (func == IO_PER) } }
  | .sda => { s with cfg := { s.cfg with sdaSel := (func == IO_PER) } }

/-- The macro `IO_IMODE_PORT_PIN(port, pin, mode)`: sets the input-mode bit when
`mode == IO_TRI`, clears it otherwise. -/
def IO_IMODE_PORT_PIN (l : Line) (mode : Nat) (s : State) : State :=
  match l with
  | .scl => { s with cfg := { s.cfg with sclInp := (mode == IO_TRI) } }
  | .sda => { s with cfg := { s.cfg with sdaInp := (mode == IO_TRI) } }

/-- The macro `IO_PUD_PORT(port, dir)`, applied to the port of line `l`: sets the
pull-direction bit when `dir == IO_PDN`, clears it otherwise. -/
def IO_PUD_PORT (l : Line) (dir : Nat) (s : State) : State :=
  match l with
  | .scl => { s with cfg := { s.cfg with sclPdn := (dir == IO_PDN) } }
  | .sda => { s with cfg := { s.cfg with sdaPdn := (dir == IO_PDN) } }

def OCM_SCL_HIGH (s : State) : State := IO_DIR_PORT_PIN .scl IO_IN s

def OCM_SCL_LOW (s : State) : State :=
  IO_PIN_set .scl false (IO_DIR_PORT_PIN .scl IO_OUT s)

def OCM_SDA_HIGH (s : State) : State := IO_DIR_PORT_PIN .sda IO_IN s

def OCM_SDA_LOW (s : State) : State :=
  IO_PIN_set .sda false (IO_DIR_PORT_PIN .sda IO_OUT s)

def OCM_HPERIOD (s : State) : State := MicroWait 2 s
def OCM_STRETCH (s : State) : State := MicroWait 10 s
def OCM_SSWAIT (s : State) : State := MicroWait 1000 s

/-! ## Bit-level protocol engine -/

/-- The loop `while(!(OCM_SCL_STATE)) { if (!retry--) return I2C_E_ARB; OCM_SSWAIT(); }`
of `HalI2CStart`, by recursion on `retry`. Returns `true` when the loop is left
because the clock reads high and `false` on the `return I2C_E_ARB`. -/
def HalI2CStart.poll : Nat → State → Bool × State
  | 0, s =>
    let r := OCM_SCL_STATE s
    if r.1 then (true, r.2) else (false, r.2)
  | retry + 1, s =>
    let r := OCM_SCL_STATE s
    if r.1 then (true, r.2) else HalI2CStart.poll retry (OCM_SSWAIT r.2)

def HalI2CStart (s : State) : Int × State :=
  let s := OCM_SDA_HIGH s
  let s := OCM_HPERIOD s
  let s := OCM_SCL_HIGH s
  let s := OCM_HPERIOD s
  let p := HalI2CStart.poll HAL_I2C_STARTSTOP_WAITS s
  if p.1 then
    let s := OCM_SDA_LOW p.2
    let s := OCM_HPERIOD s
    let s := OCM_SCL_LOW s
    (I2C_SUCCESS, logCall (.start I2C_SUCCESS) s)
  else
    (I2C_E_ARB, logCall (.start I2C_E_ARB) p.2)

/-- The loop `while(!(OCM_SCL_STATE)) { if (!retry--) { ret = I2C_E_ARB; break; } OCM_SSWAIT(); }`
of `HalI2CStop`, by recursion on `retry`; `ret` is threaded through. -/
def HalI2CStop.poll : Nat → Int → State → Int × State
  | 0, ret, s =>
    let r := OCM_SCL_STATE s
    if r.1 then (ret, r.2) else (I2C_E_ARB, r.2)
  | retry + 1, ret, s =>
    let r := OCM_SCL_STATE s
    if r.1 then (ret, r.2) else HalI2CStop.poll retry ret (OCM_SSWAIT r.2)

def HalI2CStop (s : State) : Int × State :=
  let s := OCM_SDA_LOW s
  let s := OCM_HPERIOD s
  let s := OCM_SCL_HIGH s
  let s := OCM_HPERIOD s
  let p := HalI2CStop.poll HAL_I2C_STARTSTOP_WAITS I2C_SUCCESS s
  let s := OCM_HPERIOD p.2
  let s := OCM_SDA_HIGH s
  let s := OCM_HPERIOD s
  (p.1, logCall (.stop p.1) s)

/-- The loop
`for(stretch = 0; !(OCM_SCL_STATE) && stretch < HAL_I2C_STRETCH_WAITS; stretch++) OCM_STRETCH();`
from the value `stretch` on. The first argument bounds the number of
iterations; `HAL_I2C_STRETCH_WAITS + 1` is never exhausted, see
`stretchLoop_fuel_enough`. Returns the final `stretch`. -/
def stretchLoop : Nat → Nat → State → Nat × State
  | 0, stretch, s => (stretch, s)
  | fuel + 1, stretch, s =>
    let r := OCM_SCL_STATE s
    if !r.1 && decide (stretch < HAL_I2C_STRETCH_WAITS) then
      stretchLoop fuel ((stretch + 1) % 256) (OCM_STRETCH r.2)
    else (stretch, r.2)

/-- The clock-high half of a bit cell, shared by all eighteen cells of the two
byte primitives: `OCM_SCL_HIGH(); OCM_HPERIOD();` the stretch loop, and
`if (stretch) OCM_HPERIOD();`. -/
def clockHigh (s : State) : State :=
  let s := OCM_SCL_HIGH s
  let s := OCM_HPERIOD s
  let r := stretchLoop (HAL_I2C_STRETCH_WAITS + 1) 0 s
  if r.1 ≠ 0 then OCM_HPERIOD r.2 else r.2

/-- The loop `for (i = 0; i < 8; ++i)` of `HalI2CReceiveByte`, by recursion on
the number of iterations left; `rval` is threaded through. -/
def HalI2CReceiveByte.bits : Nat → Nat → State → Nat × State
  | 0, rval, s => (rval, s)
  | n + 1, rval, s =>
    let s := OCM_SDA_HIGH s
    let s := OCM_HPERIOD s
    let s := clockHigh s
    let r := OCM_SDA_STATE s
    let rval := ((rval <<< 1) ||| (if r.1 then 1 else 0)) % 256
    let s := OCM_SCL_LOW r.2
    HalI2CReceiveByte.bits n rval s

def HalI2CReceiveByte (ack : Int) (s : State) : Nat × State :=
  let r := HalI2CReceiveByte.bits 8 0 s
  let s := if ack ≠ 0 then OCM_SDA_HIGH r.2 else OCM_SDA_LOW r.2
  let s := OCM_HPERIOD s
  let s := clockHigh s
  let s := OCM_SCL_LOW s
  (r.1, logCall (.receiveByte ack r.1) s)

/-- The loop `for (i = 0; i < 8; i++)` of `HalI2CSendByte`, by recursion on the
number of iterations left; `value` is threaded through. -/
def HalI2CSendByte.bits : Nat → Nat → State → State
  | 0, _, s => s
  | n + 1, value, s =>
    let s := if value &&& 0x80 ≠ 0 then OCM_SDA_HIGH s else OCM_SDA_LOW s
    let s := OCM_HPERIOD s
    let s := clockHigh s
    let s := OCM_SCL_LOW s
    HalI2CSendByte.bits n ((value <<< 1) % 256) s

def HalI2CSendByte (value : Nat) (s : State) : Int × State :=
  let s := HalI2CSendByte.bits 8 value s
  let s := OCM_SDA_HIGH s
  let s := OCM_HPERIOD s
  let s := clockHigh s
  let r := OCM_SDA_STATE s
  let ack : Int := if r.1 then 1 else 0
  let s := OCM_SCL_LOW r.2
  (ack, logCall (.sendByte value ack) s)

/-! ## Initialisation -/

def HalI2CInit (s : State) : State :=
  let s := IO_DIR_PORT_PIN .scl IO_IN s
  let s := IO_DIR_PORT_PIN .sda IO_IN s
  let s := IO_FUNC_PORT_PIN .scl IO_GIO s
  let s := IO_FUNC_PORT_PIN .sda IO_GIO s
  let s := IO_IMODE_PORT_PIN .scl IO_PUD s
  let s := IO_IMODE_PORT_PIN .sda IO_PUD s
  let s := IO_PUD_PORT .scl IO_PUP s
  let s := IO_PUD_PORT .sda IO_PUP s
  s

/-! ## Transaction engine -/

/-- The byte `address << 1 | op` as received by the `uint8_t` parameter of
`HalI2CSendByte`. -/
def addressByte (address op : Nat) : Nat :=
  ((address <<< 1) ||| op) % 256

/-- The store `buffer[i] = v` for a `uint8_t` value. -/
def store (a v : Nat) (s : State) : State :=
  { s with mem := fun x => if x = a then v % 256 else s.mem x }

/-- The load of `buffer[i]` as a `uint8_t`. -/
def load (a : Nat) (s : State) : Nat :=
  s.mem a % 256

/-- The C condition `i < len - 1` for `uint16_t i, len`, where `intBits` is the
width of `int` on the target. With an `int` wider than 16 bits both operands
are promoted to `int` and the comparison is signed; with a 16-bit `int` (the
8051 target of this HAL) they are promoted to `unsigned int` and `len - 1`
wraps modulo `2 ^ 16`. -/
def receiveLoopCond (intBits i len : Nat) : Bool :=
  if 16 < intBits then decide ((i : Int) < (len : Int) - 1)
  else decide (i < (len + 65535) % 65536)

/-- The loop `for (i = 0; i < len - 1; i++) buffer[i] = HalI2CReceiveByte(I2C_ACK);`
of `HalI2CReceive`, from the value `i` on. The first argument bounds the number
of iterations; `65536` is never exhausted, see `HalI2CReceive_loop_fuel_enough`.
Returns the final `i`. -/
def HalI2CReceive.loop (intBits buffer len : Nat) : Nat → Nat → State → Nat × State
  | 0, i, s => (i, s)
  | fuel + 1, i, s =>
    if receiveLoopCond intBits i len then
      let r := HalI2CReceiveByte I2C_ACK s
      HalI2CReceive.loop intBits buffer len fuel ((i + 1) % 65536) (store (buffer + i) r.1 r.2)
    else (i, s)

def HalI2CReceive (intBits address buffer len : Nat) (s : State) : Int × State :=
  if buffer = NULL then (I2C_E_INVAL, s)
  else
    let st := HalI2CStart s
    if st.1 ≠ I2C_SUCCESS then (st.1, st.2)
    else
      let a := HalI2CSendByte (addressByte address I2C_OP_READ) st.2
      let body : Int × State :=
        if a.1 ≠ I2C_ACK then (I2C_E_NODEV, a.2)
        else
          let l := HalI2CReceive.loop intBits buffer len 65536 0 a.2
          let r := HalI2CReceiveByte I2C_NAK l.2
          (st.1, store (buffer + l.1) r.1 r.2)
      let sp := HalI2CStop body.2
      if sp.1 ≠ I2C_SUCCESS then (I2C_E_ARB, sp.2) else (body.1, sp.2)

/-- The loop `for (i = 0; i < len; i++) { if (HalI2CSendByte(buffer[i]) != I2C_ACK)
{ ret = I2C_E_INCOMPLETE; break; } }` of `HalI2CSend`, from the value `i` on;
`ret` is threaded through. The first argument bounds the number of iterations;
`65536` is never exhausted, see `HalI2CSend_loop_fuel_enough`. -/
def HalI2CSend.loop (buffer len : Nat) : Nat → Nat → Int → State → Int × State
  | 0, _, ret, s => (ret, s)
  | fuel + 1, i, ret, s =>
    if i < len then
      let r := HalI2CSendByte (load (buffer + i) s) s
      if r.1 ≠ I2C_ACK then (I2C_E_INCOMPLETE, r.2)
      else HalI2CSend.loop buffer len fuel ((i + 1) % 65536) ret r.2
    else (ret, s)

def HalI2CSend (address buffer len : Nat) (s : State) : Int × State :=
  if buffer = NULL then (I2C_E_INVAL, s)
  else
    let st := HalI2CStart s
    if st.1 ≠ I2C_SUCCESS then (st.1, st.2)
    else
      let a := HalI2CSendByte (addressByte address I2C_OP_WRITE) st.2
      let body : Int × State :=
        if a.1 ≠ I2C_ACK then (I2C_E_NODEV, a.2)
        else HalI2CSend.loop buffer len 65536 0 st.1 a.2
      let sp := HalI2CStop body.2
      if sp.1 ≠ I2C_SUCCESS then (I2C_E_ARB, sp.2) else (body.1, sp.2)

def HalI2CReadRegisters (intBits address reg buffer len : Nat) (s : State) : Int × State :=
  if buffer = NULL then (I2C_E_INVAL, s)
  else
    let st := HalI2CStart s
    if st.1 ≠ I2C_SUCCESS then (st.1, st.2)
    else
      let a := HalI2CSendByte (addressByte address I2C_OP_WRITE) st.2
      let body : Int × State :=
        if a.1 ≠ I2C_ACK then (I2C_E_NODEV, a.2)
        else
          let r := HalI2CSendByte (reg % 256) a.2
          if r.1 ≠ I2C_ACK then (I2C_E_REG, r.2) else (st.1, r.2)
      if body.1 ≠ I2C_SUCCESS then
        let sp := HalI2CStop body.2
        if sp.1 ≠ I2C_SUCCESS then (I2C_E_ARB, sp.2) else (body.1, sp.2)
      else
        HalI2CReceive intBits address buffer len body.2

/-- The loop `for (i = 0; i < len; i++) { if (!HalI2CSendByte(buffer[i]))
{ ret = I2C_E_INCOMPLETE; break; } }` of `HalI2CWriteRegisters`, from the value
`i` on; `ret` is threaded through. The first argument bounds the number of
iterations; `65536` is never exhausted, see
`HalI2CWriteRegisters_loop_fuel_enough`. -/
def HalI2CWriteRegisters.loop (buffer len : Nat) : Nat → Nat → Int → State → Int × State
  | 0, _, ret, s => (ret, s)
  | fuel + 1, i, ret, s =>
    if i < len then
      let r := HalI2CSendByte (load (buffer + i) s) s
      if r.1 = 0 then (I2C_E_INCOMPLETE, r.2)
      else HalI2CWriteRegisters.loop buffer len fuel ((i + 1) % 65536) ret r.2
    else (ret, s)

def HalI2CWriteRegisters (address reg buffer len : Nat) (s : State) : Int × State :=
  if buffer = NULL then (I2C_E_INVAL, s)
  else
    let st := HalI2CStart s
    if st.1 ≠ I2C_SUCCESS then (st.1, st.2)
    else
      let a := HalI2CSendByte (addressByte address I2C_OP_WRITE) st.2
      let body : Int × State :=
        if a.1 ≠ I2C_ACK then (I2C_E_NODEV, a.2)
        else
          let r := HalI2CSendByte (reg % 256) a.2
          if r.1 ≠ I2C_ACK then (I2C_E_REG, r.2)
          else HalI2CWriteRegisters.loop buffer len 65536 0 st.1 r.2
      let sp := HalI2CStop body.2
      if sp.1 ≠ I2C_SUCCESS then (I2C_E_ARB, sp.2) else (body.1, sp.2)

/-! ## Vocabulary of the statements -/

/-- Shifting `n` successive levels of a data-line stream into `rval`, the way
the body of the bit loop of `HalI2CReceiveByte` does. -/
def shiftIn : Nat → Nat → (Nat → Bool) → Nat
  | 0, rval, _ => rval
  | n + 1, rval, sda =>
    shiftIn n (((rval <<< 1) ||| (if sda 0 then 1 else 0)) % 256) (fun k => sda (k + 1))

/-- The byte whose bits, most significant first, are the levels `sda off`, ...,
`sda (off + 7)`. -/
def sampledByte (sda : Nat → Bool) (off : Nat) : Nat :=
  (sda off).toNat * 128 + (sda (off + 1)).toNat * 64 + (sda (off + 2)).toNat * 32 +
  (sda (off + 3)).toNat * 16 + (sda (off + 4)).toNat * 8 + (sda (off + 5)).toNat * 4 +
  (sda (off + 6)).toNat * 2 + (sda (off + 7)).toNat

/-- Number of iterations of the loop `for (i = 0; i < len - 1; i++)` of
`HalI2CReceive`: `len - 1` for `len ≥ 1`; for `len = 0` it is `0` with an `int`
wider than 16 bits and `65535` with a 16-bit `int`. -/
def receiveLoopCount (intBits len : Nat) : Nat :=
  if 16 < intBits then len - 1 else (len + 65535) % 65536

/-- Number of times the master has pulled the clock line low: once at the end
of a successful START and once at the end of each of the nine bit cells of a
byte, so nine per byte clocked on the bus. -/
def clockPulses (t : List Event) : Nat :=
  t.count (.latch .scl false)

/-- Pin-level actions that neither make a pin an output nor write a latch:
releasing a line, reading a line, waiting. -/
def Event.passive : Event → Bool
  | .dir _ out => !out
  | .latch _ _ => false
  | .sample _ _ => true
  | .wait _ => true

/-- The common tail of the four transactions,
`if (HalI2CStop() != I2C_SUCCESS) return I2C_E_ARB; return ret;`, applied to the
value of `ret` and the state reached before it. -/
def stopAndReturn (body : Int × State) : Int × State :=
  if (HalI2CStop body.2).1 ≠ I2C_SUCCESS then (I2C_E_ARB, (HalI2CStop body.2).2)
  else (body.1, (HalI2CStop body.2).2)

/-- An idle bus after reset and `HalI2CInit`: both pins inputs, both latches at
their reset value `1`, empty logs; `scl` and `sda` are the levels the lines will
show and `mem` the memory contents. -/
def idleBus (scl sda : Nat → Bool) (mem : Nat → Nat) : State :=
  { cfg := { sclSel := false, sdaSel := false, sclInp := false, sdaInp := false,
             sclPdn := false, sdaPdn := false },
    sclDir := false, sclOut := true, sdaDir := false, sdaOut := true,
    sclIn := scl, sdaIn := sda, mem := mem, trace := [], calls := [] }

/-- A peripheral that never stretches the clock and never acknowledges. -/
def absentDevice : State :=
  idleBus (fun _ => true) (fun _ => true) (fun _ => 0)

/-- A peripheral that never stretches the clock, acknowledges the address byte
and rejects the register index. -/
def registerRejected : State :=
  idleBus (fun _ => true) (fun k => decide (k = 1)) (fun _ => 0)

/-- A bus whose clock line is held low by another agent. -/
def clockStuckLow : State :=
  idleBus (fun _ => false) (fun _ => true) (fun _ => 0)

/-- Memory holding the three bytes `0x11, 0x22, 0x33` at `0x100`. -/
def threeBytes : Nat → Nat :=
  fun a => if a = 0x100 then 0x11 else if a = 0x101 then 0x22 else if a = 0x102 then 0x33 else 0

/-- A peripheral that never stretches the clock and acknowledges every byte but
the third one it is sent. -/
def thirdByteRejected : State :=
  idleBus (fun _ => true) (fun k => decide (k = 2)) threeBytes

/-- A peripheral that never stretches the clock, acknowledges the address byte
and then answers with the data-line levels `k % 3 = 1`, that is with the bytes
`0x92, 0x49, 0x24, ...`. -/
def talkingDevice : State :=
  idleBus (fun _ => true) (fun k => decide (k % 3 = 1)) (fun _ => 0)

/-- A peripheral that never stretches the clock, acknowledges the address byte
and then leaves the data line high, that is answers `0xFF` forever. -/
def idleHighDevice : State :=
  idleBus (fun _ => true) (fun k => decide (k ≠ 0)) (fun _ => 0)

/-- A peripheral that never stretches the clock and acknowledges every byte but
the fourth one it is sent: in a register write, the address, the register index
and the first data byte are acknowledged and the second data byte is not. -/
def fourthByteRejected : State :=
  idleBus (fun _ => true) (fun k => decide (k = 3)) threeBytes

/-- A peripheral that never stretches the clock, acknowledges the first two
bytes it is sent and rejects every later one. -/
def dataRejected : State :=
  idleBus (fun _ => true) (fun k => decide (2 ≤ k)) threeBytes

/-- A peripheral that never stretches the clock and acknowledges every byte it
is sent. -/
def acknowledgingDevice : State :=
  idleBus (fun _ => true) (fun _ => false) threeBytes

/-- A peripheral that never stretches the clock, acknowledges three bytes and
then answers with the data-line levels `k % 5 = 4`, that is with the bytes
`0x42, 0x10, 0x84, 0x21, ...`. -/
def registerDevice : State :=
  idleBus (fun _ => true) (fun k => decide (k % 5 = 4)) (fun _ => 0)

/-- The state in which the write phase of `HalI2CReadRegisters` ends when it
hands over to `HalI2CReceive`: after START, the address byte with the write
bit, and the register index. -/
def afterWritePhase (address reg : Nat) (s : State) : State :=
  (HalI2CSendByte (reg % 256)
    (HalI2CSendByte (addressByte address I2C_OP_WRITE) (HalI2CStart s).2).2).2

/-- Number of START calls in a call log. -/
def startCount (cs : List Call) : Nat :=
  cs.countP (fun c => match c with
    | .start _ => true
    | _ => false)

/-- A bus without a peripheral whose clock line reads high for START and for
the nine bit cells of one byte and is then held low for good, so that STOP
times out. -/
def stopTimeout : State :=
  idleBus (fun k => decide (k < 10)) (fun _ => true) (fun _ => 0)

/-- How the outcome `r` of a transaction relates to its STOP: a STOP that
failed makes the result `I2C_E_ARB`, and one of the errors recorded before STOP
is the result only if STOP succeeded. -/
def StopOverrides (r : Int × State) : Prop :=
  (∀ rs, r.2.calls.getLast? = some (.stop rs) → rs ≠ I2C_SUCCESS → r.1 = I2C_E_ARB) ∧
  (r.1 = I2C_E_NODEV ∨ r.1 = I2C_E_INCOMPLETE ∨ r.1 = I2C_E_REG →
    r.2.calls.getLast? = some (.stop I2C_SUCCESS))

/-- Number of STOP calls in a call log. -/
def stopCount (cs : List Call) : Nat :=
  cs.countP (fun c => match c with
    | .stop _ => true
    | _ => false)

/-- Calls of the two byte primitives. -/
def Call.isByte : Call → Bool
  | .sendByte _ _ => true
  | .receiveByte _ _ => true
  | _ => false

/-- A bus without a peripheral whose clock line reads high but for the second
START of a register read: high for the first START and two bytes (nineteen
reads), then held low. -/
def secondStartTimeout : State :=
  idleBus (fun k => decide (k < 19)) (fun _ => false) (fun _ => 0)

/-- Number of reads of the clock line in a trace. -/
def clockReads (t : List Event) : Nat :=
  t.countP (fun e => match e with
    | .sample .scl _ => true
    | _ => false)

/-- Number of inter-poll delays `OCM_SSWAIT()` in a trace. -/
def pollWaits (t : List Event) : Nat :=
  t.count (.wait 1000)

/-- Pin-level actions of `OCM_SDA_HIGH()` (for `true`: the data line is
released) and of `OCM_SDA_LOW()` (for `false`: the data line is driven low). -/
def sdaDrive (bit : Bool) : List Event :=
  if bit then [.dir .sda false] else [.dir .sda true, .latch .sda false]

/-- Pin-level actions of `OCM_SCL_LOW()`, which end every bit cell. -/
def sclLowEvents : List Event :=
  [.dir .scl true, .latch .scl false]

/-- Pin-level actions that can occur while the clock is released in a bit
cell: releasing the clock line, reading it, waiting. None of them touches the
data pin. -/
def Event.clockSide : Event → Bool
  | .dir .scl out => !out
  | .sample .scl _ => true
  | .wait _ => true
  | _ => false

/-- Number of stretch waits `OCM_STRETCH()` in a trace. -/
def stretchWaits (t : List Event) : Nat :=
  t.count (.wait 10)

/-- The clock-high half of a bit cell: only actions on the clock side, of which
at most `HAL_I2C_STRETCH_WAITS` stretch waits. -/
def ClockHigh (clk : List Event) : Prop :=
  clk.all Event.clockSide = true ∧ stretchWaits clk ≤ HAL_I2C_STRETCH_WAITS

/-- A bit cell in which the master puts `bit` on the data line: the data pin is
set, then the clock is released and, after the clock-high half, pulled low. -/
def SendCell (bit : Bool) (cell : List Event) : Prop :=
  ∃ clk, ClockHigh clk ∧ cell = sdaDrive bit ++ [.wait 2] ++ clk ++ sclLowEvents

/-- A bit cell in which the master releases the data line and reads it, as `v`,
at the end of the clock-high half, before pulling the clock low. -/
def ReadCell (v : Bool) (cell : List Event) : Prop :=
  ∃ clk, ClockHigh clk ∧
    cell = [.dir .sda false, .wait 2] ++ clk ++ [.sample .sda v] ++ sclLowEvents

/-- Direction bits and output latches of the two pins. -/
structure Pins where
  sclDir : Bool
  sclOut : Bool
  sdaDir : Bool
  sdaOut : Bool
  deriving DecidableEq, Repr

/-- The pins of a machine state. -/
def State.pins (s : State) : Pins :=
  { sclDir := s.sclDir, sclOut := s.sclOut, sdaDir := s.sdaDir, sdaOut := s.sdaOut }

/-- The effect of one pin-level action on the pins. -/
def Pins.step (p : Pins) : Event → Pins
  | .dir .scl out => { p with sclDir := out }
  | .dir .sda out => { p with sdaDir := out }
  | .latch .scl v => { p with sclOut := v }
  | .latch .sda v => { p with sdaOut := v }
  | .sample _ _ => p
  | .wait _ => p

/-- The pin states reached while the actions `evs` are performed from `p`, one
state after each action, in order. The state between the two register writes
of `OCM_SCL_LOW()` or `OCM_SDA_LOW()` is one of them. -/
def Pins.reached (p : Pins) : List Event → List Pins
  | [] => []
  | e :: evs => p.step e :: (p.step e).reached evs

/-- A line is actively driven high: its pin is an output and its latch is 1. -/
def Pins.drivenHigh (p : Pins) : Bool :=
  (p.sclDir && p.sclOut) || (p.sdaDir && p.sdaOut)

/-- An action that writes 1 to an output latch. -/
def Event.writesOne : Event → Bool
  | .latch _ v => v
  | _ => false

/-- The state `t` comes from `s` by pin-level actions that are all logged in
the trace, that account for the pins of `t`, and none of which writes 1 to a
latch. -/
def Traced (s t : State) : Prop :=
  ∃ evs, t.trace = s.trace ++ evs ∧ t.pins = evs.foldl Pins.step s.pins ∧
    evs.all (fun e => !e.writesOne) = true

/-- The driver at its first use after power-up: `HalI2CInit` has run on the
reset state of the port (both pins inputs, both latches at 1), no transaction
has been made yet, and no peripheral answers. -/
def firstUse : State :=
  HalI2CInit absentDevice

/-- The pin states reached while an operation runs from `s` to `t`: the replay,
from the pins of `s`, of the pin actions the operation added to the trace. -/
def reachedDuring (s t : State) : List Pins :=
  s.pins.reached (t.trace.drop s.trace.length)

/-! ## Frame lemmas: what each primitive leaves alone -/

section Frame

variable (s : State)

@[simp] theorem emit_trace (e : Event) : (emit e s).trace = s.trace ++ [e] := rfl
@[simp] theorem emit_calls (e : Event) : (emit e s).calls = s.calls := rfl
@[simp] theorem emit_sdaIn (e : Event) : (emit e s).sdaIn = s.sdaIn := rfl
@[simp] theorem emit_sclIn (e : Event) : (emit e s).sclIn = s.sclIn := rfl
@[simp] theorem emit_mem (e : Event) : (emit e s).mem = s.mem := rfl
@[simp] theorem emit_sclDir (e : Event) : (emit e s).sclDir = s.sclDir := rfl
@[simp] theorem emit_sclOut (e : Event) : (emit e s).sclOut = s.sclOut := rfl
@[simp] theorem emit_sdaDir (e : Event) : (emit e s).sdaDir = s.sdaDir := rfl
@[simp] theorem emit_sdaOut (e : Event) : (emit e s).sdaOut = s.sdaOut := rfl

@[simp] theorem logCall_trace (c : Call) : (logCall c s).trace = s.trace := rfl
@[simp] theorem logCall_calls (c : Call) : (logCall c s).calls = s.calls ++ [c] := rfl
@[simp] theorem logCall_sdaIn (c : Call) : (logCall c s).sdaIn = s.sdaIn := rfl
@[simp] theorem logCall_sclIn (c : Call) : (logCall c s).sclIn = s.sclIn := rfl
@[simp] theorem logCall_mem (c : Call) : (logCall c s).mem = s.mem := rfl
@[simp] theorem logCall_sclDir (c : Call) : (logCall c s).sclDir = s.sclDir := rfl
@[simp] theorem logCall_sclOut (c : Call) : (logCall c s).sclOut = s.sclOut := rfl
@[simp] theorem logCall_sdaDir (c : Call) : (logCall c s).sdaDir = s.sdaDir := rfl
@[simp] theorem logCall_sdaOut (c : Call) : (logCall c s).sdaOut = s.sdaOut := rfl

@[simp] theorem store_trace (a v : Nat) : (store a v s).trace = s.trace := rfl
@[simp] theorem store_calls (a v : Nat) : (store a v s).calls = s.calls := rfl
@[simp] theorem store_sdaIn (a v : Nat) : (store a v s).sdaIn = s.sdaIn := rfl
@[simp] theorem store_sclIn (a v : Nat) : (store a v s).sclIn = s.sclIn := rfl
@[simp] theorem store_sclDir (a v : Nat) : (store a v s).sclDir = s.sclDir := rfl
@[simp] theorem store_sclOut (a v : Nat) : (store a v s).sclOut = s.sclOut := rfl
@[simp] theorem store_sdaDir (a v : Nat) : (store a v s).sdaDir = s.sdaDir := rfl
@[simp] theorem store_sdaOut (a v : Nat) : (store a v s).sdaOut = s.sdaOut := rfl
theorem store_mem (a v x : Nat) :
    (store a v s).mem x = if x = a then v % 256 else s.mem x := rfl

@[simp] theorem OCM_SCL_HIGH_trace : (OCM_SCL_HIGH s).trace = s.trace ++ [.dir .scl false] := by
  simp [OCM_SCL_HIGH, IO_PIN_set, IO_DIR_PORT_PIN, MicroWait, IO_IN, IO_OUT]
@[simp] theorem OCM_SCL_HIGH_calls : (OCM_SCL_HIGH s).calls = s.calls := rfl
@[simp] theorem OCM_SCL_HIGH_mem : (OCM_SCL_HIGH s).mem = s.mem := rfl
@[simp] theorem OCM_SCL_HIGH_sdaIn : (OCM_SCL_HIGH s).sdaIn = s.sdaIn := rfl
@[simp] theorem OCM_SCL_HIGH_sclIn : (OCM_SCL_HIGH s).sclIn = s.sclIn := rfl
@[simp] theorem OCM_SCL_HIGH_sclDir : (OCM_SCL_HIGH s).sclDir = false := rfl
@[simp] theorem OCM_SCL_HIGH_sclOut : (OCM_SCL_HIGH s).sclOut = s.sclOut := rfl
@[simp] theorem OCM_SCL_HIGH_sdaDir : (OCM_SCL_HIGH s).sdaDir = s.sdaDir := rfl
@[simp] theorem OCM_SCL_HIGH_sdaOut : (OCM_SCL_HIGH s).sdaOut = s.sdaOut := rfl

@[simp] theorem OCM_SCL_LOW_trace : (OCM_SCL_LOW s).trace = s.trace ++ [.dir .scl true, .latch .scl false] := by
  simp [OCM_SCL_LOW, IO_PIN_set, IO_DIR_PORT_PIN, MicroWait, IO_IN, IO_OUT]
@[simp] theorem OCM_SCL_LOW_calls : (OCM_SCL_LOW s).calls = s.calls := rfl
@[simp] theorem OCM_SCL_LOW_mem : (OCM_SCL_LOW s).mem = s.mem := rfl
@[simp] theorem OCM_SCL_LOW_sdaIn : (OCM_SCL_LOW s).sdaIn = s.sdaIn := rfl
@[simp] theorem OCM_SCL_LOW_sclIn : (OCM_SCL_LOW s).sclIn = s.sclIn := rfl
@[simp] theorem OCM_SCL_LOW_sclDir : (OCM_SCL_LOW s).sclDir = true := rfl
@[simp] theorem OCM_SCL_LOW_sclOut : (OCM_SCL_LOW s).sclOut = false := rfl
@[simp] theorem OCM_SCL_LOW_sdaDir : (OCM_SCL_LOW s).sdaDir = s.sdaDir := rfl
@[simp] theorem OCM_SCL_LOW_sdaOut : (OCM_SCL_LOW s).sdaOut = s.sdaOut := rfl

@[simp] theorem OCM_SDA_HIGH_trace : (OCM_SDA_HIGH s).trace = s.trace ++ [.dir .sda false] := by
  simp [OCM_SDA_HIGH, IO_PIN_set, IO_DIR_PORT_PIN, MicroWait, IO_IN, IO_OUT]
@[simp] theorem OCM_SDA_HIGH_calls : (OCM_SDA_HIGH s).calls = s.calls := rfl
@[simp] theorem OCM_SDA_HIGH_mem : (OCM_SDA_HIGH s).mem = s.mem := rfl
@[simp] theorem OCM_SDA_HIGH_sdaIn : (OCM_SDA_HIGH s).sdaIn = s.sdaIn := rfl
@[simp] theorem OCM_SDA_HIGH_sclIn : (OCM_SDA_HIGH s).sclIn = s.sclIn := rfl
@[simp] theorem OCM_SDA_HIGH_sclDir : (OCM_SDA_HIGH s).sclDir = s.sclDir := rfl
@[simp] theorem OCM_SDA_HIGH_sclOut : (OCM_SDA_HIGH s).sclOut = s.sclOut := rfl
@[simp] theorem OCM_SDA_HIGH_sdaDir : (OCM_SDA_HIGH s).sdaDir = false := rfl
@[simp] theorem OCM_SDA_HIGH_sdaOut : (OCM_SDA_HIGH s).sdaOut = s.sdaOut := rfl

@[simp] theorem OCM_SDA_LOW_trace : (OCM_SDA_LOW s).trace = s.trace ++ [.dir .sda true, .latch .sda false] := by
  simp [OCM_SDA_LOW, IO_PIN_set, IO_DIR_PORT_PIN, MicroWait, IO_IN, IO_OUT]
@[simp] theorem OCM_SDA_LOW_calls : (OCM_SDA_LOW s).calls = s.calls := rfl
@[simp] theorem OCM_SDA_LOW_mem : (OCM_SDA_LOW s).mem = s.mem := rfl
@[simp] theorem OCM_SDA_LOW_sdaIn : (OCM_SDA_LOW s).sdaIn = s.sdaIn := rfl
@[simp] theorem OCM_SDA_LOW_sclIn : (OCM_SDA_LOW s).sclIn = s.sclIn := rfl
@[simp] theorem OCM_SDA_LOW_sclDir : (OCM_SDA_LOW s).sclDir = s.sclDir := rfl
@[simp] theorem OCM_SDA_LOW_sclOut : (OCM_SDA_LOW s).sclOut = s.sclOut := rfl
@[simp] theorem OCM_SDA_LOW_sdaDir : (OCM_SDA_LOW s).sdaDir = true := rfl
@[simp] theorem OCM_SDA_LOW_sdaOut : (OCM_SDA_LOW s).sdaOut = false := rfl

@[simp] theorem OCM_HPERIOD_trace : (OCM_HPERIOD s).trace = s.trace ++ [.wait 2] := by
  simp [OCM_HPERIOD, IO_PIN_set, IO_DIR_PORT_PIN, MicroWait, IO_IN, IO_OUT]
@[simp] theorem OCM_HPERIOD_calls : (OCM_HPERIOD s).calls = s.calls := rfl
@[simp] theorem OCM_HPERIOD_mem : (OCM_HPERIOD s).mem = s.mem := rfl
@[simp] theorem OCM_HPERIOD_sdaIn : (OCM_HPERIOD s).sdaIn = s.sdaIn := rfl
@[simp] theorem OCM_HPERIOD_sclIn : (OCM_HPERIOD s).sclIn = s.sclIn := rfl
@[simp] theorem OCM_HPERIOD_sclDir : (OCM_HPERIOD s).sclDir = s.sclDir := rfl
@[simp] theorem OCM_HPERIOD_sclOut : (OCM_HPERIOD s).sclOut = s.sclOut := rfl
@[simp] theorem OCM_HPERIOD_sdaDir : (OCM_HPERIOD s).sdaDir = s.sdaDir := rfl
@[simp] theorem OCM_HPERIOD_sdaOut : (OCM_HPERIOD s).sdaOut = s.sdaOut := rfl

@[simp] theorem OCM_STRETCH_trace : (OCM_STRETCH s).trace = s.trace ++ [.wait 10] := by
  simp [OCM_STRETCH, IO_PIN_set, IO_DIR_PORT_PIN, MicroWait, IO_IN, IO_OUT]
@[simp] theorem OCM_STRETCH_calls : (OCM_STRETCH s).calls = s.calls := rfl
@[simp] theorem OCM_STRETCH_mem : (OCM_STRETCH s).mem = s.mem := rfl
@[simp] theorem OCM_STRETCH_sdaIn : (OCM_STRETCH s).sdaIn = s.sdaIn := rfl
@[simp] theorem OCM_STRETCH_sclIn : (OCM_STRETCH s).sclIn = s.sclIn := rfl
@[simp] theorem OCM_STRETCH_sclDir : (OCM_STRETCH s).sclDir = s.sclDir := rfl
@[simp] theorem OCM_STRETCH_sclOut : (OCM_STRETCH s).sclOut = s.sclOut := rfl
@[simp] theorem OCM_STRETCH_sdaDir : (OCM_STRETCH s).sdaDir = s.sdaDir := rfl
@[simp] theorem OCM_STRETCH_sdaOut : (OCM_STRETCH s).sdaOut = s.sdaOut := rfl

@[simp] theorem OCM_SSWAIT_trace : (OCM_SSWAIT s).trace = s.trace ++ [.wait 1000] := by
  simp [OCM_SSWAIT, IO_PIN_set, IO_DIR_PORT_PIN, MicroWait, IO_IN, IO_OUT]
@[simp] theorem OCM_SSWAIT_calls : (OCM_SSWAIT s).calls = s.calls := rfl
@[simp] theorem OCM_SSWAIT_mem : (OCM_SSWAIT s).mem = s.mem := rfl
@[simp] theorem OCM_SSWAIT_sdaIn : (OCM_SSWAIT s).sdaIn = s.sdaIn := rfl
@[simp] theorem OCM_SSWAIT_sclIn : (OCM_SSWAIT s).sclIn = s.sclIn := rfl
@[simp] theorem OCM_SSWAIT_sclDir : (OCM_SSWAIT s).sclDir = s.sclDir := rfl
@[simp] theorem OCM_SSWAIT_sclOut : (OCM_SSWAIT s).sclOut = s.sclOut := rfl
@[simp] theorem OCM_SSWAIT_sdaDir : (OCM_SSWAIT s).sdaDir = s.sdaDir := rfl
@[simp] theorem OCM_SSWAIT_sdaOut : (OCM_SSWAIT s).sdaOut = s.sdaOut := rfl

@[simp] theorem OCM_SCL_STATE_fst : (OCM_SCL_STATE s).1 = s.sclIn 0 := rfl
@[simp] theorem OCM_SCL_STATE_trace : (OCM_SCL_STATE s).2.trace = s.trace ++ [.sample .scl (s.sclIn 0)] := rfl
@[simp] theorem OCM_SCL_STATE_sclIn : (OCM_SCL_STATE s).2.sclIn = fun k => s.sclIn (k + 1) := rfl
@[simp] theorem OCM_SCL_STATE_sdaIn : (OCM_SCL_STATE s).2.sdaIn = s.sdaIn := rfl
@[simp] theorem OCM_SCL_STATE_calls : (OCM_SCL_STATE s).2.calls = s.calls := rfl
@[simp] theorem OCM_SCL_STATE_mem : (OCM_SCL_STATE s).2.mem = s.mem := rfl
@[simp] theorem OCM_SCL_STATE_sclDir : (OCM_SCL_STATE s).2.sclDir = s.sclDir := rfl
@[simp] theorem OCM_SCL_STATE_sclOut : (OCM_SCL_STATE s).2.sclOut = s.sclOut := rfl
@[simp] theorem OCM_SCL_STATE_sdaDir : (OCM_SCL_STATE s).2.sdaDir = s.sdaDir := rfl
@[simp] theorem OCM_SCL_STATE_sdaOut : (OCM_SCL_STATE s).2.sdaOut = s.sdaOut := rfl

@[simp] theorem OCM_SDA_STATE_fst : (OCM_SDA_STATE s).1 = s.sdaIn 0 := rfl
@[simp] theorem OCM_SDA_STATE_trace : (OCM_SDA_STATE s).2.trace = s.trace ++ [.sample .sda (s.sdaIn 0)] := rfl
@[simp] theorem OCM_SDA_STATE_sdaIn : (OCM_SDA_STATE s).2.sdaIn = fun k => s.sdaIn (k + 1) := rfl
@[simp] theorem OCM_SDA_STATE_sclIn : (OCM_SDA_STATE s).2.sclIn = s.sclIn := rfl
@[simp] theorem OCM_SDA_STATE_calls : (OCM_SDA_STATE s).2.calls = s.calls := rfl
@[simp] theorem OCM_SDA_STATE_mem : (OCM_SDA_STATE s).2.mem = s.mem := rfl
@[simp] theorem OCM_SDA_STATE_sclDir : (OCM_SDA_STATE s).2.sclDir = s.sclDir := rfl
@[simp] theorem OCM_SDA_STATE_sclOut : (OCM_SDA_STATE s).2.sclOut = s.sclOut := rfl
@[simp] theorem OCM_SDA_STATE_sdaDir : (OCM_SDA_STATE s).2.sdaDir = s.sdaDir := rfl
@[simp] theorem OCM_SDA_STATE_sdaOut : (OCM_SDA_STATE s).2.sdaOut = s.sdaOut := rfl

theorem stretchLoop_frame (fuel stretch : Nat) :
    (stretchLoop fuel stretch s).2.calls = s.calls ∧
    (stretchLoop fuel stretch s).2.mem = s.mem ∧
    (stretchLoop fuel stretch s).2.sdaIn = s.sdaIn ∧
    (stretchLoop fuel stretch s).2.sclDir = s.sclDir ∧
    (stretchLoop fuel stretch s).2.sclOut = s.sclOut ∧
    (stretchLoop fuel stretch s).2.sdaDir = s.sdaDir ∧
    (stretchLoop fuel stretch s).2.sdaOut = s.sdaOut := by
  induction fuel generalizing stretch s with
  | zero => simp [stretchLoop]
  | succ fuel ih =>
    simp only [stretchLoop]
    split
    · have h := ih (OCM_STRETCH (OCM_SCL_STATE s).2) ((stretch + 1) % 256)
      simpa using h
    · simp

theorem clockHigh_frame :
    (clockHigh s).calls = s.calls ∧ (clockHigh s).mem = s.mem ∧
    (clockHigh s).sdaIn = s.sdaIn ∧ (clockHigh s).sclDir = false ∧
    (clockHigh s).sclOut = s.sclOut ∧ (clockHigh s).sdaDir = s.sdaDir ∧
    (clockHigh s).sdaOut = s.sdaOut := by
  have h := stretchLoop_frame (OCM_HPERIOD (OCM_SCL_HIGH s)) (HAL_I2C_STRETCH_WAITS + 1) 0
  simp only [clockHigh]
  split <;> simpa using h

@[simp] theorem clockHigh_calls : (clockHigh s).calls = s.calls := (clockHigh_frame s).1
@[simp] theorem clockHigh_mem : (clockHigh s).mem = s.mem := (clockHigh_frame s).2.1
@[simp] theorem clockHigh_sdaIn : (clockHigh s).sdaIn = s.sdaIn := (clockHigh_frame s).2.2.1
@[simp] theorem clockHigh_sclDir : (clockHigh s).sclDir = false := (clockHigh_frame s).2.2.2.1
@[simp] theorem clockHigh_sclOut : (clockHigh s).sclOut = s.sclOut := (clockHigh_frame s).2.2.2.2.1
@[simp] theorem clockHigh_sdaDir : (clockHigh s).sdaDir = s.sdaDir := (clockHigh_frame s).2.2.2.2.2.1
@[simp] theorem clockHigh_sdaOut : (clockHigh s).sdaOut = s.sdaOut := (clockHigh_frame s).2.2.2.2.2.2

theorem HalI2CSendByte_bits_frame (n value : Nat) :
    (HalI2CSendByte.bits n value s).calls = s.calls ∧
    (HalI2CSendByte.bits n value s).mem = s.mem ∧
    (HalI2CSendByte.bits n value s).sdaIn = s.sdaIn := by
  induction n generalizing value s with
  | zero => simp [HalI2CSendByte.bits]
  | succ n ih =>
    simp only [HalI2CSendByte.bits]
    split
    · simpa using ih (OCM_SCL_LOW (clockHigh (OCM_HPERIOD (OCM_SDA_HIGH s)))) ((value <<< 1) % 256)
    · simpa using ih (OCM_SCL_LOW (clockHigh (OCM_HPERIOD (OCM_SDA_LOW s)))) ((value <<< 1) % 256)

/-- What `HalI2CSendByte` returns and logs: the acknowledge bit is the next
level of the data line, one data-line read is consumed, memory is untouched. -/
theorem HalI2CSendByte_spec (value : Nat) :
    (HalI2CSendByte value s).1 = (if s.sdaIn 0 then I2C_NAK else I2C_ACK) ∧
    (HalI2CSendByte value s).2.calls =
      s.calls ++ [.sendByte value (if s.sdaIn 0 then I2C_NAK else I2C_ACK)] ∧
    (HalI2CSendByte value s).2.sdaIn = (fun k => s.sdaIn (k + 1)) ∧
    (HalI2CSendByte value s).2.mem = s.mem := by
  have h := HalI2CSendByte_bits_frame s 8 value
  simp [HalI2CSendByte, h.1, h.2.1, h.2.2, I2C_NAK, I2C_ACK]

theorem shiftIn_eight (sda : Nat → Bool) : shiftIn 8 0 sda = sampledByte sda 0 := by
  simp only [shiftIn, sampledByte, Nat.zero_add, Nat.reduceAdd]
  generalize sda 0 = b0
  generalize sda 1 = b1
  generalize sda 2 = b2
  generalize sda 3 = b3
  generalize sda 4 = b4
  generalize sda 5 = b5
  generalize sda 6 = b6
  generalize sda 7 = b7
  revert b0 b1 b2 b3 b4 b5 b6 b7
  decide

theorem HalI2CReceiveByte_bits_frame (n rval : Nat) :
    (HalI2CReceiveByte.bits n rval s).1 = shiftIn n rval s.sdaIn ∧
    (HalI2CReceiveByte.bits n rval s).2.calls = s.calls ∧
    (HalI2CReceiveByte.bits n rval s).2.mem = s.mem ∧
    (HalI2CReceiveByte.bits n rval s).2.sdaIn = (fun k => s.sdaIn (k + n)) := by
  induction n generalizing rval s with
  | zero => simp [HalI2CReceiveByte.bits, shiftIn]
  | succ n ih =>
    simp only [HalI2CReceiveByte.bits, shiftIn]
    have h := ih (OCM_SCL_LOW (OCM_SDA_STATE (clockHigh (OCM_HPERIOD (OCM_SDA_HIGH s)))).2)
      (((rval <<< 1) ||| (if (OCM_SDA_STATE (clockHigh (OCM_HPERIOD (OCM_SDA_HIGH s)))).1
        then 1 else 0)) % 256)
    simp only [OCM_SCL_LOW_calls, OCM_SCL_LOW_mem, OCM_SCL_LOW_sdaIn, OCM_SDA_STATE_fst,
      OCM_SDA_STATE_calls, OCM_SDA_STATE_mem, OCM_SDA_STATE_sdaIn, clockHigh_calls, clockHigh_mem,
      clockHigh_sdaIn, OCM_HPERIOD_calls, OCM_HPERIOD_mem, OCM_HPERIOD_sdaIn, OCM_SDA_HIGH_calls,
      OCM_SDA_HIGH_mem, OCM_SDA_HIGH_sdaIn] at h ⊢
    refine ⟨h.1, h.2.1, h.2.2.1, ?_⟩
    rw [h.2.2.2]
    funext k
    rw [Nat.add_assoc, Nat.add_comm n 1]

/-- What `HalI2CReceiveByte` returns and logs: the byte assembled from the next
eight levels of the data line, most significant first; eight data-line reads
are consumed, memory is untouched, and the data pin is left driven low for an
acknowledge (`ack = 0`) and released otherwise. -/
theorem HalI2CReceiveByte_spec (ack : Int) :
    (HalI2CReceiveByte ack s).1 = sampledByte s.sdaIn 0 ∧
    (HalI2CReceiveByte ack s).2.calls = s.calls ++ [.receiveByte ack (sampledByte s.sdaIn 0)] ∧
    (HalI2CReceiveByte ack s).2.sdaIn = (fun k => s.sdaIn (k + 8)) ∧
    (HalI2CReceiveByte ack s).2.mem = s.mem ∧
    (HalI2CReceiveByte ack s).2.sdaDir = decide (ack = 0) ∧
    (ack = 0 → (HalI2CReceiveByte ack s).2.sdaOut = false) := by
  have h := HalI2CReceiveByte_bits_frame s 8 0
  rw [shiftIn_eight] at h
  simp only [HalI2CReceiveByte]
  by_cases hack : ack = 0
  · simp [hack, h.1, h.2.1, h.2.2.1, h.2.2.2]
  · simp [hack, h.1, h.2.1, h.2.2.1, h.2.2.2]

theorem HalI2CStart_poll_frame (retry : Nat) :
    (HalI2CStart.poll retry s).2.calls = s.calls ∧
    (HalI2CStart.poll retry s).2.mem = s.mem ∧
    (HalI2CStart.poll retry s).2.sdaIn = s.sdaIn := by
  induction retry generalizing s with
  | zero => simp only [HalI2CStart.poll]; split <;> simp
  | succ retry ih =>
    simp only [HalI2CStart.poll]
    split
    · simp
    · simpa using ih (OCM_SSWAIT (OCM_SCL_STATE s).2)

theorem HalI2CStop_poll_frame (retry : Nat) (ret : Int) :
    (HalI2CStop.poll retry ret s).2.calls = s.calls ∧
    (HalI2CStop.poll retry ret s).2.mem = s.mem ∧
    (HalI2CStop.poll retry ret s).2.sdaIn = s.sdaIn ∧
    ((HalI2CStop.poll retry ret s).1 = ret ∨ (HalI2CStop.poll retry ret s).1 = I2C_E_ARB) := by
  induction retry generalizing s with
  | zero => simp only [HalI2CStop.poll]; split <;> simp
  | succ retry ih =>
    simp only [HalI2CStop.poll]
    split
    · simp
    · simpa using ih (OCM_SSWAIT (OCM_SCL_STATE s).2)

/-- What `HalI2CStart` returns and logs; it reads no data-line level and
touches no memory. -/
theorem HalI2CStart_spec :
    ((HalI2CStart s).1 = I2C_SUCCESS ∨ (HalI2CStart s).1 = I2C_E_ARB) ∧
    (HalI2CStart s).2.calls = s.calls ++ [.start (HalI2CStart s).1] ∧
    (HalI2CStart s).2.sdaIn = s.sdaIn ∧
    (HalI2CStart s).2.mem = s.mem := by
  have h := HalI2CStart_poll_frame
    (OCM_HPERIOD (OCM_SCL_HIGH (OCM_HPERIOD (OCM_SDA_HIGH s)))) HAL_I2C_STARTSTOP_WAITS
  simp only [HalI2CStart]
  split <;> simp [h.1, h.2.1, h.2.2]

/-- What `HalI2CStop` returns and logs; it reads no data-line level and
touches no memory. -/
theorem HalI2CStop_spec :
    ((HalI2CStop s).1 = I2C_SUCCESS ∨ (HalI2CStop s).1 = I2C_E_ARB) ∧
    (HalI2CStop s).2.calls = s.calls ++ [.stop (HalI2CStop s).1] ∧
    (HalI2CStop s).2.sdaIn = s.sdaIn ∧
    (HalI2CStop s).2.mem = s.mem := by
  have h := HalI2CStop_poll_frame
    (OCM_HPERIOD (OCM_SCL_HIGH (OCM_HPERIOD (OCM_SDA_LOW s)))) HAL_I2C_STARTSTOP_WAITS I2C_SUCCESS
  simp only [HalI2CStop]
  simp [h.1, h.2.1, h.2.2.1, h.2.2.2]

end Frame

/-! ## Fuel of the loops is never exhausted -/

theorem stretchLoop_succ (fuel stretch : Nat) (s : State) :
    stretchLoop (fuel + 1) stretch s =
      if !(OCM_SCL_STATE s).1 && decide (stretch < HAL_I2C_STRETCH_WAITS) then
        stretchLoop fuel ((stretch + 1) % 256) (OCM_STRETCH (OCM_SCL_STATE s).2)
      else (stretch, (OCM_SCL_STATE s).2) := rfl

theorem stretchLoop_fuel (fuel stretch : Nat) (s : State) (hf : 1 ≤ fuel)
    (h : HAL_I2C_STRETCH_WAITS + 1 ≤ fuel + stretch) :
    stretchLoop (fuel + 1) stretch s = stretchLoop fuel stretch s := by
  induction fuel generalizing stretch s with
  | zero => omega
  | succ fuel ih =>
    rw [stretchLoop_succ (fuel + 1) stretch s, stretchLoop_succ fuel stretch s]
    split
    · rename_i hc
      simp only [Bool.and_eq_true, decide_eq_true_eq] at hc
      have hw : HAL_I2C_STRETCH_WAITS = 100 := rfl
      have hm : (stretch + 1) % 256 = stretch + 1 := Nat.mod_eq_of_lt (by omega)
      rw [hm]
      exact ih (stretch + 1) _ (by omega) (by omega)
    · rfl

/-- The stretch loop as it is called, with fuel `HAL_I2C_STRETCH_WAITS + 1`,
gives the result any larger fuel gives. -/
theorem stretchLoop_fuel_enough (extra : Nat) (s : State) :
    stretchLoop (HAL_I2C_STRETCH_WAITS + 1 + extra) 0 s =
      stretchLoop (HAL_I2C_STRETCH_WAITS + 1) 0 s := by
  induction extra with
  | zero => rfl
  | succ extra ih =>
    rw [← Nat.add_assoc, stretchLoop_fuel _ _ _ (by omega) (by omega)]
    exact ih

/-! ## Clock pulses of the primitives -/

theorem clockPulses_append (t u : List Event) :
    clockPulses (t ++ u) = clockPulses t + clockPulses u := by
  simp [clockPulses]

theorem stretchLoop_pulses (fuel stretch : Nat) (s : State) :
    clockPulses (stretchLoop fuel stretch s).2.trace = clockPulses s.trace := by
  induction fuel generalizing stretch s with
  | zero => rfl
  | succ fuel ih =>
    rw [stretchLoop_succ]
    split
    · rw [ih]
      simp [clockPulses_append, clockPulses]
    · simp [clockPulses_append, clockPulses]

@[simp] theorem clockHigh_pulses (s : State) :
    clockPulses (clockHigh s).trace = clockPulses s.trace := by
  simp only [clockHigh]
  split
  · simp [clockPulses_append, stretchLoop_pulses]
    simp [clockPulses]
  · simp [clockPulses_append, stretchLoop_pulses]
    simp [clockPulses]

theorem HalI2CSendByte_bits_pulses (n value : Nat) (s : State) :
    clockPulses (HalI2CSendByte.bits n value s).trace = clockPulses s.trace + n := by
  induction n generalizing value s with
  | zero => rfl
  | succ n ih =>
    simp only [HalI2CSendByte.bits]
    rw [ih]
    split <;> simp [clockPulses_append] <;> simp [clockPulses] <;> omega

theorem HalI2CSendByte_pulses (value : Nat) (s : State) :
    clockPulses (HalI2CSendByte value s).2.trace = clockPulses s.trace + 9 := by
  simp [HalI2CSendByte, clockPulses_append, HalI2CSendByte_bits_pulses]
  simp [clockPulses]

theorem HalI2CReceiveByte_bits_pulses (n rval : Nat) (s : State) :
    clockPulses (HalI2CReceiveByte.bits n rval s).2.trace = clockPulses s.trace + n := by
  induction n generalizing rval s with
  | zero => rfl
  | succ n ih =>
    simp only [HalI2CReceiveByte.bits]
    rw [ih]
    simp [clockPulses_append]
    simp [clockPulses]
    omega

theorem HalI2CReceiveByte_pulses (ack : Int) (s : State) :
    clockPulses (HalI2CReceiveByte ack s).2.trace = clockPulses s.trace + 9 := by
  simp only [HalI2CReceiveByte]
  split <;> simp [clockPulses_append, HalI2CReceiveByte_bits_pulses] <;> simp [clockPulses]

theorem HalI2CStart_poll_pulses (retry : Nat) (s : State) :
    clockPulses (HalI2CStart.poll retry s).2.trace = clockPulses s.trace := by
  induction retry generalizing s with
  | zero => simp only [HalI2CStart.poll]; split <;> simp [clockPulses_append] <;> simp [clockPulses]
  | succ retry ih =>
    simp only [HalI2CStart.poll]
    split
    · simp [clockPulses_append]; simp [clockPulses]
    · rw [ih]; simp [clockPulses_append]; simp [clockPulses]

theorem HalI2CStop_poll_pulses (retry : Nat) (ret : Int) (s : State) :
    clockPulses (HalI2CStop.poll retry ret s).2.trace = clockPulses s.trace := by
  induction retry generalizing s with
  | zero => simp only [HalI2CStop.poll]; split <;> simp [clockPulses_append] <;> simp [clockPulses]
  | succ retry ih =>
    simp only [HalI2CStop.poll]
    split
    · simp [clockPulses_append]; simp [clockPulses]
    · rw [ih]; simp [clockPulses_append]; simp [clockPulses]

theorem HalI2CStart_pulses (s : State) :
    clockPulses (HalI2CStart s).2.trace =
      clockPulses s.trace + (if (HalI2CStart s).1 = I2C_SUCCESS then 1 else 0) := by
  simp only [HalI2CStart]
  split
  · simp [clockPulses_append, HalI2CStart_poll_pulses]; simp [clockPulses]
  · simp [clockPulses_append, HalI2CStart_poll_pulses, I2C_E_ARB, I2C_SUCCESS]; simp [clockPulses]

theorem HalI2CStop_pulses (s : State) :
    clockPulses (HalI2CStop s).2.trace = clockPulses s.trace := by
  simp [HalI2CStop, clockPulses_append, HalI2CStop_poll_pulses]
  simp [clockPulses]

/-! ## The transactions up to their STOP -/

theorem stopAndReturn_spec (body : Int × State) :
    (stopAndReturn body).2.calls = body.2.calls ++ [.stop (HalI2CStop body.2).1] ∧
    (stopAndReturn body).2.mem = body.2.mem ∧
    (stopAndReturn body).2.sdaIn = body.2.sdaIn ∧
    clockPulses (stopAndReturn body).2.trace = clockPulses body.2.trace ∧
    ((HalI2CStop body.2).1 = I2C_SUCCESS → (stopAndReturn body).1 = body.1) ∧
    ((HalI2CStop body.2).1 ≠ I2C_SUCCESS → (stopAndReturn body).1 = I2C_E_ARB) := by
  have h := HalI2CStop_spec body.2
  have hp := HalI2CStop_pulses body.2
  unfold stopAndReturn
  split
  · rename_i hc
    exact ⟨h.2.1, h.2.2.2, h.2.2.1, hp, fun h0 => absurd h0 hc, fun _ => rfl⟩
  · rename_i hc
    exact ⟨h.2.1, h.2.2.2, h.2.2.1, hp, fun _ => rfl, fun h0 => absurd h0 hc⟩

/-- When the last logged call of the tail is a STOP returning `r`, then `r` is
what `HalI2CStop` returned there. -/
theorem stopAndReturn_last (body : Int × State) (r : Int)
    (h : (stopAndReturn body).2.calls.getLast? = some (.stop r)) :
    (HalI2CStop body.2).1 = r := by
  rw [(stopAndReturn_spec body).1, List.getLast?_append] at h
  simpa using h

theorem HalI2CSend_eq (address buffer len : Nat) (s : State) (hbuf : buffer ≠ NULL)
    (hstart : (HalI2CStart s).1 = I2C_SUCCESS) :
    HalI2CSend address buffer len s =
      stopAndReturn
        (if (HalI2CSendByte (addressByte address I2C_OP_WRITE) (HalI2CStart s).2).1 ≠ I2C_ACK then
          (I2C_E_NODEV, (HalI2CSendByte (addressByte address I2C_OP_WRITE) (HalI2CStart s).2).2)
        else HalI2CSend.loop buffer len 65536 0 I2C_SUCCESS
          (HalI2CSendByte (addressByte address I2C_OP_WRITE) (HalI2CStart s).2).2) := by
  simp only [HalI2CSend, stopAndReturn, if_neg hbuf, hstart, ne_eq, not_true_eq_false, if_false]

theorem HalI2CReceive_eq (intBits address buffer len : Nat) (s : State) (hbuf : buffer ≠ NULL)
    (hstart : (HalI2CStart s).1 = I2C_SUCCESS) :
    HalI2CReceive intBits address buffer len s =
      stopAndReturn
        (if (HalI2CSendByte (addressByte address I2C_OP_READ) (HalI2CStart s).2).1 ≠ I2C_ACK then
          (I2C_E_NODEV, (HalI2CSendByte (addressByte address I2C_OP_READ) (HalI2CStart s).2).2)
        else
          (I2C_SUCCESS,
            store
              (buffer + (HalI2CReceive.loop intBits buffer len 65536 0
                (HalI2CSendByte (addressByte address I2C_OP_READ) (HalI2CStart s).2).2).1)
              (HalI2CReceiveByte I2C_NAK (HalI2CReceive.loop intBits buffer len 65536 0
                (HalI2CSendByte (addressByte address I2C_OP_READ) (HalI2CStart s).2).2).2).1
              (HalI2CReceiveByte I2C_NAK (HalI2CReceive.loop intBits buffer len 65536 0
                (HalI2CSendByte (addressByte address I2C_OP_READ) (HalI2CStart s).2).2).2).2)) := by
  simp only [HalI2CReceive, stopAndReturn, if_neg hbuf, hstart, ne_eq, not_true_eq_false, if_false]

theorem HalI2CWriteRegisters_eq (address reg buffer len : Nat) (s : State) (hbuf : buffer ≠ NULL)
    (hstart : (HalI2CStart s).1 = I2C_SUCCESS) :
    HalI2CWriteRegisters address reg buffer len s =
      stopAndReturn
        (if (HalI2CSendByte (addressByte address I2C_OP_WRITE) (HalI2CStart s).2).1 ≠ I2C_ACK then
          (I2C_E_NODEV, (HalI2CSendByte (addressByte address I2C_OP_WRITE) (HalI2CStart s).2).2)
        else if (HalI2CSendByte (reg % 256)
            (HalI2CSendByte (addressByte address I2C_OP_WRITE) (HalI2CStart s).2).2).1 ≠ I2C_ACK then
          (I2C_E_REG, (HalI2CSendByte (reg % 256)
            (HalI2CSendByte (addressByte address I2C_OP_WRITE) (HalI2CStart s).2).2).2)
        else HalI2CWriteRegisters.loop buffer len 65536 0 I2C_SUCCESS
          (HalI2CSendByte (reg % 256)
            (HalI2CSendByte (addressByte address I2C_OP_WRITE) (HalI2CStart s).2).2).2) := by
  simp only [HalI2CWriteRegisters, stopAndReturn, if_neg hbuf, hstart, ne_eq, not_true_eq_false,
    if_false]

theorem HalI2CReadRegisters_eq (intBits address reg buffer len : Nat) (s : State)
    (hbuf : buffer ≠ NULL) (hstart : (HalI2CStart s).1 = I2C_SUCCESS) :
    HalI2CReadRegisters intBits address reg buffer len s =
      if (HalI2CSendByte (addressByte address I2C_OP_WRITE) (HalI2CStart s).2).1 ≠ I2C_ACK then
        stopAndReturn
          (I2C_E_NODEV, (HalI2CSendByte (addressByte address I2C_OP_WRITE) (HalI2CStart s).2).2)
      else if (HalI2CSendByte (reg % 256)
          (HalI2CSendByte (addressByte address I2C_OP_WRITE) (HalI2CStart s).2).2).1 ≠ I2C_ACK then
        stopAndReturn
          (I2C_E_REG, (HalI2CSendByte (reg % 256)
            (HalI2CSendByte (addressByte address I2C_OP_WRITE) (HalI2CStart s).2).2).2)
      else
        HalI2CReceive intBits address buffer len
          (HalI2CSendByte (reg % 256)
            (HalI2CSendByte (addressByte address I2C_OP_WRITE) (HalI2CStart s).2).2).2 := by
  simp only [HalI2CReadRegisters, stopAndReturn, if_neg hbuf, hstart, ne_eq, not_true_eq_false,
    if_false]
  split
  · simp [I2C_E_NODEV, I2C_SUCCESS]
  · split
    · simp [I2C_E_REG, I2C_SUCCESS]
    · simp

/-- State after a successful START followed by one byte `b`: the acknowledge
bit is the first data-line level, and ten clock pulses have been made. -/
theorem address_phase (s : State) (b : Nat) (hstart : (HalI2CStart s).1 = I2C_SUCCESS) :
    (HalI2CSendByte b (HalI2CStart s).2).1 = (if s.sdaIn 0 then I2C_NAK else I2C_ACK) ∧
    (HalI2CSendByte b (HalI2CStart s).2).2.calls =
      s.calls ++ [.start I2C_SUCCESS, .sendByte b (if s.sdaIn 0 then I2C_NAK else I2C_ACK)] ∧
    (HalI2CSendByte b (HalI2CStart s).2).2.sdaIn = (fun k => s.sdaIn (k + 1)) ∧
    (HalI2CSendByte b (HalI2CStart s).2).2.mem = s.mem ∧
    clockPulses (HalI2CSendByte b (HalI2CStart s).2).2.trace = clockPulses s.trace + 10 := by
  have hS := HalI2CStart_spec s
  have hA := HalI2CSendByte_spec (HalI2CStart s).2 b
  have hp := HalI2CStart_pulses s
  rw [hS.2.2.1] at hA
  rw [hstart] at hS hp
  refine ⟨hA.1, ?_, hA.2.2.1, hA.2.2.2.trans hS.2.2.2, ?_⟩
  · rw [hA.2.1, hS.2.1]; simp
  · rw [HalI2CSendByte_pulses, hp]; simp

/-- State after a successful START followed by two bytes `b` and `c`, the first
acknowledged. -/
theorem register_phase (s : State) (b c : Nat) (hstart : (HalI2CStart s).1 = I2C_SUCCESS)
    (hack : s.sdaIn 0 = false) :
    (HalI2CSendByte c (HalI2CSendByte b (HalI2CStart s).2).2).1 =
      (if s.sdaIn 1 then I2C_NAK else I2C_ACK) ∧
    (HalI2CSendByte c (HalI2CSendByte b (HalI2CStart s).2).2).2.calls =
      s.calls ++ [.start I2C_SUCCESS, .sendByte b I2C_ACK,
        .sendByte c (if s.sdaIn 1 then I2C_NAK else I2C_ACK)] ∧
    (HalI2CSendByte c (HalI2CSendByte b (HalI2CStart s).2).2).2.sdaIn = (fun k => s.sdaIn (k + 2)) ∧
    (HalI2CSendByte c (HalI2CSendByte b (HalI2CStart s).2).2).2.mem = s.mem ∧
    clockPulses (HalI2CSendByte c (HalI2CSendByte b (HalI2CStart s).2).2).2.trace =
      clockPulses s.trace + 19 := by
  have hA := address_phase s b hstart
  have hR := HalI2CSendByte_spec (HalI2CSendByte b (HalI2CStart s).2).2 c
  rw [hack] at hA
  rw [hA.2.2.1] at hR
  refine ⟨hR.1, ?_, hR.2.2.1, hR.2.2.2.trans hA.2.2.2.1, ?_⟩
  · rw [hR.2.1, hA.2.1]; simp
  · rw [HalI2CSendByte_pulses, hA.2.2.2.2]

/-! ## Address byte not acknowledged -/

/-- C1: for every address, non-null buffer and length, when START succeeds, the
data line is sampled high on the ninth clock of the address byte and the STOP
of the call succeeds, `HalI2CSend` and `HalI2CReceive` both return
`I2C_E_NODEV`; the calls made are START, one `HalI2CSendByte` of the address
byte, and STOP, so no data byte is sent or received; exactly ten clock pulses
are made (one of START, nine of the address byte); memory, hence the buffer, is
unchanged. -/
theorem C1_address_nak (intBits address buffer len : Nat) (s : State)
    (hbuf : buffer ≠ NULL)
    (hstart : (HalI2CStart s).1 = I2C_SUCCESS)
    (hnak : s.sdaIn 0 = true)
    (hstopS : (HalI2CSend address buffer len s).2.calls.getLast? = some (.stop I2C_SUCCESS))
    (hstopR : (HalI2CReceive intBits address buffer len s).2.calls.getLast? =
      some (.stop I2C_SUCCESS)) :
    ((HalI2CSend address buffer len s).1 = I2C_E_NODEV ∧
      (HalI2CSend address buffer len s).2.calls =
        s.calls ++ [.start I2C_SUCCESS, .sendByte (addressByte address I2C_OP_WRITE) I2C_NAK,
          .stop I2C_SUCCESS] ∧
      clockPulses (HalI2CSend address buffer len s).2.trace = clockPulses s.trace + 10 ∧
      (HalI2CSend address buffer len s).2.mem = s.mem) ∧
    ((HalI2CReceive intBits address buffer len s).1 = I2C_E_NODEV ∧
      (HalI2CReceive intBits address buffer len s).2.calls =
        s.calls ++ [.start I2C_SUCCESS, .sendByte (addressByte address I2C_OP_READ) I2C_NAK,
          .stop I2C_SUCCESS] ∧
      clockPulses (HalI2CReceive intBits address buffer len s).2.trace =
        clockPulses s.trace + 10 ∧
      (HalI2CReceive intBits address buffer len s).2.mem = s.mem) := by
  have hn : (I2C_NAK : Int) ≠ I2C_ACK := by decide
  constructor
  · have hA := address_phase s (addressByte address I2C_OP_WRITE) hstart
    rw [hnak] at hA
    simp only [if_true] at hA
    rw [HalI2CSend_eq _ _ _ _ hbuf hstart, hA.1, if_pos hn] at hstopS ⊢
    have hsp := stopAndReturn_spec
      (I2C_E_NODEV, (HalI2CSendByte (addressByte address I2C_OP_WRITE) (HalI2CStart s).2).2)
    have hst := stopAndReturn_last _ _ hstopS
    refine ⟨hsp.2.2.2.2.1 hst, ?_, ?_, hsp.2.1.trans hA.2.2.2.1⟩
    · rw [hsp.1, hst, hA.2.1]; simp
    · rw [hsp.2.2.2.1, hA.2.2.2.2]
  · have hA := address_phase s (addressByte address I2C_OP_READ) hstart
    rw [hnak] at hA
    simp only [if_true] at hA
    rw [HalI2CReceive_eq _ _ _ _ _ hbuf hstart, hA.1, if_pos hn] at hstopR ⊢
    have hsp := stopAndReturn_spec
      (I2C_E_NODEV, (HalI2CSendByte (addressByte address I2C_OP_READ) (HalI2CStart s).2).2)
    have hst := stopAndReturn_last _ _ hstopR
    refine ⟨hsp.2.2.2.2.1 hst, ?_, ?_, hsp.2.1.trans hA.2.2.2.1⟩
    · rw [hsp.1, hst, hA.2.1]; simp
    · rw [hsp.2.2.2.1, hA.2.2.2.2]

set_option maxRecDepth 1000000 in
/-- Witness of C1: address `0x50`, a three-byte buffer at `0x100`, 16-bit `int`,
on a bus whose peripheral is absent. -/
theorem C1_address_nak_witness :
    (HalI2CSend 0x50 0x100 3 absentDevice).1 = I2C_E_NODEV ∧
    (HalI2CReceive 16 0x50 0x100 3 absentDevice).1 = I2C_E_NODEV ∧
    (HalI2CReceive 16 0x50 0x100 3 absentDevice).2.calls =
      [.start I2C_SUCCESS, .sendByte 0xA1 I2C_NAK, .stop I2C_SUCCESS] :=
  have h := C1_address_nak 16 0x50 0x100 3 absentDevice (by decide) (by decide) (by decide)
    (by decide) (by decide)
  ⟨h.1.1, h.2.1, h.2.2.1⟩

/-! ## Register index not acknowledged -/

/-- C8: for `HalI2CReadRegisters` and `HalI2CWriteRegisters` with a non-null
buffer, when START and the STOP of the call succeed, the address byte is
acknowledged and the register-index byte is not: the result is `I2C_E_REG`; the
calls made are one START, `HalI2CSendByte` of the address byte and of the
register index, and one STOP, so no data byte is sent or received and no second
START is issued; exactly nineteen clock pulses are made (one of START, nine per
byte); memory, hence the buffer, is unchanged. -/
theorem C8_register_nak (intBits address reg buffer len : Nat) (s : State)
    (hbuf : buffer ≠ NULL)
    (hstart : (HalI2CStart s).1 = I2C_SUCCESS)
    (hack : s.sdaIn 0 = false)
    (hnak : s.sdaIn 1 = true)
    (hstopR : (HalI2CReadRegisters intBits address reg buffer len s).2.calls.getLast? =
      some (.stop I2C_SUCCESS))
    (hstopW : (HalI2CWriteRegisters address reg buffer len s).2.calls.getLast? =
      some (.stop I2C_SUCCESS)) :
    ((HalI2CReadRegisters intBits address reg buffer len s).1 = I2C_E_REG ∧
      (HalI2CReadRegisters intBits address reg buffer len s).2.calls =
        s.calls ++ [.start I2C_SUCCESS, .sendByte (addressByte address I2C_OP_WRITE) I2C_ACK,
          .sendByte (reg % 256) I2C_NAK, .stop I2C_SUCCESS] ∧
      clockPulses (HalI2CReadRegisters intBits address reg buffer len s).2.trace =
        clockPulses s.trace + 19 ∧
      (HalI2CReadRegisters intBits address reg buffer len s).2.mem = s.mem) ∧
    ((HalI2CWriteRegisters address reg buffer len s).1 = I2C_E_REG ∧
      (HalI2CWriteRegisters address reg buffer len s).2.calls =
        s.calls ++ [.start I2C_SUCCESS, .sendByte (addressByte address I2C_OP_WRITE) I2C_ACK,
          .sendByte (reg % 256) I2C_NAK, .stop I2C_SUCCESS] ∧
      clockPulses (HalI2CWriteRegisters address reg buffer len s).2.trace =
        clockPulses s.trace + 19 ∧
      (HalI2CWriteRegisters address reg buffer len s).2.mem = s.mem) := by
  have hn : (I2C_NAK : Int) ≠ I2C_ACK := by decide
  have hA := address_phase s (addressByte address I2C_OP_WRITE) hstart
  have hR := register_phase s (addressByte address I2C_OP_WRITE) (reg % 256) hstart hack
  rw [hack] at hA
  rw [hnak] at hR
  simp only [if_true, Bool.false_eq_true, if_false] at hA hR
  have hsp := stopAndReturn_spec
    (I2C_E_REG, (HalI2CSendByte (reg % 256)
      (HalI2CSendByte (addressByte address I2C_OP_WRITE) (HalI2CStart s).2).2).2)
  constructor
  · rw [HalI2CReadRegisters_eq _ _ _ _ _ _ hbuf hstart, hA.1, if_neg (by simp), hR.1,
      if_pos hn] at hstopR ⊢
    have hst := stopAndReturn_last _ _ hstopR
    refine ⟨hsp.2.2.2.2.1 hst, ?_, ?_, hsp.2.1.trans hR.2.2.2.1⟩
    · rw [hsp.1, hst, hR.2.1]; simp
    · rw [hsp.2.2.2.1, hR.2.2.2.2]
  · rw [HalI2CWriteRegisters_eq _ _ _ _ _ hbuf hstart, hA.1, if_neg (by simp), hR.1,
      if_pos hn] at hstopW ⊢
    have hst := stopAndReturn_last _ _ hstopW
    refine ⟨hsp.2.2.2.2.1 hst, ?_, ?_, hsp.2.1.trans hR.2.2.2.1⟩
    · rw [hsp.1, hst, hR.2.1]; simp
    · rw [hsp.2.2.2.1, hR.2.2.2.2]

set_option maxRecDepth 1000000 in
/-- Witness of C8: address `0x50`, register `7`, a four-byte buffer at `0x100`,
16-bit `int`, on a bus whose peripheral rejects the register index. -/
theorem C8_register_nak_witness :
    (HalI2CReadRegisters 16 0x50 7 0x100 4 registerRejected).1 = I2C_E_REG ∧
    (HalI2CWriteRegisters 0x50 7 0x100 4 registerRejected).1 = I2C_E_REG ∧
    (HalI2CReadRegisters 16 0x50 7 0x100 4 registerRejected).2.calls =
      [.start I2C_SUCCESS, .sendByte 0xA0 I2C_ACK, .sendByte 7 I2C_NAK, .stop I2C_SUCCESS] :=
  have h := C8_register_nak 16 0x50 7 0x100 4 registerRejected (by decide) (by decide)
    (by decide) (by decide) (by decide) (by decide)
  ⟨h.1.1, h.2.1, h.1.2.1⟩

/-! ## Null buffer -/

/-- C9: for every address, register and length, each of the four transactions
called with a NULL buffer returns `I2C_E_INVAL` and leaves the whole machine
state as it was: pin directions and latches, both input streams (no line is
read), the trace (no line is driven or released), the call log (no START) and
memory. -/
theorem C9_null_buffer (intBits address reg len : Nat) (s : State) :
    HalI2CReceive intBits address NULL len s = (I2C_E_INVAL, s) ∧
    HalI2CSend address NULL len s = (I2C_E_INVAL, s) ∧
    HalI2CReadRegisters intBits address reg NULL len s = (I2C_E_INVAL, s) ∧
    HalI2CWriteRegisters address reg NULL len s = (I2C_E_INVAL, s) :=
  ⟨rfl, rfl, rfl, rfl⟩

/-! ## START timeout -/

theorem HalI2CStart_poll_passive (retry : Nat) (s : State) :
    (∃ evs, (HalI2CStart.poll retry s).2.trace = s.trace ++ evs ∧
      evs.all Event.passive = true) ∧
    (HalI2CStart.poll retry s).2.sclDir = s.sclDir ∧
    (HalI2CStart.poll retry s).2.sclOut = s.sclOut ∧
    (HalI2CStart.poll retry s).2.sdaDir = s.sdaDir ∧
    (HalI2CStart.poll retry s).2.sdaOut = s.sdaOut := by
  induction retry generalizing s with
  | zero =>
    simp only [HalI2CStart.poll]
    split <;> exact ⟨⟨[.sample .scl (s.sclIn 0)], rfl, rfl⟩, rfl, rfl, rfl, rfl⟩
  | succ retry ih =>
    simp only [HalI2CStart.poll]
    split
    · exact ⟨⟨[.sample .scl (s.sclIn 0)], rfl, rfl⟩, rfl, rfl, rfl, rfl⟩
    · obtain ⟨⟨evs, he, hp⟩, h1, h2, h3, h4⟩ := ih (OCM_SSWAIT (OCM_SCL_STATE s).2)
      refine ⟨⟨[.sample .scl (s.sclIn 0), .wait 1000] ++ evs, ?_, ?_⟩, h1, h2, h3, h4⟩
      · rw [he]; simp
      · simpa [Event.passive] using hp

theorem HalI2CStart_poll_timeout (retry : Nat) (s : State)
    (h : ∀ k, k ≤ retry → s.sclIn k = false) :
    (HalI2CStart.poll retry s).1 = false := by
  induction retry generalizing s with
  | zero => simp [HalI2CStart.poll, h 0 (Nat.le_refl 0)]
  | succ retry ih =>
    simp only [HalI2CStart.poll, OCM_SCL_STATE_fst, h 0 (Nat.zero_le _), Bool.false_eq_true,
      if_false]
    apply ih
    intro k hk
    exact h (k + 1) (Nat.succ_le_succ hk)

/-- A START whose clock polls all read low: the result, and what was done to
the pins. -/
theorem HalI2CStart_timeout (s : State)
    (h : ∀ k, k ≤ HAL_I2C_STARTSTOP_WAITS → s.sclIn k = false) :
    (HalI2CStart s).1 = I2C_E_ARB ∧
    (∃ evs, (HalI2CStart s).2.trace = s.trace ++ evs ∧ evs.all Event.passive = true) ∧
    (HalI2CStart s).2.sclDir = false ∧ (HalI2CStart s).2.sdaDir = false ∧
    (HalI2CStart s).2.sclOut = s.sclOut ∧ (HalI2CStart s).2.sdaOut = s.sdaOut := by
  have ht := HalI2CStart_poll_timeout HAL_I2C_STARTSTOP_WAITS
    (OCM_HPERIOD (OCM_SCL_HIGH (OCM_HPERIOD (OCM_SDA_HIGH s)))) h
  obtain ⟨⟨evs, he, hp⟩, h1, h2, h3, h4⟩ := HalI2CStart_poll_passive HAL_I2C_STARTSTOP_WAITS
    (OCM_HPERIOD (OCM_SCL_HIGH (OCM_HPERIOD (OCM_SDA_HIGH s))))
  simp only [HalI2CStart, ht, Bool.false_eq_true, if_false, logCall_trace, logCall_sclDir,
    logCall_sdaDir, logCall_sclOut, logCall_sdaOut]
  refine ⟨trivial, ⟨[.dir .sda false, .wait 2, .dir .scl false, .wait 2] ++ evs, ?_, ?_⟩,
    h1, h3, h2, h4⟩
  · rw [he]; simp
  · simpa [Event.passive] using hp

/-- C10: for each of the four transactions called with a non-null buffer, when
the clock line reads low at every one of the `HAL_I2C_STARTSTOP_WAITS + 1` polls
of START: the result is `I2C_E_ARB`; every pin-level action of the call is a
release, a read or a wait (no pin is made an output, no latch is written), so
no line is driven low and no clock pulse is made; the only call logged is the
failed START (no byte is sent or received, no STOP); both pins are left as
inputs with their latches as they were; memory, hence the buffer, is unchanged. -/
theorem C10_start_timeout (intBits address reg buffer len : Nat) (s : State)
    (hbuf : buffer ≠ NULL)
    (hlow : ∀ k, k ≤ HAL_I2C_STARTSTOP_WAITS → s.sclIn k = false) :
    ∀ r ∈ [HalI2CReceive intBits address buffer len s, HalI2CSend address buffer len s,
        HalI2CReadRegisters intBits address reg buffer len s,
        HalI2CWriteRegisters address reg buffer len s],
      r.1 = I2C_E_ARB ∧
      (∃ evs, r.2.trace = s.trace ++ evs ∧ evs.all Event.passive = true) ∧
      clockPulses r.2.trace = clockPulses s.trace ∧
      r.2.calls = s.calls ++ [.start I2C_E_ARB] ∧
      r.2.mem = s.mem ∧
      r.2.sclDir = false ∧ r.2.sdaDir = false ∧
      r.2.sclOut = s.sclOut ∧ r.2.sdaOut = s.sdaOut := by
  obtain ⟨h1, h2, h3, h4, h5, h6⟩ := HalI2CStart_timeout s hlow
  have hS := HalI2CStart_spec s
  have hp := HalI2CStart_pulses s
  have hne : (HalI2CStart s).1 ≠ I2C_SUCCESS := by rw [h1]; decide
  rw [if_neg hne] at hp
  rw [h1] at hS
  have key : ((HalI2CStart s).1, (HalI2CStart s).2).1 = I2C_E_ARB ∧
      (∃ evs, ((HalI2CStart s).1, (HalI2CStart s).2).2.trace = s.trace ++ evs ∧
        evs.all Event.passive = true) ∧
      clockPulses ((HalI2CStart s).1, (HalI2CStart s).2).2.trace = clockPulses s.trace ∧
      ((HalI2CStart s).1, (HalI2CStart s).2).2.calls = s.calls ++ [.start I2C_E_ARB] ∧
      ((HalI2CStart s).1, (HalI2CStart s).2).2.mem = s.mem ∧
      ((HalI2CStart s).1, (HalI2CStart s).2).2.sclDir = false ∧
      ((HalI2CStart s).1, (HalI2CStart s).2).2.sdaDir = false ∧
      ((HalI2CStart s).1, (HalI2CStart s).2).2.sclOut = s.sclOut ∧
      ((HalI2CStart s).1, (HalI2CStart s).2).2.sdaOut = s.sdaOut :=
    ⟨h1, h2, hp, hS.2.1, hS.2.2.2, h3, h4, h5, h6⟩
  intro r hr
  simp only [List.mem_cons, List.mem_singleton, List.not_mem_nil, or_false] at hr
  rcases hr with rfl | rfl | rfl | rfl
  · simpa only [HalI2CReceive, if_neg hbuf, if_pos hne] using key
  · simpa only [HalI2CSend, if_neg hbuf, if_pos hne] using key
  · simpa only [HalI2CReadRegisters, if_neg hbuf, if_pos hne] using key
  · simpa only [HalI2CWriteRegisters, if_neg hbuf, if_pos hne] using key

/-- Witness of C10: `HalI2CReadRegisters` on a bus whose clock line is stuck
low. -/
theorem C10_start_timeout_witness :
    (HalI2CReadRegisters 16 0x50 7 0x100 4 clockStuckLow).1 = I2C_E_ARB ∧
    (HalI2CReadRegisters 16 0x50 7 0x100 4 clockStuckLow).2.calls = [.start I2C_E_ARB] :=
  have h := C10_start_timeout 16 0x50 7 0x100 4 clockStuckLow (by decide) (fun _ _ => rfl)
    (HalI2CReadRegisters 16 0x50 7 0x100 4 clockStuckLow) (by simp)
  ⟨h.1, h.2.2.2.1⟩

/-! ## The data loop of `HalI2CSend` -/

theorem HalI2CSend_loop_succ (buffer len fuel i : Nat) (ret : Int) (s : State) :
    HalI2CSend.loop buffer len (fuel + 1) i ret s =
      if i < len then
        if (HalI2CSendByte (load (buffer + i) s) s).1 ≠ I2C_ACK then
          (I2C_E_INCOMPLETE, (HalI2CSendByte (load (buffer + i) s) s).2)
        else HalI2CSend.loop buffer len fuel ((i + 1) % 65536) ret
          (HalI2CSendByte (load (buffer + i) s) s).2
      else (ret, s) := rfl

theorem HalI2CSend_loop_fuel (buffer len fuel i : Nat) (ret : Int) (s : State)
    (hlen : len < 65536) (h : len ≤ fuel + i) :
    HalI2CSend.loop buffer len (fuel + 1) i ret s = HalI2CSend.loop buffer len fuel i ret s := by
  induction fuel generalizing i s with
  | zero =>
    rw [HalI2CSend_loop_succ, if_neg (by omega)]
    rfl
  | succ fuel ih =>
    rw [HalI2CSend_loop_succ buffer len (fuel + 1) i ret s, HalI2CSend_loop_succ buffer len fuel i ret s]
    split
    · split
      · rfl
      · rw [Nat.mod_eq_of_lt (by omega)]
        exact ih (i + 1) _ (by omega)
    · rfl

/-- The data loop of `HalI2CSend` as it is called, with fuel `65536`, gives the
result any larger fuel gives. -/
theorem HalI2CSend_loop_fuel_enough (buffer len extra : Nat) (ret : Int) (s : State)
    (hlen : len < 65536) :
    HalI2CSend.loop buffer len (65536 + extra) 0 ret s =
      HalI2CSend.loop buffer len 65536 0 ret s := by
  induction extra with
  | zero => rfl
  | succ extra ih =>
    rw [← Nat.add_assoc, HalI2CSend_loop_fuel _ _ _ _ _ _ hlen (by omega)]
    exact ih

/-- The data loop when data byte `k` (counted from the current index `i`) is
the first one not acknowledged. -/
theorem HalI2CSend_loop_nak (buffer len : Nat) (ret : Int) (hlen : len < 65536) (k : Nat) :
    ∀ (fuel i : Nat) (s : State), i + k < len → k < fuel →
      (∀ j, j < k → s.sdaIn j = false) → s.sdaIn k = true →
      (HalI2CSend.loop buffer len fuel i ret s).1 = I2C_E_INCOMPLETE ∧
      (HalI2CSend.loop buffer len fuel i ret s).2.calls =
        s.calls ++ (List.range (k + 1)).map
          (fun j => Call.sendByte (load (buffer + (i + j)) s)
            (if j < k then I2C_ACK else I2C_NAK)) ∧
      (HalI2CSend.loop buffer len fuel i ret s).2.mem = s.mem ∧
      clockPulses (HalI2CSend.loop buffer len fuel i ret s).2.trace =
        clockPulses s.trace + 9 * (k + 1) := by
  induction k with
  | zero =>
    intro fuel i s hi hf _ hnak
    obtain ⟨fuel, rfl⟩ : ∃ f, fuel = f + 1 := ⟨fuel - 1, by omega⟩
    have hB := HalI2CSendByte_spec s (load (buffer + i) s)
    rw [hnak] at hB
    simp only [if_true] at hB
    rw [HalI2CSend_loop_succ, if_pos (by omega), hB.1, if_pos (by decide)]
    refine ⟨rfl, ?_, hB.2.2.2, ?_⟩
    · rw [hB.2.1]; simp [List.range_succ]
    · rw [HalI2CSendByte_pulses]
  | succ k ih =>
    intro fuel i s hi hf hack hnak
    obtain ⟨fuel, rfl⟩ : ∃ f, fuel = f + 1 := ⟨fuel - 1, by omega⟩
    have hB := HalI2CSendByte_spec s (load (buffer + i) s)
    rw [hack 0 (Nat.succ_pos k)] at hB
    simp only [Bool.false_eq_true, if_false] at hB
    rw [HalI2CSend_loop_succ, if_pos (by omega), hB.1, if_neg (by simp),
      Nat.mod_eq_of_lt (by omega)]
    have h := ih fuel (i + 1) (HalI2CSendByte (load (buffer + i) s) s).2 (by omega) (by omega)
      (by intro j hj; rw [hB.2.2.1]; exact hack (j + 1) (by omega))
      (by rw [hB.2.2.1]; exact hnak)
    refine ⟨h.1, ?_, h.2.2.1.trans hB.2.2.2, ?_⟩
    · rw [h.2.1, hB.2.1, List.range_succ_eq_map (k + 1), List.map_cons, List.map_map,
        List.append_assoc]
      simp only [List.singleton_append, Nat.add_zero, Nat.succ_pos, if_true, List.cons.injEq,
        true_and, List.append_cancel_left_eq]
      apply List.map_congr_left
      intro j _
      have hm : (HalI2CSendByte (s.mem (buffer + i) % 256) s).2.mem = s.mem :=
        (HalI2CSendByte_spec s _).2.2.2
      simp only [Function.comp, load, hm, Nat.succ_eq_add_one, Nat.add_lt_add_iff_right]
      rw [Nat.add_assoc i 1 j, Nat.add_comm 1 j]
    · rw [h.2.2.2, HalI2CSendByte_pulses]; omega

/-- The data loop when every remaining data byte is acknowledged. -/
theorem HalI2CSend_loop_ack (buffer len : Nat) (ret : Int) (hlen : len < 65536) (n : Nat) :
    ∀ (fuel i : Nat) (s : State), i + n = len → n ≤ fuel →
      (∀ j, j < n → s.sdaIn j = false) →
      (HalI2CSend.loop buffer len fuel i ret s).1 = ret ∧
      (HalI2CSend.loop buffer len fuel i ret s).2.calls =
        s.calls ++ (List.range n).map
          (fun j => Call.sendByte (load (buffer + (i + j)) s) I2C_ACK) ∧
      (HalI2CSend.loop buffer len fuel i ret s).2.mem = s.mem ∧
      clockPulses (HalI2CSend.loop buffer len fuel i ret s).2.trace =
        clockPulses s.trace + 9 * n := by
  induction n with
  | zero =>
    intro fuel i s hi _ _
    cases fuel with
    | zero => simp [HalI2CSend.loop]
    | succ fuel => rw [HalI2CSend_loop_succ, if_neg (by omega)]; simp
  | succ n ih =>
    intro fuel i s hi hf hack
    obtain ⟨fuel, rfl⟩ : ∃ f, fuel = f + 1 := ⟨fuel - 1, by omega⟩
    have hB := HalI2CSendByte_spec s (load (buffer + i) s)
    rw [hack 0 (Nat.succ_pos n)] at hB
    simp only [Bool.false_eq_true, if_false] at hB
    rw [HalI2CSend_loop_succ, if_pos (by omega), hB.1, if_neg (by simp),
      Nat.mod_eq_of_lt (by omega)]
    have h := ih fuel (i + 1) (HalI2CSendByte (load (buffer + i) s) s).2 (by omega) (by omega)
      (by intro j hj; rw [hB.2.2.1]; exact hack (j + 1) (by omega))
    refine ⟨h.1, ?_, h.2.2.1.trans hB.2.2.2, ?_⟩
    · rw [h.2.1, hB.2.1, List.range_succ_eq_map n, List.map_cons, List.map_map,
        List.append_assoc]
      simp only [List.singleton_append, Nat.add_zero, List.cons.injEq,
        true_and, List.append_cancel_left_eq]
      apply List.map_congr_left
      intro j _
      have hm : (HalI2CSendByte (s.mem (buffer + i) % 256) s).2.mem = s.mem :=
        (HalI2CSendByte_spec s _).2.2.2
      simp only [Function.comp, load, hm, Nat.succ_eq_add_one]
      rw [Nat.add_assoc i 1 j, Nat.add_comm 1 j]
    · rw [h.2.2.2, HalI2CSendByte_pulses]; omega

/-- C2: for `HalI2CSend` with a non-null buffer and a `uint16_t` length, when
START and the STOP of the call succeed and the address byte is acknowledged:
the data bytes passed to `HalI2CSendByte` are `buffer[0]`, `buffer[1]`, ... in
index order; if data byte `k < len` is the first one not acknowledged, exactly
`k + 1` data bytes are sent and the result is `I2C_E_INCOMPLETE`; if all `len`
data bytes are acknowledged, exactly `len` data bytes are sent and the result is
`I2C_SUCCESS`. The clock pulses are one of START and nine per byte. -/
theorem C2_send_data_bytes (address buffer len : Nat) (s : State)
    (hbuf : buffer ≠ NULL) (hlen : len < 65536)
    (hstart : (HalI2CStart s).1 = I2C_SUCCESS)
    (hack : s.sdaIn 0 = false)
    (hstop : (HalI2CSend address buffer len s).2.calls.getLast? = some (.stop I2C_SUCCESS)) :
    (∀ k, k < len → (∀ j, j < k → s.sdaIn (j + 1) = false) → s.sdaIn (k + 1) = true →
      (HalI2CSend address buffer len s).1 = I2C_E_INCOMPLETE ∧
      (HalI2CSend address buffer len s).2.calls =
        s.calls ++ [.start I2C_SUCCESS, .sendByte (addressByte address I2C_OP_WRITE) I2C_ACK] ++
          (List.range (k + 1)).map
            (fun j => Call.sendByte (load (buffer + j) s) (if j < k then I2C_ACK else I2C_NAK)) ++
          [.stop I2C_SUCCESS] ∧
      clockPulses (HalI2CSend address buffer len s).2.trace =
        clockPulses s.trace + 10 + 9 * (k + 1)) ∧
    ((∀ j, j < len → s.sdaIn (j + 1) = false) →
      (HalI2CSend address buffer len s).1 = I2C_SUCCESS ∧
      (HalI2CSend address buffer len s).2.calls =
        s.calls ++ [.start I2C_SUCCESS, .sendByte (addressByte address I2C_OP_WRITE) I2C_ACK] ++
          (List.range len).map (fun j => Call.sendByte (load (buffer + j) s) I2C_ACK) ++
          [.stop I2C_SUCCESS] ∧
      clockPulses (HalI2CSend address buffer len s).2.trace =
        clockPulses s.trace + 10 + 9 * len) := by
  have hA := address_phase s (addressByte address I2C_OP_WRITE) hstart
  rw [hack] at hA
  simp only [Bool.false_eq_true, if_false] at hA
  rw [HalI2CSend_eq _ _ _ _ hbuf hstart, hA.1, if_neg (by simp)] at hstop ⊢
  have hsp := stopAndReturn_spec (HalI2CSend.loop buffer len 65536 0 I2C_SUCCESS
    (HalI2CSendByte (addressByte address I2C_OP_WRITE) (HalI2CStart s).2).2)
  have hst := stopAndReturn_last _ _ hstop
  have hload : ∀ a, load a (HalI2CSendByte (addressByte address I2C_OP_WRITE)
      (HalI2CStart s).2).2 = load a s := by
    intro a; simp only [load, hA.2.2.2.1]
  constructor
  · intro k hk hacks hnak
    have hL := HalI2CSend_loop_nak buffer len I2C_SUCCESS hlen k 65536 0
      (HalI2CSendByte (addressByte address I2C_OP_WRITE) (HalI2CStart s).2).2 (by omega)
      (by omega) (by intro j hj; rw [hA.2.2.1]; exact hacks j hj) (by rw [hA.2.2.1]; exact hnak)
    refine ⟨(hsp.2.2.2.2.1 hst).trans hL.1, ?_, ?_⟩
    · rw [hsp.1, hst, hL.2.1, hA.2.1]
      simp only [hload, Nat.zero_add]
    · rw [hsp.2.2.2.1, hL.2.2.2, hA.2.2.2.2]
  · intro hacks
    have hL := HalI2CSend_loop_ack buffer len I2C_SUCCESS hlen len 65536 0
      (HalI2CSendByte (addressByte address I2C_OP_WRITE) (HalI2CStart s).2).2 (by omega)
      (by omega) (by intro j hj; rw [hA.2.2.1]; exact hacks j hj)
    refine ⟨(hsp.2.2.2.2.1 hst).trans hL.1, ?_, ?_⟩
    · rw [hsp.1, hst, hL.2.1, hA.2.1]
      simp only [hload, Nat.zero_add]
    · rw [hsp.2.2.2.1, hL.2.2.2, hA.2.2.2.2]

set_option maxRecDepth 1000000 in
/-- Witness of C2: the buffer `0x11, 0x22, 0x33` sent to a peripheral that
acknowledges the address and the first data byte and rejects the second: two
data bytes are sent and the result is `I2C_E_INCOMPLETE`. -/
theorem C2_send_data_bytes_witness :
    (HalI2CSend 0x50 0x100 3 thirdByteRejected).1 = I2C_E_INCOMPLETE ∧
    (HalI2CSend 0x50 0x100 3 thirdByteRejected).2.calls =
      [.start I2C_SUCCESS, .sendByte 0xA0 I2C_ACK, .sendByte 0x11 I2C_ACK,
        .sendByte 0x22 I2C_NAK, .stop I2C_SUCCESS] :=
  have h := (C2_send_data_bytes 0x50 0x100 3 thirdByteRejected (by decide) (by decide)
    (by decide) (by decide) (by decide)).1 1 (by decide) (by decide) (by decide)
  ⟨h.1, h.2.1⟩

/-! ## The data loop of `HalI2CReceive` -/

theorem sampledByte_lt (sda : Nat → Bool) (off : Nat) : sampledByte sda off < 256 := by
  simp only [sampledByte]
  generalize sda off = b0
  generalize sda (off + 1) = b1
  generalize sda (off + 2) = b2
  generalize sda (off + 3) = b3
  generalize sda (off + 4) = b4
  generalize sda (off + 5) = b5
  generalize sda (off + 6) = b6
  generalize sda (off + 7) = b7
  revert b0 b1 b2 b3 b4 b5 b6 b7
  decide

theorem sampledByte_ext (f g : Nat → Bool) (off off' : Nat)
    (h : ∀ c, f (off + c) = g (off' + c)) : sampledByte f off = sampledByte g off' := by
  have h0 := h 0
  simp only [Nat.add_zero] at h0
  simp only [sampledByte, h0, h 1, h 2, h 3, h 4, h 5, h 6, h 7]

theorem sampledByte_shift (sda : Nat → Bool) (m off : Nat) :
    sampledByte (fun k => sda (k + m)) off = sampledByte sda (off + m) := by
  simp only [sampledByte]
  have e : ∀ c, off + c + m = off + m + c := fun c => by omega
  simp only [e]

theorem receiveLoopCond_eq (intBits i len : Nat) :
    receiveLoopCond intBits i len = decide (i < receiveLoopCount intBits len) := by
  unfold receiveLoopCond receiveLoopCount
  split
  · apply decide_eq_decide.mpr
    omega
  · rfl

theorem receiveLoopCount_lt (intBits len : Nat) (hlen : len < 65536) :
    receiveLoopCount intBits len < 65536 := by
  unfold receiveLoopCount
  split <;> omega

theorem HalI2CReceive_loop_succ (intBits buffer len fuel i : Nat) (s : State) :
    HalI2CReceive.loop intBits buffer len (fuel + 1) i s =
      if receiveLoopCond intBits i len then
        HalI2CReceive.loop intBits buffer len fuel ((i + 1) % 65536)
          (store (buffer + i) (HalI2CReceiveByte I2C_ACK s).1 (HalI2CReceiveByte I2C_ACK s).2)
      else (i, s) := rfl

theorem HalI2CReceive_loop_fuel (intBits buffer len fuel i : Nat) (s : State)
    (hlen : len < 65536) (h : 65535 ≤ fuel + i) :
    HalI2CReceive.loop intBits buffer len (fuel + 1) i s =
      HalI2CReceive.loop intBits buffer len fuel i s := by
  have hN := receiveLoopCount_lt intBits len hlen
  induction fuel generalizing i s with
  | zero =>
    rw [HalI2CReceive_loop_succ, receiveLoopCond_eq, if_neg (by simp; omega)]
    rfl
  | succ fuel ih =>
    rw [HalI2CReceive_loop_succ intBits buffer len (fuel + 1) i s,
      HalI2CReceive_loop_succ intBits buffer len fuel i s]
    split
    · rename_i hc
      rw [receiveLoopCond_eq, decide_eq_true_eq] at hc
      rw [Nat.mod_eq_of_lt (by omega)]
      exact ih (i + 1) _ (by omega)
    · rfl

/-- The data loop of `HalI2CReceive` as it is called, with fuel `65536`, gives
the result any larger fuel gives. -/
theorem HalI2CReceive_loop_fuel_enough (intBits buffer len extra : Nat) (s : State)
    (hlen : len < 65536) :
    HalI2CReceive.loop intBits buffer len (65536 + extra) 0 s =
      HalI2CReceive.loop intBits buffer len 65536 0 s := by
  induction extra with
  | zero => rfl
  | succ extra ih =>
    rw [← Nat.add_assoc, HalI2CReceive_loop_fuel _ _ _ _ _ _ hlen (by omega)]
    exact ih

/-- The data loop from index `i` on, when `n` iterations are left: it stores
the next `n` sampled bytes at `buffer[i]`, ..., `buffer[i + n - 1]`,
acknowledging each. -/
theorem HalI2CReceive_loop_spec (intBits buffer len : Nat) (hlen : len < 65536) (n : Nat) :
    ∀ (fuel i : Nat) (s : State), i + n = receiveLoopCount intBits len → n ≤ fuel →
      (HalI2CReceive.loop intBits buffer len fuel i s).1 = receiveLoopCount intBits len ∧
      (HalI2CReceive.loop intBits buffer len fuel i s).2.calls =
        s.calls ++ (List.range n).map
          (fun j => Call.receiveByte I2C_ACK (sampledByte s.sdaIn (8 * j))) ∧
      (HalI2CReceive.loop intBits buffer len fuel i s).2.sdaIn = (fun k => s.sdaIn (k + 8 * n)) ∧
      (∀ a, (HalI2CReceive.loop intBits buffer len fuel i s).2.mem a =
        if buffer + i ≤ a ∧ a < buffer + i + n then sampledByte s.sdaIn (8 * (a - (buffer + i)))
        else s.mem a) ∧
      clockPulses (HalI2CReceive.loop intBits buffer len fuel i s).2.trace =
        clockPulses s.trace + 9 * n := by
  have hN := receiveLoopCount_lt intBits len hlen
  induction n with
  | zero =>
    intro fuel i s hi _
    have hl : HalI2CReceive.loop intBits buffer len fuel i s = (i, s) := by
      cases fuel with
      | zero => rfl
      | succ fuel =>
        rw [HalI2CReceive_loop_succ, receiveLoopCond_eq, if_neg (by simp; omega)]
    rw [hl]
    refine ⟨by simpa using hi, by simp, by simp, ?_, by simp⟩
    intro a
    rw [if_neg (by omega)]
  | succ n ih =>
    intro fuel i s hi hf
    obtain ⟨fuel, rfl⟩ : ∃ f, fuel = f + 1 := ⟨fuel - 1, by omega⟩
    have hB := HalI2CReceiveByte_spec s I2C_ACK
    rw [HalI2CReceive_loop_succ, receiveLoopCond_eq, if_pos (by simp; omega),
      Nat.mod_eq_of_lt (by omega)]
    have h := ih fuel (i + 1)
      (store (buffer + i) (HalI2CReceiveByte I2C_ACK s).1 (HalI2CReceiveByte I2C_ACK s).2)
      (by omega) (by omega)
    simp only [store_calls, store_sdaIn, store_trace, hB.2.1, hB.2.2.1, store_mem, hB.1,
      hB.2.2.2.1, HalI2CReceiveByte_pulses, sampledByte_shift,
      Nat.mod_eq_of_lt (sampledByte_lt s.sdaIn 0)] at h
    rw [hB.1]
    refine ⟨h.1, ?_, ?_, ?_, ?_⟩
    · rw [h.2.1, List.range_succ_eq_map n, List.map_cons, List.map_map, List.append_assoc]
      simp only [List.singleton_append, Nat.mul_zero, List.cons.injEq, true_and,
        List.append_cancel_left_eq]
      apply List.map_congr_left
      intro j _
      simp only [Function.comp, Nat.succ_eq_add_one, Nat.mul_add, Nat.mul_one]
    · rw [h.2.2.1]
      funext k
      congr 1
    · intro a
      rw [h.2.2.2.1 a]
      by_cases h1 : buffer + (i + 1) ≤ a ∧ a < buffer + (i + 1) + n
      · rw [if_pos h1, if_pos (by omega)]
        congr 1
        omega
      · rw [if_neg h1]
        by_cases h2 : a = buffer + i
        · rw [if_pos h2, if_pos (by omega), h2, Nat.sub_self]
        · rw [if_neg h2, if_neg (by omega)]
    · rw [h.2.2.2.2]; omega

theorem receiveLoopCount_of_pos (intBits len : Nat) (h1 : 1 ≤ len) (hlen : len < 65536) :
    receiveLoopCount intBits len = len - 1 := by
  unfold receiveLoopCount
  split <;> omega

/-- The whole of `HalI2CReceive` after a successful START and an acknowledged address byte,
for every length and every outcome `rs` of STOP: with `N` the number of loop
iterations, `N + 1` bytes are received and stored at `buffer[0 .. N]`, all but
the last acknowledged. -/
theorem HalI2CReceive_acked (intBits address buffer len : Nat) (s : State)
    (hbuf : buffer ≠ NULL) (hlen : len < 65536)
    (hstart : (HalI2CStart s).1 = I2C_SUCCESS) (hack : s.sdaIn 0 = false) :
    (∃ rs, (HalI2CReceive intBits address buffer len s).2.calls =
        s.calls ++ [.start I2C_SUCCESS, .sendByte (addressByte address I2C_OP_READ) I2C_ACK] ++
          (List.range (receiveLoopCount intBits len + 1)).map
            (fun j => Call.receiveByte
              (if j < receiveLoopCount intBits len then I2C_ACK else I2C_NAK)
              (sampledByte s.sdaIn (1 + 8 * j))) ++
          [.stop rs] ∧
      (rs = I2C_SUCCESS → (HalI2CReceive intBits address buffer len s).1 = I2C_SUCCESS) ∧
      (rs ≠ I2C_SUCCESS → (HalI2CReceive intBits address buffer len s).1 = I2C_E_ARB)) ∧
    (∀ a, (HalI2CReceive intBits address buffer len s).2.mem a =
      if buffer ≤ a ∧ a < buffer + (receiveLoopCount intBits len + 1) then
        sampledByte s.sdaIn (1 + 8 * (a - buffer))
      else s.mem a) ∧
    clockPulses (HalI2CReceive intBits address buffer len s).2.trace =
      clockPulses s.trace + 10 + 9 * (receiveLoopCount intBits len + 1) := by
  have hA := address_phase s (addressByte address I2C_OP_READ) hstart
  rw [hack] at hA
  simp only [Bool.false_eq_true, if_false] at hA
  rw [HalI2CReceive_eq _ _ _ _ _ hbuf hstart, hA.1, if_neg (by simp)]
  generalize (HalI2CSendByte (addressByte address I2C_OP_READ) (HalI2CStart s).2).2 = s1 at hA
  obtain ⟨-, hc1, hsda1, hmem1, hp1⟩ := hA
  have hL := HalI2CReceive_loop_spec intBits buffer len hlen (receiveLoopCount intBits len)
    65536 0 s1 (by omega) (by have := receiveLoopCount_lt intBits len hlen; omega)
  generalize HalI2CReceive.loop intBits buffer len 65536 0 s1 = l at hL
  generalize receiveLoopCount intBits len = N at hL
  obtain ⟨hl1, hl2, hl3, hl4, hl5⟩ := hL
  have hB := HalI2CReceiveByte_spec l.2 I2C_NAK
  have hbp := HalI2CReceiveByte_pulses I2C_NAK l.2
  generalize HalI2CReceiveByte I2C_NAK l.2 = b at hB hbp
  obtain ⟨hb1, hb2, -, hb4, -, -⟩ := hB
  have hsp := stopAndReturn_spec (I2C_SUCCESS, store (buffer + l.1) b.1 b.2)
  generalize stopAndReturn (I2C_SUCCESS, store (buffer + l.1) b.1 b.2) = r at hsp
  obtain ⟨hr1, hr2, -, hr4, hr5, hr6⟩ := hsp
  simp only [store_calls, store_mem, store_trace] at hr1 hr2 hr4 hr5 hr6
  have hbyte : sampledByte l.2.sdaIn 0 = sampledByte s.sdaIn (1 + 8 * N) := by
    apply sampledByte_ext
    intro c
    rw [hl3, hsda1]
    show s.sdaIn (0 + c + 8 * N + 1) = s.sdaIn (1 + 8 * N + c)
    congr 1
    omega
  have hloop : ∀ j, sampledByte s1.sdaIn (8 * j) = sampledByte s.sdaIn (1 + 8 * j) := by
    intro j
    apply sampledByte_ext
    intro c
    rw [hsda1]
    show s.sdaIn (8 * j + c + 1) = s.sdaIn (1 + 8 * j + c)
    congr 1
    omega
  rw [hbyte] at hb1 hb2
  simp only [hloop] at hl2 hl4
  refine ⟨⟨_, ?_, hr5, hr6⟩, ?_, ?_⟩
  · rw [hr1, hb2, hl2, hc1, List.range_succ, List.map_append]
    simp only [List.map_cons, List.map_nil, Nat.lt_irrefl, if_false, List.append_assoc,
      List.append_cancel_left_eq, List.append_cancel_right_eq]
    apply List.map_congr_left
    intro j hj
    rw [List.mem_range] at hj
    rw [if_pos hj]
  · intro a
    rw [congrFun hr2 a, store_mem, hl1, hb1, Nat.mod_eq_of_lt (sampledByte_lt _ _)]
    by_cases h1 : a = buffer + N
    · rw [if_pos h1, if_pos (by omega), h1, Nat.add_sub_cancel_left]
    · rw [if_neg h1, congrFun hb4 a, hl4 a, Nat.add_zero, hmem1]
      by_cases h2 : buffer ≤ a ∧ a < buffer + N
      · rw [if_pos h2, if_pos (by omega)]
      · rw [if_neg h2, if_neg (by omega)]
  · rw [hr4, hbp, hl5, hp1]
    omega

/-- The whole of `HalI2CReceive` for `1 ≤ len`, after a successful START, an acknowledged
address byte and with a successful STOP. -/
theorem HalI2CReceive_full (intBits address buffer len : Nat) (s : State)
    (hbuf : buffer ≠ NULL) (hlen1 : 1 ≤ len) (hlen : len < 65536)
    (hstart : (HalI2CStart s).1 = I2C_SUCCESS) (hack : s.sdaIn 0 = false)
    (hstop : (HalI2CReceive intBits address buffer len s).2.calls.getLast? =
      some (.stop I2C_SUCCESS)) :
    (HalI2CReceive intBits address buffer len s).1 = I2C_SUCCESS ∧
    (HalI2CReceive intBits address buffer len s).2.calls =
      s.calls ++ [.start I2C_SUCCESS, .sendByte (addressByte address I2C_OP_READ) I2C_ACK] ++
        (List.range len).map
          (fun i => Call.receiveByte (if i + 1 < len then I2C_ACK else I2C_NAK)
            (sampledByte s.sdaIn (1 + 8 * i))) ++
        [.stop I2C_SUCCESS] ∧
    (∀ i, i < len →
      (HalI2CReceive intBits address buffer len s).2.mem (buffer + i) =
        sampledByte s.sdaIn (1 + 8 * i)) ∧
    (∀ a, a < buffer ∨ buffer + len ≤ a →
      (HalI2CReceive intBits address buffer len s).2.mem a = s.mem a) ∧
    clockPulses (HalI2CReceive intBits address buffer len s).2.trace =
      clockPulses s.trace + 10 + 9 * len := by
  obtain ⟨⟨rs, hc, hok, -⟩, hm, hp⟩ :=
    HalI2CReceive_acked intBits address buffer len s hbuf hlen hstart hack
  rw [receiveLoopCount_of_pos intBits len hlen1 hlen] at hc hm hp
  have hN : len - 1 + 1 = len := by omega
  rw [hN] at hc hm hp
  rw [hc, List.getLast?_append] at hstop
  have hrs : rs = I2C_SUCCESS := by simpa using hstop
  subst hrs
  refine ⟨hok rfl, ?_, ?_, ?_, hp⟩
  · rw [hc]
    simp only [List.append_cancel_right_eq, List.append_cancel_left_eq]
    apply List.map_congr_left
    intro j _
    have e : (j < len - 1) = (j + 1 < len) := by
      apply propext
      omega
    simp only [e]
  · intro i hi
    rw [hm, if_pos (by omega), Nat.add_sub_cancel_left]
  · intro a ha
    rw [hm, if_neg (by omega)]

/-- C3: for `HalI2CReceive` with a non-null buffer and `1 ≤ len` (a `uint16_t`),
for either width of `int`, when START and the STOP of the call succeed and the
address byte is acknowledged: exactly `len` bytes are received; the `i`-th
byte received, assembled from the eight data-line levels read for it, is
stored in `buffer[i]` for every `i < len`, and memory outside
`buffer[0 .. len-1]` is unchanged; `HalI2CReceiveByte` is called with
`I2C_ACK` for the first `len - 1` bytes and with `I2C_NAK` for the last one
only, which leaves the data pin driven low, respectively released, in the
ninth bit cell; the result is `I2C_SUCCESS`. The clock pulses are one of
START and nine per byte. -/
theorem C3_receive_bytes (intBits address buffer len : Nat) (s : State)
    (hbuf : buffer ≠ NULL) (hlen1 : 1 ≤ len) (hlen : len < 65536)
    (hstart : (HalI2CStart s).1 = I2C_SUCCESS) (hack : s.sdaIn 0 = false)
    (hstop : (HalI2CReceive intBits address buffer len s).2.calls.getLast? =
      some (.stop I2C_SUCCESS)) :
    (HalI2CReceive intBits address buffer len s).1 = I2C_SUCCESS ∧
    (HalI2CReceive intBits address buffer len s).2.calls =
      s.calls ++ [.start I2C_SUCCESS, .sendByte (addressByte address I2C_OP_READ) I2C_ACK] ++
        (List.range len).map
          (fun i => Call.receiveByte (if i + 1 < len then I2C_ACK else I2C_NAK)
            (sampledByte s.sdaIn (1 + 8 * i))) ++
        [.stop I2C_SUCCESS] ∧
    (∀ i, i < len →
      (HalI2CReceive intBits address buffer len s).2.mem (buffer + i) =
        sampledByte s.sdaIn (1 + 8 * i)) ∧
    (∀ a, a < buffer ∨ buffer + len ≤ a →
      (HalI2CReceive intBits address buffer len s).2.mem a = s.mem a) ∧
    clockPulses (HalI2CReceive intBits address buffer len s).2.trace =
      clockPulses s.trace + 10 + 9 * len ∧
    (∀ t : State,
      ((HalI2CReceiveByte I2C_ACK t).2.sdaDir = true ∧
        (HalI2CReceiveByte I2C_ACK t).2.sdaOut = false) ∧
      (HalI2CReceiveByte I2C_NAK t).2.sdaDir = false) := by
  obtain ⟨h1, h2, h3, h4, h5⟩ :=
    HalI2CReceive_full intBits address buffer len s hbuf hlen1 hlen hstart hack hstop
  refine ⟨h1, h2, h3, h4, h5, ?_⟩
  intro t
  have ha := HalI2CReceiveByte_spec t I2C_ACK
  have hn := HalI2CReceiveByte_spec t I2C_NAK
  refine ⟨⟨?_, ha.2.2.2.2.2 rfl⟩, ?_⟩
  · rw [ha.2.2.2.2.1]; rfl
  · rw [hn.2.2.2.2.1]; rfl

set_option maxRecDepth 1000000 in
/-- Witness of C3: three bytes read from `talkingDevice` into a buffer at
`0x100`, with a 16-bit `int`. -/
theorem C3_receive_bytes_witness :
    (HalI2CReceive 16 0x50 0x100 3 talkingDevice).1 = I2C_SUCCESS ∧
    (HalI2CReceive 16 0x50 0x100 3 talkingDevice).2.calls =
      [.start I2C_SUCCESS, .sendByte 0xA1 I2C_ACK, .receiveByte I2C_ACK 0x92,
        .receiveByte I2C_ACK 0x49, .receiveByte I2C_NAK 0x24, .stop I2C_SUCCESS] ∧
    (HalI2CReceive 16 0x50 0x100 3 talkingDevice).2.mem 0x102 = 0x24 :=
  have h := C3_receive_bytes 16 0x50 0x100 3 talkingDevice (by decide) (by decide) (by decide)
    (by decide) (by decide) (by decide)
  ⟨h.1, h.2.1, h.2.2.1 2 (by decide)⟩

/-! ## Zero-length receive -/

/-- The write phase of `HalI2CReadRegisters` with both bytes acknowledged: no
STOP, and the rest of the call is `HalI2CReceive` from the state reached. -/
theorem HalI2CReadRegisters_delegates (intBits address reg buffer len : Nat) (s : State)
    (hbuf : buffer ≠ NULL) (hstart : (HalI2CStart s).1 = I2C_SUCCESS)
    (hack0 : s.sdaIn 0 = false) (hack1 : s.sdaIn 1 = false) :
    HalI2CReadRegisters intBits address reg buffer len s =
      HalI2CReceive intBits address buffer len (afterWritePhase address reg s) ∧
    (afterWritePhase address reg s).calls =
      s.calls ++ [.start I2C_SUCCESS, .sendByte (addressByte address I2C_OP_WRITE) I2C_ACK,
        .sendByte (reg % 256) I2C_ACK] ∧
    (afterWritePhase address reg s).sdaIn = (fun k => s.sdaIn (k + 2)) ∧
    (afterWritePhase address reg s).mem = s.mem ∧
    clockPulses (afterWritePhase address reg s).trace = clockPulses s.trace + 19 := by
  have hA := address_phase s (addressByte address I2C_OP_WRITE) hstart
  have hR := register_phase s (addressByte address I2C_OP_WRITE) (reg % 256) hstart hack0
  rw [hack0] at hA
  rw [hack1] at hR
  simp only [Bool.false_eq_true, if_false] at hA hR
  refine ⟨?_, hR.2.1, hR.2.2.1, hR.2.2.2.1, hR.2.2.2.2⟩
  rw [HalI2CReadRegisters_eq _ _ _ _ _ _ hbuf hstart, hA.1, if_neg (by simp), hR.1,
    if_neg (by simp)]
  rfl

/-- C5 (the code does otherwise): `HalI2CReceive` with a non-null buffer and
`len = 0`, after a successful START and an acknowledged address byte, does
receive data and does write the buffer. The loop bound `len - 1` is `-1` with an
`int` wider than 16 bits, so the loop is skipped and one byte is received with
`I2C_NAK` and stored in `buffer[0]`; with a 16-bit `int` it wraps to `65535`, so
`65536` bytes are received and stored in `buffer[0 .. 65535]`.
`HalI2CReadRegisters` with both bytes of its write phase acknowledged does the
same from the state its write phase ends in. -/
theorem C5_receive_len_zero (intBits address reg buffer : Nat) (s : State)
    (hbuf : buffer ≠ NULL) (hstart : (HalI2CStart s).1 = I2C_SUCCESS)
    (hack : s.sdaIn 0 = false) :
    (∃ rs, (HalI2CReceive intBits address buffer 0 s).2.calls =
      s.calls ++ [.start I2C_SUCCESS, .sendByte (addressByte address I2C_OP_READ) I2C_ACK] ++
        (List.range (if 16 < intBits then 1 else 65536)).map
          (fun j => Call.receiveByte
            (if j + 1 < (if 16 < intBits then 1 else 65536) then I2C_ACK else I2C_NAK)
            (sampledByte s.sdaIn (1 + 8 * j))) ++
        [.stop rs]) ∧
    (∀ i, i < (if 16 < intBits then 1 else 65536) →
      (HalI2CReceive intBits address buffer 0 s).2.mem (buffer + i) =
        sampledByte s.sdaIn (1 + 8 * i)) ∧
    (s.sdaIn 1 = false →
      HalI2CReadRegisters intBits address reg buffer 0 s =
        HalI2CReceive intBits address buffer 0 (afterWritePhase address reg s)) := by
  obtain ⟨⟨rs, hc, -, -⟩, hm, -⟩ :=
    HalI2CReceive_acked intBits address buffer 0 s hbuf (by decide) hstart hack
  have hN : receiveLoopCount intBits 0 + 1 = if 16 < intBits then 1 else 65536 := by
    unfold receiveLoopCount
    split <;> rfl
  rw [hN] at hc hm
  refine ⟨⟨rs, ?_⟩, ?_, ?_⟩
  · rw [hc]
    simp only [List.append_cancel_right_eq, List.append_cancel_left_eq]
    apply List.map_congr_left
    intro j _
    have e : (j < receiveLoopCount intBits 0) =
        (j + 1 < if 16 < intBits then 1 else 65536) := by
      apply propext
      rw [← hN]
      omega
    simp only [e]
  · intro i hi
    rw [hm, if_pos (by omega), Nat.add_sub_cancel_left]
  · intro hack1
    exact (HalI2CReadRegisters_delegates intBits address reg buffer 0 s hbuf hstart hack
      hack1).1

set_option maxRecDepth 1000000 in
/-- Witness of C5: `HalI2CReceive(0x50, buffer, 0)` with the buffer at `0x100`,
on `idleHighDevice`. With a 16-bit `int` the bytes at `0x100` and at `0x100 +
65535` both change from `0` to `0xFF`; with a 32-bit `int` one byte is received
and not acknowledged. -/
theorem C5_receive_len_zero_witness :
    idleHighDevice.mem 0x100 = 0 ∧
    (HalI2CReceive 16 0x50 0x100 0 idleHighDevice).2.mem 0x100 = 0xFF ∧
    (HalI2CReceive 16 0x50 0x100 0 idleHighDevice).2.mem (0x100 + 65535) = 0xFF ∧
    (HalI2CReceive 32 0x50 0x100 0 idleHighDevice).2.mem 0x100 = 0xFF ∧
    (HalI2CReceive 32 0x50 0x100 0 idleHighDevice).2.calls =
      [.start I2C_SUCCESS, .sendByte 0xA1 I2C_ACK, .receiveByte I2C_NAK 0xFF,
        .stop I2C_SUCCESS] := by
  have h := C5_receive_len_zero 16 0x50 7 0x100 idleHighDevice (by decide) (by decide)
    (by decide)
  have h0 := h.2.1 0 (by decide)
  have h1 := h.2.1 65535 (by decide)
  rw [Nat.add_zero] at h0
  exact ⟨rfl, h0.trans (by decide), h1.trans (by decide), by decide, by decide⟩

/-! ## The data loop of `HalI2CWriteRegisters` -/

theorem HalI2CWriteRegisters_loop_succ (buffer len fuel i : Nat) (ret : Int) (s : State) :
    HalI2CWriteRegisters.loop buffer len (fuel + 1) i ret s =
      if i < len then
        if (HalI2CSendByte (load (buffer + i) s) s).1 = 0 then
          (I2C_E_INCOMPLETE, (HalI2CSendByte (load (buffer + i) s) s).2)
        else HalI2CWriteRegisters.loop buffer len fuel ((i + 1) % 65536) ret
          (HalI2CSendByte (load (buffer + i) s) s).2
      else (ret, s) := rfl

theorem HalI2CWriteRegisters_loop_fuel (buffer len fuel i : Nat) (ret : Int) (s : State)
    (hlen : len < 65536) (h : len ≤ fuel + i) :
    HalI2CWriteRegisters.loop buffer len (fuel + 1) i ret s =
      HalI2CWriteRegisters.loop buffer len fuel i ret s := by
  induction fuel generalizing i s with
  | zero =>
    rw [HalI2CWriteRegisters_loop_succ, if_neg (by omega)]
    rfl
  | succ fuel ih =>
    rw [HalI2CWriteRegisters_loop_succ buffer len (fuel + 1) i ret s,
      HalI2CWriteRegisters_loop_succ buffer len fuel i ret s]
    split
    · split
      · rfl
      · rw [Nat.mod_eq_of_lt (by omega)]
        exact ih (i + 1) _ (by omega)
    · rfl

/-- The data loop of `HalI2CWriteRegisters` as it is called, with fuel `65536`,
gives the result any larger fuel gives. -/
theorem HalI2CWriteRegisters_loop_fuel_enough (buffer len extra : Nat) (ret : Int) (s : State)
    (hlen : len < 65536) :
    HalI2CWriteRegisters.loop buffer len (65536 + extra) 0 ret s =
      HalI2CWriteRegisters.loop buffer len 65536 0 ret s := by
  induction extra with
  | zero => rfl
  | succ extra ih =>
    rw [← Nat.add_assoc, HalI2CWriteRegisters_loop_fuel _ _ _ _ _ _ hlen (by omega)]
    exact ih

/-- The data loop leaves at its first iteration, with `I2C_E_INCOMPLETE`, when
the first data byte is acknowledged. -/
theorem HalI2CWriteRegisters_loop_first_ack (buffer len : Nat) (ret : Int) (s : State)
    (hlen1 : 1 ≤ len) (hack : s.sdaIn 0 = false) :
    (HalI2CWriteRegisters.loop buffer len 65536 0 ret s).1 = I2C_E_INCOMPLETE ∧
    (HalI2CWriteRegisters.loop buffer len 65536 0 ret s).2.calls =
      s.calls ++ [.sendByte (load buffer s) I2C_ACK] ∧
    (HalI2CWriteRegisters.loop buffer len 65536 0 ret s).2.mem = s.mem ∧
    clockPulses (HalI2CWriteRegisters.loop buffer len 65536 0 ret s).2.trace =
      clockPulses s.trace + 9 := by
  have hB := HalI2CSendByte_spec s (load (buffer + 0) s)
  rw [hack] at hB
  simp only [Bool.false_eq_true, if_false, Nat.add_zero] at hB
  have hu := HalI2CWriteRegisters_loop_succ buffer len 65535 0 ret s
  simp only [Nat.add_zero] at hu
  rw [if_pos (by omega), hB.1, if_pos (show I2C_ACK = 0 from rfl)] at hu
  have hu' : HalI2CWriteRegisters.loop buffer len 65536 0 ret s =
      (I2C_E_INCOMPLETE, (HalI2CSendByte (load buffer s) s).2) := hu
  rw [hu']
  exact ⟨rfl, hB.2.1, hB.2.2.2, HalI2CSendByte_pulses _ _⟩

/-- C6 (the code does otherwise): for `HalI2CWriteRegisters` with a non-null
buffer and `1 ≤ len`, when START and the STOP of the call succeed and the
address byte, the register-index byte and the first data byte are all
acknowledged, the result is `I2C_E_INCOMPLETE` and exactly one data byte,
`buffer[0]`, is sent, whatever `len` is and whatever the peripheral would
answer to later bytes: the test `!HalI2CSendByte(buffer[i])` leaves the loop on
an acknowledge, where `HalI2CSend` leaves it on a missing acknowledge. -/
theorem C6_write_registers_stops_on_ack (address reg buffer len : Nat) (s : State)
    (hbuf : buffer ≠ NULL) (hlen1 : 1 ≤ len)
    (hstart : (HalI2CStart s).1 = I2C_SUCCESS)
    (hack0 : s.sdaIn 0 = false) (hack1 : s.sdaIn 1 = false) (hack2 : s.sdaIn 2 = false)
    (hstop : (HalI2CWriteRegisters address reg buffer len s).2.calls.getLast? =
      some (.stop I2C_SUCCESS)) :
    (HalI2CWriteRegisters address reg buffer len s).1 = I2C_E_INCOMPLETE ∧
    (HalI2CWriteRegisters address reg buffer len s).2.calls =
      s.calls ++ [.start I2C_SUCCESS, .sendByte (addressByte address I2C_OP_WRITE) I2C_ACK,
        .sendByte (reg % 256) I2C_ACK, .sendByte (load buffer s) I2C_ACK,
        .stop I2C_SUCCESS] ∧
    clockPulses (HalI2CWriteRegisters address reg buffer len s).2.trace =
      clockPulses s.trace + 28 := by
  have hA := address_phase s (addressByte address I2C_OP_WRITE) hstart
  have hR := register_phase s (addressByte address I2C_OP_WRITE) (reg % 256) hstart hack0
  rw [hack0] at hA
  rw [hack1] at hR
  simp only [Bool.false_eq_true, if_false] at hA hR
  rw [HalI2CWriteRegisters_eq _ _ _ _ _ hbuf hstart, hA.1, if_neg (by simp), hR.1,
    if_neg (by simp)] at hstop ⊢
  have hL := HalI2CWriteRegisters_loop_first_ack buffer len I2C_SUCCESS
    (HalI2CSendByte (reg % 256)
      (HalI2CSendByte (addressByte address I2C_OP_WRITE) (HalI2CStart s).2).2).2 hlen1
    (by rw [hR.2.2.1]; exact hack2)
  have hsp := stopAndReturn_spec (HalI2CWriteRegisters.loop buffer len 65536 0 I2C_SUCCESS
    (HalI2CSendByte (reg % 256)
      (HalI2CSendByte (addressByte address I2C_OP_WRITE) (HalI2CStart s).2).2).2)
  have hst := stopAndReturn_last _ _ hstop
  refine ⟨(hsp.2.2.2.2.1 hst).trans hL.1, ?_, ?_⟩
  · rw [hsp.1, hst, hL.2.1, hR.2.1]
    simp [load, hR.2.2.2.1]
  · rw [hsp.2.2.2.1, hL.2.2.2, hR.2.2.2.2]

set_option maxRecDepth 1000000 in
/-- Witness of C6: `HalI2CWriteRegisters(0x50, 7, [0x11, 0x22, 0x33], 3)`. When
the peripheral acknowledges the address, the register index and `0x11` and
rejects `0x22`, one data byte is sent, not two; when it acknowledges every
byte, one data byte is sent and the result is `I2C_E_INCOMPLETE`; when it
acknowledges the address and the register index and rejects all three data
bytes, all three are sent and the result is `I2C_SUCCESS`. -/
theorem C6_write_registers_stops_on_ack_witness :
    ((HalI2CWriteRegisters 0x50 7 0x100 3 fourthByteRejected).1 = I2C_E_INCOMPLETE ∧
      (HalI2CWriteRegisters 0x50 7 0x100 3 fourthByteRejected).2.calls =
        [.start I2C_SUCCESS, .sendByte 0xA0 I2C_ACK, .sendByte 7 I2C_ACK,
          .sendByte 0x11 I2C_ACK, .stop I2C_SUCCESS]) ∧
    ((HalI2CWriteRegisters 0x50 7 0x100 3 acknowledgingDevice).1 = I2C_E_INCOMPLETE ∧
      (HalI2CWriteRegisters 0x50 7 0x100 3 acknowledgingDevice).2.calls =
        [.start I2C_SUCCESS, .sendByte 0xA0 I2C_ACK, .sendByte 7 I2C_ACK,
          .sendByte 0x11 I2C_ACK, .stop I2C_SUCCESS]) ∧
    ((HalI2CWriteRegisters 0x50 7 0x100 3 dataRejected).1 = I2C_SUCCESS ∧
      (HalI2CWriteRegisters 0x50 7 0x100 3 dataRejected).2.calls =
        [.start I2C_SUCCESS, .sendByte 0xA0 I2C_ACK, .sendByte 7 I2C_ACK,
          .sendByte 0x11 I2C_NAK, .sendByte 0x22 I2C_NAK, .sendByte 0x33 I2C_NAK,
          .stop I2C_SUCCESS]) := by
  have h := C6_write_registers_stops_on_ack 0x50 7 0x100 3 fourthByteRejected (by decide)
    (by decide) (by decide) (by decide) (by decide) (by decide) (by decide)
  have h' := C6_write_registers_stops_on_ack 0x50 7 0x100 3 acknowledgingDevice (by decide)
    (by decide) (by decide) (by decide) (by decide) (by decide) (by decide)
  exact ⟨⟨h.1, h.2.1⟩, ⟨h'.1, h'.2.1⟩, by decide, by decide⟩

/-! ## Register read -/

theorem startCount_append (a b : List Call) :
    startCount (a ++ b) = startCount a + startCount b := by
  simp [startCount]

theorem HalI2CReceive_loop_startCount (intBits buffer len fuel i : Nat) (s : State) :
    startCount (HalI2CReceive.loop intBits buffer len fuel i s).2.calls = startCount s.calls := by
  induction fuel generalizing i s with
  | zero => rfl
  | succ fuel ih =>
    rw [HalI2CReceive_loop_succ]
    split
    · rw [ih, store_calls, (HalI2CReceiveByte_spec s I2C_ACK).2.1, startCount_append]
      rfl
    · rfl

/-- Every call of `HalI2CReceive` with a non-null buffer calls `HalI2CStart`
exactly once, whatever the bus does. -/
theorem HalI2CReceive_startCount (intBits address buffer len : Nat) (s : State)
    (hbuf : buffer ≠ NULL) :
    startCount (HalI2CReceive intBits address buffer len s).2.calls = startCount s.calls + 1 := by
  have hS := HalI2CStart_spec s
  have h1 : startCount (HalI2CStart s).2.calls = startCount s.calls + 1 := by
    rw [hS.2.1, startCount_append]; rfl
  by_cases hstart : (HalI2CStart s).1 = I2C_SUCCESS
  · rw [HalI2CReceive_eq _ _ _ _ _ hbuf hstart]
    have hA := HalI2CSendByte_spec (HalI2CStart s).2 (addressByte address I2C_OP_READ)
    have h2 : startCount (HalI2CSendByte (addressByte address I2C_OP_READ)
        (HalI2CStart s).2).2.calls = startCount s.calls + 1 := by
      rw [hA.2.1, startCount_append, h1]; rfl
    split
    · rw [(stopAndReturn_spec _).1, startCount_append, h2]; rfl
    · rw [(stopAndReturn_spec _).1, startCount_append, store_calls,
        (HalI2CReceiveByte_spec _ I2C_NAK).2.1, startCount_append,
        HalI2CReceive_loop_startCount, h2]
      rfl
  · simp only [HalI2CReceive, if_neg hbuf, ne_eq, hstart, not_false_eq_true, if_true]
    exact h1

/-- C7: for `HalI2CReadRegisters` with a non-null buffer and `1 ≤ len` (a
`uint16_t`), when the first START succeeds and both the address byte with the
write bit and the register-index byte are acknowledged: the write phase logs
START and the two bytes and no STOP; the rest of the call is exactly
`HalI2CReceive(address, buffer, len)` from the state the write phase ends in
(same result, same final state, hence same bus activity and buffer contents);
`HalI2CStart` is called exactly twice in the whole call, whatever the bus does
during the read phase. When moreover the second START and the STOP succeed and
the address byte with the read bit is acknowledged, the read phase sends that
byte, receives `len` bytes into `buffer[0 .. len-1]`, acknowledges all but the
last, issues one STOP and returns `I2C_SUCCESS`. -/
theorem C7_read_registers (intBits address reg buffer len : Nat) (s : State)
    (hbuf : buffer ≠ NULL) (hlen1 : 1 ≤ len) (hlen : len < 65536)
    (hstart : (HalI2CStart s).1 = I2C_SUCCESS)
    (hack0 : s.sdaIn 0 = false) (hack1 : s.sdaIn 1 = false) :
    (afterWritePhase address reg s).calls =
      s.calls ++ [.start I2C_SUCCESS, .sendByte (addressByte address I2C_OP_WRITE) I2C_ACK,
        .sendByte (reg % 256) I2C_ACK] ∧
    HalI2CReadRegisters intBits address reg buffer len s =
      HalI2CReceive intBits address buffer len (afterWritePhase address reg s) ∧
    startCount (HalI2CReadRegisters intBits address reg buffer len s).2.calls =
      startCount s.calls + 2 ∧
    ((HalI2CStart (afterWritePhase address reg s)).1 = I2C_SUCCESS → s.sdaIn 2 = false →
      (HalI2CReadRegisters intBits address reg buffer len s).2.calls.getLast? =
        some (.stop I2C_SUCCESS) →
      (HalI2CReadRegisters intBits address reg buffer len s).1 = I2C_SUCCESS ∧
      (HalI2CReadRegisters intBits address reg buffer len s).2.calls =
        s.calls ++ [.start I2C_SUCCESS, .sendByte (addressByte address I2C_OP_WRITE) I2C_ACK,
          .sendByte (reg % 256) I2C_ACK, .start I2C_SUCCESS,
          .sendByte (addressByte address I2C_OP_READ) I2C_ACK] ++
          (List.range len).map
            (fun i => Call.receiveByte (if i + 1 < len then I2C_ACK else I2C_NAK)
              (sampledByte s.sdaIn (3 + 8 * i))) ++
          [.stop I2C_SUCCESS] ∧
      (∀ i, i < len →
        (HalI2CReadRegisters intBits address reg buffer len s).2.mem (buffer + i) =
          sampledByte s.sdaIn (3 + 8 * i)) ∧
      (∀ a, a < buffer ∨ buffer + len ≤ a →
        (HalI2CReadRegisters intBits address reg buffer len s).2.mem a = s.mem a)) := by
  obtain ⟨hd, hc, hsda, hmem, -⟩ :=
    HalI2CReadRegisters_delegates intBits address reg buffer len s hbuf hstart hack0 hack1
  refine ⟨hc, hd, ?_, ?_⟩
  · rw [hd, HalI2CReceive_startCount _ _ _ _ _ hbuf, hc, startCount_append]
    rfl
  · intro hstart2 hack2 hstop
    rw [hd] at hstop ⊢
    obtain ⟨h1, h2, h3, h4, -⟩ := HalI2CReceive_full intBits address buffer len
      (afterWritePhase address reg s) hbuf hlen1 hlen hstart2 (by rw [hsda]; exact hack2) hstop
    have hbyte : ∀ i, sampledByte (afterWritePhase address reg s).sdaIn (1 + 8 * i) =
        sampledByte s.sdaIn (3 + 8 * i) := by
      intro i
      apply sampledByte_ext
      intro c
      rw [hsda]
      show s.sdaIn (1 + 8 * i + c + 2) = s.sdaIn (3 + 8 * i + c)
      congr 1
      omega
    simp only [hbyte] at h2 h3
    refine ⟨h1, ?_, h3, ?_⟩
    · rw [h2, hc]
      simp
    · intro a ha
      rw [h4 a ha, hmem]

set_option maxRecDepth 1000000 in
/-- Witness of C7: `HalI2CReadRegisters(0x50, 7, buffer, 4)` on `registerDevice`
with a 16-bit `int`: two STARTs, four bytes read, the first three acknowledged
and the fourth not, one STOP. -/
theorem C7_read_registers_witness :
    (HalI2CReadRegisters 16 0x50 7 0x100 4 registerDevice).1 = I2C_SUCCESS ∧
    (HalI2CReadRegisters 16 0x50 7 0x100 4 registerDevice).2.calls =
      [.start I2C_SUCCESS, .sendByte 0xA0 I2C_ACK, .sendByte 7 I2C_ACK,
        .start I2C_SUCCESS, .sendByte 0xA1 I2C_ACK,
        .receiveByte I2C_ACK 0x42, .receiveByte I2C_ACK 0x10, .receiveByte I2C_ACK 0x84,
        .receiveByte I2C_NAK 0x21, .stop I2C_SUCCESS] := by
  have h := (C7_read_registers 16 0x50 7 0x100 4 registerDevice (by decide) (by decide)
    (by decide) (by decide) (by decide) (by decide)).2.2.2 (by decide) (by decide) (by decide)
  exact ⟨h.1, h.2.1⟩

/-! ## Precedence between an earlier error and a failed STOP -/

theorem stopAndReturn_stopOverrides (body : Int × State) :
    StopOverrides (stopAndReturn body) := by
  have hsp := stopAndReturn_spec body
  constructor
  · intro rs hlast hrs
    have h := stopAndReturn_last body rs hlast
    exact hsp.2.2.2.2.2 (by rw [h]; exact hrs)
  · intro herr
    by_cases hs : (HalI2CStop body.2).1 = I2C_SUCCESS
    · rw [hsp.1, hs, List.getLast?_append]
      rfl
    · have h := hsp.2.2.2.2.2 hs
      rw [h] at herr
      exact absurd herr (by decide)

theorem startFailed_stopOverrides (s : State) (h : (HalI2CStart s).1 ≠ I2C_SUCCESS) :
    StopOverrides ((HalI2CStart s).1, (HalI2CStart s).2) := by
  have hS := HalI2CStart_spec s
  have harb : (HalI2CStart s).1 = I2C_E_ARB := hS.1.resolve_left h
  constructor
  · intro rs hlast _
    exact harb
  · intro herr
    rw [show ((HalI2CStart s).1, (HalI2CStart s).2).1 = (HalI2CStart s).1 from rfl, harb] at herr
    exact absurd herr (by decide)

theorem HalI2CReceive_stopOverrides (intBits address buffer len : Nat) (s : State)
    (hbuf : buffer ≠ NULL) : StopOverrides (HalI2CReceive intBits address buffer len s) := by
  by_cases hstart : (HalI2CStart s).1 = I2C_SUCCESS
  · rw [HalI2CReceive_eq _ _ _ _ _ hbuf hstart]
    exact stopAndReturn_stopOverrides _
  · simp only [HalI2CReceive, if_neg hbuf, ne_eq, hstart, not_false_eq_true, if_true]
    exact startFailed_stopOverrides s hstart

theorem HalI2CSend_stopOverrides (address buffer len : Nat) (s : State)
    (hbuf : buffer ≠ NULL) : StopOverrides (HalI2CSend address buffer len s) := by
  by_cases hstart : (HalI2CStart s).1 = I2C_SUCCESS
  · rw [HalI2CSend_eq _ _ _ _ hbuf hstart]
    exact stopAndReturn_stopOverrides _
  · simp only [HalI2CSend, if_neg hbuf, ne_eq, hstart, not_false_eq_true, if_true]
    exact startFailed_stopOverrides s hstart

theorem HalI2CWriteRegisters_stopOverrides (address reg buffer len : Nat) (s : State)
    (hbuf : buffer ≠ NULL) : StopOverrides (HalI2CWriteRegisters address reg buffer len s) := by
  by_cases hstart : (HalI2CStart s).1 = I2C_SUCCESS
  · rw [HalI2CWriteRegisters_eq _ _ _ _ _ hbuf hstart]
    exact stopAndReturn_stopOverrides _
  · simp only [HalI2CWriteRegisters, if_neg hbuf, ne_eq, hstart, not_false_eq_true, if_true]
    exact startFailed_stopOverrides s hstart

theorem HalI2CReadRegisters_stopOverrides (intBits address reg buffer len : Nat) (s : State)
    (hbuf : buffer ≠ NULL) :
    StopOverrides (HalI2CReadRegisters intBits address reg buffer len s) := by
  by_cases hstart : (HalI2CStart s).1 = I2C_SUCCESS
  · rw [HalI2CReadRegisters_eq _ _ _ _ _ _ hbuf hstart]
    split
    · exact stopAndReturn_stopOverrides _
    · split
      · exact stopAndReturn_stopOverrides _
      · exact HalI2CReceive_stopOverrides _ _ _ _ _ hbuf
  · simp only [HalI2CReadRegisters, if_neg hbuf, ne_eq, hstart, not_false_eq_true, if_true]
    exact startFailed_stopOverrides s hstart

set_option maxRecDepth 1000000 in
/-- C4, counterexample: `HalI2CSend(0x50, buffer, 3)` on `stopTimeout`. The
address byte is not acknowledged, so `I2C_E_NODEV` is recorded before STOP;
STOP then times out; the operation returns `I2C_E_ARB`, not `I2C_E_NODEV`. -/
theorem C4_counterexample :
    (HalI2CSend 0x50 0x100 3 stopTimeout).2.calls =
      [.start I2C_SUCCESS, .sendByte 0xA0 I2C_NAK, .stop I2C_E_ARB] ∧
    (HalI2CSend 0x50 0x100 3 stopTimeout).1 = I2C_E_ARB ∧
    (HalI2CSend 0x50 0x100 3 stopTimeout).1 ≠ I2C_E_NODEV := by
  decide

/-- C4, as the code has it: for each of the four transactions called with a
non-null buffer, if the STOP of the call fails (times out), the operation
returns `I2C_E_ARB`, whether or not `I2C_E_NODEV`, `I2C_E_INCOMPLETE` or
`I2C_E_REG` was recorded before STOP; one of these three is returned only when
the call ended with a STOP that succeeded. -/
theorem C4_stop_failure_returns_arb (intBits address reg buffer len : Nat) (s : State)
    (hbuf : buffer ≠ NULL) :
    ∀ r ∈ [HalI2CReceive intBits address buffer len s, HalI2CSend address buffer len s,
        HalI2CReadRegisters intBits address reg buffer len s,
        HalI2CWriteRegisters address reg buffer len s],
      (∀ rs, r.2.calls.getLast? = some (.stop rs) → rs ≠ I2C_SUCCESS → r.1 = I2C_E_ARB) ∧
      (r.1 = I2C_E_NODEV ∨ r.1 = I2C_E_INCOMPLETE ∨ r.1 = I2C_E_REG →
        r.2.calls.getLast? = some (.stop I2C_SUCCESS)) := by
  intro r hr
  simp only [List.mem_cons, List.mem_singleton, List.not_mem_nil, or_false] at hr
  rcases hr with rfl | rfl | rfl | rfl
  · exact HalI2CReceive_stopOverrides _ _ _ _ _ hbuf
  · exact HalI2CSend_stopOverrides _ _ _ _ hbuf
  · exact HalI2CReadRegisters_stopOverrides _ _ _ _ _ _ hbuf
  · exact HalI2CWriteRegisters_stopOverrides _ _ _ _ _ hbuf

set_option maxRecDepth 1000000 in
/-- Witness of C4 as the code has it: `HalI2CWriteRegisters` on `stopTimeout`
returns `I2C_E_ARB` after a rejected address byte and a failed STOP. -/
theorem C4_stop_failure_returns_arb_witness :
    (HalI2CWriteRegisters 0x50 7 0x100 3 stopTimeout).1 = I2C_E_ARB :=
  (C4_stop_failure_returns_arb 16 0x50 7 0x100 3 stopTimeout (by decide)
    (HalI2CWriteRegisters 0x50 7 0x100 3 stopTimeout) (by simp)).1 I2C_E_ARB (by decide)
    (by decide)

/-! ## The calls of a transaction, for every behaviour of the bus -/

theorem stopCount_append (a b : List Call) :
    stopCount (a ++ b) = stopCount a + stopCount b := by
  simp [stopCount]

theorem startCount_of_bytes (cs : List Call) (h : cs.all Call.isByte = true) :
    startCount cs = 0 := by
  induction cs with
  | nil => rfl
  | cons c cs ih =>
    simp only [List.all_cons, Bool.and_eq_true] at h
    cases c <;> simp_all [startCount, Call.isByte]

theorem stopCount_of_bytes (cs : List Call) (h : cs.all Call.isByte = true) :
    stopCount cs = 0 := by
  induction cs with
  | nil => rfl
  | cons c cs ih =>
    simp only [List.all_cons, Bool.and_eq_true] at h
    cases c <;> simp_all [stopCount, Call.isByte]

theorem HalI2CSendByte_call (value : Nat) (s : State) :
    ∃ ack, (HalI2CSendByte value s).2.calls = s.calls ++ [.sendByte value ack] :=
  ⟨_, (HalI2CSendByte_spec s value).2.1⟩

theorem HalI2CReceiveByte_call (ack : Int) (s : State) :
    ∃ rval, (HalI2CReceiveByte ack s).2.calls = s.calls ++ [.receiveByte ack rval] :=
  ⟨_, (HalI2CReceiveByte_spec s ack).2.1⟩

theorem stopAndReturn_call (body : Int × State) :
    ∃ rs, (stopAndReturn body).2.calls = body.2.calls ++ [.stop rs] :=
  ⟨_, (stopAndReturn_spec body).1⟩

theorem address_call (s : State) (b : Nat) (hstart : (HalI2CStart s).1 = I2C_SUCCESS) :
    ∃ ack, (HalI2CSendByte b (HalI2CStart s).2).2.calls =
      s.calls ++ [.start I2C_SUCCESS, .sendByte b ack] :=
  ⟨_, (address_phase s b hstart).2.1⟩

theorem HalI2CSend_loop_calls (buffer len fuel i : Nat) (ret : Int) (s : State) :
    ∃ cs, (HalI2CSend.loop buffer len fuel i ret s).2.calls = s.calls ++ cs ∧
      cs.all Call.isByte = true := by
  induction fuel generalizing i s with
  | zero => exact ⟨[], by simp [HalI2CSend.loop], rfl⟩
  | succ fuel ih =>
    rw [HalI2CSend_loop_succ]
    obtain ⟨ack, hB⟩ := HalI2CSendByte_call (load (buffer + i) s) s
    split
    · split
      · exact ⟨[.sendByte (load (buffer + i) s) ack], hB, rfl⟩
      · obtain ⟨cs, hc, hb⟩ := ih ((i + 1) % 65536) (HalI2CSendByte (load (buffer + i) s) s).2
        refine ⟨.sendByte (load (buffer + i) s) ack :: cs, ?_, ?_⟩
        · rw [hc, hB, List.append_assoc]; rfl
        · simpa [Call.isByte] using hb
    · exact ⟨[], by simp, rfl⟩

theorem HalI2CWriteRegisters_loop_calls (buffer len fuel i : Nat) (ret : Int) (s : State) :
    ∃ cs, (HalI2CWriteRegisters.loop buffer len fuel i ret s).2.calls = s.calls ++ cs ∧
      cs.all Call.isByte = true := by
  induction fuel generalizing i s with
  | zero => exact ⟨[], by simp [HalI2CWriteRegisters.loop], rfl⟩
  | succ fuel ih =>
    rw [HalI2CWriteRegisters_loop_succ]
    obtain ⟨ack, hB⟩ := HalI2CSendByte_call (load (buffer + i) s) s
    split
    · split
      · exact ⟨[.sendByte (load (buffer + i) s) ack], hB, rfl⟩
      · obtain ⟨cs, hc, hb⟩ := ih ((i + 1) % 65536) (HalI2CSendByte (load (buffer + i) s) s).2
        refine ⟨.sendByte (load (buffer + i) s) ack :: cs, ?_, ?_⟩
        · rw [hc, hB, List.append_assoc]; rfl
        · simpa [Call.isByte] using hb
    · exact ⟨[], by simp, rfl⟩

theorem HalI2CReceive_loop_calls (intBits buffer len fuel i : Nat) (s : State) :
    ∃ cs, (HalI2CReceive.loop intBits buffer len fuel i s).2.calls = s.calls ++ cs ∧
      cs.all Call.isByte = true := by
  induction fuel generalizing i s with
  | zero => exact ⟨[], by simp [HalI2CReceive.loop], rfl⟩
  | succ fuel ih =>
    rw [HalI2CReceive_loop_succ]
    obtain ⟨rval, hB⟩ := HalI2CReceiveByte_call I2C_ACK s
    split
    · obtain ⟨cs, hc, hb⟩ := ih ((i + 1) % 65536)
        (store (buffer + i) (HalI2CReceiveByte I2C_ACK s).1 (HalI2CReceiveByte I2C_ACK s).2)
      refine ⟨.receiveByte I2C_ACK rval :: cs, ?_, ?_⟩
      · rw [hc, store_calls, hB, List.append_assoc]; rfl
      · simpa [Call.isByte] using hb
    · exact ⟨[], by simp, rfl⟩

/-- The calls of `HalI2CSend` after a successful START, whatever the bus does:
the address byte with the write bit, then only byte calls, then one STOP. -/
theorem HalI2CSend_calls (address buffer len : Nat) (s : State) (hbuf : buffer ≠ NULL)
    (hstart : (HalI2CStart s).1 = I2C_SUCCESS) :
    ∃ ack cs rs, (HalI2CSend address buffer len s).2.calls =
        s.calls ++ [.start I2C_SUCCESS, .sendByte (addressByte address I2C_OP_WRITE) ack] ++
          cs ++ [.stop rs] ∧
      cs.all Call.isByte = true := by
  obtain ⟨ack, hA⟩ := address_call s (addressByte address I2C_OP_WRITE) hstart
  rw [HalI2CSend_eq _ _ _ _ hbuf hstart]
  split
  · obtain ⟨rs, hS⟩ := stopAndReturn_call (I2C_E_NODEV,
      (HalI2CSendByte (addressByte address I2C_OP_WRITE) (HalI2CStart s).2).2)
    exact ⟨ack, [], rs, by rw [hS, hA]; simp, rfl⟩
  · obtain ⟨cs, hc, hb⟩ := HalI2CSend_loop_calls buffer len 65536 0 I2C_SUCCESS
      (HalI2CSendByte (addressByte address I2C_OP_WRITE) (HalI2CStart s).2).2
    obtain ⟨rs, hS⟩ := stopAndReturn_call (HalI2CSend.loop buffer len 65536 0 I2C_SUCCESS
      (HalI2CSendByte (addressByte address I2C_OP_WRITE) (HalI2CStart s).2).2)
    exact ⟨ack, cs, rs, by rw [hS, hc, hA], hb⟩

/-- The calls of `HalI2CReceive` after a successful START, whatever the bus
does: the address byte with the read bit, then only byte calls, then one STOP. -/
theorem HalI2CReceive_calls (intBits address buffer len : Nat) (s : State)
    (hbuf : buffer ≠ NULL) (hstart : (HalI2CStart s).1 = I2C_SUCCESS) :
    ∃ ack cs rs, (HalI2CReceive intBits address buffer len s).2.calls =
        s.calls ++ [.start I2C_SUCCESS, .sendByte (addressByte address I2C_OP_READ) ack] ++
          cs ++ [.stop rs] ∧
      cs.all Call.isByte = true := by
  obtain ⟨ack, hA⟩ := address_call s (addressByte address I2C_OP_READ) hstart
  rw [HalI2CReceive_eq _ _ _ _ _ hbuf hstart]
  split
  · obtain ⟨rs, hS⟩ := stopAndReturn_call (I2C_E_NODEV,
      (HalI2CSendByte (addressByte address I2C_OP_READ) (HalI2CStart s).2).2)
    exact ⟨ack, [], rs, by rw [hS, hA]; simp, rfl⟩
  · obtain ⟨cs, hc, hb⟩ := HalI2CReceive_loop_calls intBits buffer len 65536 0
      (HalI2CSendByte (addressByte address I2C_OP_READ) (HalI2CStart s).2).2
    obtain ⟨rval, hB⟩ := HalI2CReceiveByte_call I2C_NAK
      (HalI2CReceive.loop intBits buffer len 65536 0
        (HalI2CSendByte (addressByte address I2C_OP_READ) (HalI2CStart s).2).2).2
    generalize HalI2CReceive.loop intBits buffer len 65536 0
      (HalI2CSendByte (addressByte address I2C_OP_READ) (HalI2CStart s).2).2 = l at hc hB ⊢
    generalize HalI2CReceiveByte I2C_NAK l.2 = b at hB ⊢
    obtain ⟨rs, hS⟩ := stopAndReturn_call (I2C_SUCCESS, store (buffer + l.1) b.1 b.2)
    refine ⟨ack, cs ++ [.receiveByte I2C_NAK rval], rs, ?_, ?_⟩
    · rw [hS, store_calls, hB, hc, hA]
      simp only [List.append_assoc]
    · simp [hb, Call.isByte]

/-- The calls of `HalI2CWriteRegisters` after a successful START, whatever the
bus does. -/
theorem HalI2CWriteRegisters_calls (address reg buffer len : Nat) (s : State)
    (hbuf : buffer ≠ NULL) (hstart : (HalI2CStart s).1 = I2C_SUCCESS) :
    ∃ ack cs rs, (HalI2CWriteRegisters address reg buffer len s).2.calls =
        s.calls ++ [.start I2C_SUCCESS, .sendByte (addressByte address I2C_OP_WRITE) ack] ++
          cs ++ [.stop rs] ∧
      cs.all Call.isByte = true := by
  obtain ⟨ack, hA⟩ := address_call s (addressByte address I2C_OP_WRITE) hstart
  obtain ⟨ack2, hR⟩ := HalI2CSendByte_call (reg % 256)
    (HalI2CSendByte (addressByte address I2C_OP_WRITE) (HalI2CStart s).2).2
  rw [HalI2CWriteRegisters_eq _ _ _ _ _ hbuf hstart]
  generalize (HalI2CSendByte (addressByte address I2C_OP_WRITE) (HalI2CStart s).2) = a
    at hA hR ⊢
  generalize HalI2CSendByte (reg % 256) a.2 = r at hR ⊢
  split
  · obtain ⟨rs, hS⟩ := stopAndReturn_call (I2C_E_NODEV, a.2)
    exact ⟨ack, [], rs, by rw [hS, hA]; simp, rfl⟩
  · split
    · obtain ⟨rs, hS⟩ := stopAndReturn_call (I2C_E_REG, r.2)
      exact ⟨ack, [.sendByte (reg % 256) ack2], rs, by rw [hS, hR, hA], rfl⟩
    · obtain ⟨cs, hc, hb⟩ := HalI2CWriteRegisters_loop_calls buffer len 65536 0 I2C_SUCCESS r.2
      obtain ⟨rs, hS⟩ := stopAndReturn_call
        (HalI2CWriteRegisters.loop buffer len 65536 0 I2C_SUCCESS r.2)
      refine ⟨ack, .sendByte (reg % 256) ack2 :: cs, rs, ?_, ?_⟩
      · rw [hS, hc, hR, hA]
        simp only [List.append_assoc, List.singleton_append]
      · simpa [Call.isByte] using hb

/-! ## Exactly one START, and one STOP after a successful START -/

set_option maxRecDepth 1000000 in
/-- C11, counterexample: on a bus whose clock line is stuck low, START times out
and `HalI2CSend` and `HalI2CReceive` return at once: one START is logged and no
STOP. -/
theorem C11_counterexample :
    ((HalI2CSend 0x50 0x100 3 clockStuckLow).2.calls = [.start I2C_E_ARB] ∧
      stopCount (HalI2CSend 0x50 0x100 3 clockStuckLow).2.calls = 0) ∧
    ((HalI2CReceive 16 0x50 0x100 3 clockStuckLow).2.calls = [.start I2C_E_ARB] ∧
      stopCount (HalI2CReceive 16 0x50 0x100 3 clockStuckLow).2.calls = 0) := by
  decide

theorem counts_of_transaction (before cs : List Call) (a b : Call) (rs : Int)
    (ha : a = .start I2C_SUCCESS) (hb : b.isByte = true) (h : cs.all Call.isByte = true) :
    startCount (before ++ [a, b] ++ cs ++ [.stop rs]) = startCount before + 1 ∧
    stopCount (before ++ [a, b] ++ cs ++ [.stop rs]) = stopCount before + 1 := by
  subst ha
  have h1 := startCount_of_bytes cs h
  have h2 := stopCount_of_bytes cs h
  have h3 : startCount [Call.start I2C_SUCCESS, b] = 1 := by
    cases b <;> simp_all [startCount, Call.isByte]
  have h4 : stopCount [Call.start I2C_SUCCESS, b] = 0 := by
    cases b <;> simp_all [stopCount, Call.isByte]
  constructor
  · rw [startCount_append, startCount_append, startCount_append, h1, h3]
    rfl
  · rw [stopCount_append, stopCount_append, stopCount_append, h2, h4]
    rfl

theorem counts_of_failed_start (s : State) :
    startCount (HalI2CStart s).2.calls = startCount s.calls + 1 ∧
    stopCount (HalI2CStart s).2.calls = stopCount s.calls := by
  rw [(HalI2CStart_spec s).2.1, startCount_append, stopCount_append]
  exact ⟨rfl, rfl⟩

/-- C11, as the code has it: for every address, non-null buffer, length, width
of `int` and every behaviour of the bus, `HalI2CSend` and `HalI2CReceive` each
call `HalI2CStart` exactly once; they call `HalI2CStop` exactly once when that
START succeeds and not at all when it times out. -/
theorem C11_one_start_one_stop_after_start (intBits address buffer len : Nat) (s : State)
    (hbuf : buffer ≠ NULL) :
    ∀ r ∈ [HalI2CSend address buffer len s, HalI2CReceive intBits address buffer len s],
      startCount r.2.calls = startCount s.calls + 1 ∧
      stopCount r.2.calls =
        stopCount s.calls + (if (HalI2CStart s).1 = I2C_SUCCESS then 1 else 0) := by
  intro r hr
  simp only [List.mem_cons, List.mem_singleton, List.not_mem_nil, or_false] at hr
  by_cases hstart : (HalI2CStart s).1 = I2C_SUCCESS
  · rw [if_pos hstart]
    rcases hr with rfl | rfl
    · obtain ⟨ack, cs, rs, hc, hb⟩ := HalI2CSend_calls address buffer len s hbuf hstart
      rw [hc]
      exact counts_of_transaction s.calls cs _ _ rs rfl rfl hb
    · obtain ⟨ack, cs, rs, hc, hb⟩ := HalI2CReceive_calls intBits address buffer len s hbuf hstart
      rw [hc]
      exact counts_of_transaction s.calls cs _ _ rs rfl rfl hb
  · rw [if_neg hstart]
    rcases hr with rfl | rfl
    · simp only [HalI2CSend, if_neg hbuf, ne_eq, hstart, not_false_eq_true, if_true]
      exact counts_of_failed_start s
    · simp only [HalI2CReceive, if_neg hbuf, ne_eq, hstart, not_false_eq_true, if_true]
      exact counts_of_failed_start s

set_option maxRecDepth 1000000 in
/-- Witness of C11 as the code has it: `HalI2CSend` to an absent device logs one
START and one STOP. -/
theorem C11_one_start_one_stop_after_start_witness :
    startCount (HalI2CSend 0x50 0x100 3 absentDevice).2.calls = 1 ∧
    stopCount (HalI2CSend 0x50 0x100 3 absentDevice).2.calls = 1 := by
  have h := C11_one_start_one_stop_after_start 16 0x50 0x100 3 absentDevice (by decide)
    (HalI2CSend 0x50 0x100 3 absentDevice) (by simp)
  rw [if_pos (by decide)] at h
  exact h

/-! ## Lines released on return -/

theorem HalI2CStop_poll_pins (retry : Nat) (ret : Int) (s : State) :
    (HalI2CStop.poll retry ret s).2.sclDir = s.sclDir ∧
    (HalI2CStop.poll retry ret s).2.sclOut = s.sclOut ∧
    (HalI2CStop.poll retry ret s).2.sdaDir = s.sdaDir ∧
    (HalI2CStop.poll retry ret s).2.sdaOut = s.sdaOut := by
  induction retry generalizing s with
  | zero => simp only [HalI2CStop.poll]; split <;> simp
  | succ retry ih =>
    simp only [HalI2CStop.poll]
    split
    · simp
    · simpa using ih (OCM_SSWAIT (OCM_SCL_STATE s).2)

/-- The pins after `HalI2CStop`, whatever its clock polls read: both lines are
inputs. -/
theorem HalI2CStop_pins (s : State) :
    (HalI2CStop s).2.sclDir = false ∧ (HalI2CStop s).2.sdaDir = false := by
  have h := HalI2CStop_poll_pins HAL_I2C_STARTSTOP_WAITS I2C_SUCCESS
    (OCM_HPERIOD (OCM_SCL_HIGH (OCM_HPERIOD (OCM_SDA_LOW s))))
  simp only [HalI2CStop]
  simp [h.1]

/-- The pins after a `HalI2CStart` that timed out: both lines are inputs. -/
theorem HalI2CStart_failed_pins (s : State) (h : (HalI2CStart s).1 ≠ I2C_SUCCESS) :
    (HalI2CStart s).2.sclDir = false ∧ (HalI2CStart s).2.sdaDir = false := by
  have hp := HalI2CStart_poll_passive HAL_I2C_STARTSTOP_WAITS
    (OCM_HPERIOD (OCM_SCL_HIGH (OCM_HPERIOD (OCM_SDA_HIGH s))))
  revert h
  simp only [HalI2CStart]
  split
  · intro h; exact absurd rfl h
  · intro _
    simp [hp.2.1, hp.2.2.2.1]

theorem stopAndReturn_pins (body : Int × State) :
    (stopAndReturn body).2.sclDir = false ∧ (stopAndReturn body).2.sdaDir = false := by
  unfold stopAndReturn
  split <;> exact HalI2CStop_pins body.2

theorem HalI2CReceive_pins (intBits address buffer len : Nat) (s : State)
    (hbuf : buffer ≠ NULL) :
    (HalI2CReceive intBits address buffer len s).2.sclDir = false ∧
    (HalI2CReceive intBits address buffer len s).2.sdaDir = false := by
  by_cases hstart : (HalI2CStart s).1 = I2C_SUCCESS
  · rw [HalI2CReceive_eq _ _ _ _ _ hbuf hstart]
    exact stopAndReturn_pins _
  · simp only [HalI2CReceive, if_neg hbuf, ne_eq, hstart, not_false_eq_true, if_true]
    exact HalI2CStart_failed_pins s hstart

/-- C12: for each of the four transactions called with a non-null buffer, for
every behaviour of the bus and hence every returned outcome, both the clock
pin and the data pin are inputs (released) on return; `HalI2CStop` ends with
both pins inputs whatever its clock polls read, and so does a `HalI2CStart`
that times out. -/
theorem C12_lines_released (intBits address reg buffer len : Nat) (s : State)
    (hbuf : buffer ≠ NULL) :
    (∀ r ∈ [HalI2CReceive intBits address buffer len s, HalI2CSend address buffer len s,
        HalI2CReadRegisters intBits address reg buffer len s,
        HalI2CWriteRegisters address reg buffer len s],
      r.2.sclDir = false ∧ r.2.sdaDir = false) ∧
    (∀ t : State, (HalI2CStop t).2.sclDir = false ∧ (HalI2CStop t).2.sdaDir = false) ∧
    (∀ t : State, (HalI2CStart t).1 ≠ I2C_SUCCESS →
      (HalI2CStart t).2.sclDir = false ∧ (HalI2CStart t).2.sdaDir = false) := by
  refine ⟨?_, HalI2CStop_pins, HalI2CStart_failed_pins⟩
  intro r hr
  simp only [List.mem_cons, List.mem_singleton, List.not_mem_nil, or_false] at hr
  rcases hr with rfl | rfl | rfl | rfl
  · exact HalI2CReceive_pins _ _ _ _ _ hbuf
  · by_cases hstart : (HalI2CStart s).1 = I2C_SUCCESS
    · rw [HalI2CSend_eq _ _ _ _ hbuf hstart]
      exact stopAndReturn_pins _
    · simp only [HalI2CSend, if_neg hbuf, ne_eq, hstart, not_false_eq_true, if_true]
      exact HalI2CStart_failed_pins s hstart
  · by_cases hstart : (HalI2CStart s).1 = I2C_SUCCESS
    · rw [HalI2CReadRegisters_eq _ _ _ _ _ _ hbuf hstart]
      split
      · exact stopAndReturn_pins _
      · split
        · exact stopAndReturn_pins _
        · exact HalI2CReceive_pins _ _ _ _ _ hbuf
    · simp only [HalI2CReadRegisters, if_neg hbuf, ne_eq, hstart, not_false_eq_true, if_true]
      exact HalI2CStart_failed_pins s hstart
  · by_cases hstart : (HalI2CStart s).1 = I2C_SUCCESS
    · rw [HalI2CWriteRegisters_eq _ _ _ _ _ hbuf hstart]
      exact stopAndReturn_pins _
    · simp only [HalI2CWriteRegisters, if_neg hbuf, ne_eq, hstart, not_false_eq_true, if_true]
      exact HalI2CStart_failed_pins s hstart

set_option maxRecDepth 1000000 in
/-- Witness of C12: `HalI2CReadRegisters` whose second START times out returns
`I2C_E_ARB` with both pins inputs. -/
theorem C12_lines_released_witness :
    (HalI2CReadRegisters 16 0x50 7 0x100 4 secondStartTimeout).1 = I2C_E_ARB ∧
    (HalI2CReadRegisters 16 0x50 7 0x100 4 secondStartTimeout).2.sclDir = false ∧
    (HalI2CReadRegisters 16 0x50 7 0x100 4 secondStartTimeout).2.sdaDir = false := by
  have h := (C12_lines_released 16 0x50 7 0x100 4 secondStartTimeout (by decide)).1
    (HalI2CReadRegisters 16 0x50 7 0x100 4 secondStartTimeout) (by simp)
  exact ⟨by decide, h.1, h.2⟩

/-! ## The address byte -/

theorem addressByte_read (address : Nat) :
    addressByte address I2C_OP_READ = (2 * address + 1) % 256 := by
  unfold addressByte I2C_OP_READ
  rw [Nat.shiftLeft_eq, Nat.pow_one, Nat.mul_comm]
  rw [← Nat.mul_add_lt_is_or (i := 1) (by decide) address]

theorem addressByte_write (address : Nat) :
    addressByte address I2C_OP_WRITE = (2 * address) % 256 := by
  unfold addressByte I2C_OP_WRITE
  rw [Nat.shiftLeft_eq, Nat.pow_one, Nat.mul_comm, Nat.or_zero]

/-- Every call of `HalI2CReceive` with a non-null buffer extends the call log. -/
theorem HalI2CReceive_calls_extend (intBits address buffer len : Nat) (s : State)
    (hbuf : buffer ≠ NULL) :
    ∃ cs, (HalI2CReceive intBits address buffer len s).2.calls = s.calls ++ cs := by
  by_cases hstart : (HalI2CStart s).1 = I2C_SUCCESS
  · obtain ⟨ack, cs, rs, hc, -⟩ := HalI2CReceive_calls intBits address buffer len s hbuf hstart
    exact ⟨[.start I2C_SUCCESS, .sendByte (addressByte address I2C_OP_READ) ack] ++ cs ++
      [.stop rs], by rw [hc]; simp only [List.append_assoc]⟩
  · simp only [HalI2CReceive, if_neg hbuf, ne_eq, hstart, not_false_eq_true, if_true]
    exact ⟨_, (HalI2CStart_spec s).2.1⟩

/-- The calls of `HalI2CReadRegisters` after a successful START, whatever the
bus does, start with the address byte with the write bit. -/
theorem HalI2CReadRegisters_calls (intBits address reg buffer len : Nat) (s : State)
    (hbuf : buffer ≠ NULL) (hstart : (HalI2CStart s).1 = I2C_SUCCESS) :
    ∃ ack rest, (HalI2CReadRegisters intBits address reg buffer len s).2.calls =
      s.calls ++ [.start I2C_SUCCESS, .sendByte (addressByte address I2C_OP_WRITE) ack] ++
        rest := by
  obtain ⟨ack, hA⟩ := address_call s (addressByte address I2C_OP_WRITE) hstart
  obtain ⟨ack2, hR⟩ := HalI2CSendByte_call (reg % 256)
    (HalI2CSendByte (addressByte address I2C_OP_WRITE) (HalI2CStart s).2).2
  rw [HalI2CReadRegisters_eq _ _ _ _ _ _ hbuf hstart]
  generalize (HalI2CSendByte (addressByte address I2C_OP_WRITE) (HalI2CStart s).2) = a
    at hA hR ⊢
  generalize HalI2CSendByte (reg % 256) a.2 = r at hR ⊢
  split
  · obtain ⟨rs, hS⟩ := stopAndReturn_call (I2C_E_NODEV, a.2)
    exact ⟨ack, [.stop rs], by rw [hS, hA]⟩
  · split
    · obtain ⟨rs, hS⟩ := stopAndReturn_call (I2C_E_REG, r.2)
      exact ⟨ack, [.sendByte (reg % 256) ack2, .stop rs], by rw [hS, hR, hA]; simp⟩
    · obtain ⟨cs, hc⟩ := HalI2CReceive_calls_extend intBits address buffer len r.2 hbuf
      exact ⟨ack, .sendByte (reg % 256) ack2 :: cs, by rw [hc, hR, hA]; simp⟩

/-- C13: for every address, `address << 1 | I2C_OP_READ` as a `uint8_t` is
`(2 * address + 1) mod 256` and `address << 1 | I2C_OP_WRITE` is
`(2 * address) mod 256`; after a successful START the first byte call of
`HalI2CReceive` sends the former and the first byte call of `HalI2CSend`,
`HalI2CWriteRegisters` and `HalI2CReadRegisters` sends the latter, whatever the
bus does; for `address < 128` the byte has the address in bits 7..1 (its half)
and the direction in bit 0 (its parity), so that two 7-bit addresses with the
same address byte are equal. -/
theorem C13_address_byte (intBits address reg buffer len : Nat) (s : State)
    (hbuf : buffer ≠ NULL) (hstart : (HalI2CStart s).1 = I2C_SUCCESS) :
    (addressByte address I2C_OP_READ = (2 * address + 1) % 256 ∧
      addressByte address I2C_OP_WRITE = (2 * address) % 256) ∧
    ((∃ ack rest, (HalI2CReceive intBits address buffer len s).2.calls =
        s.calls ++ [.start I2C_SUCCESS, .sendByte ((2 * address + 1) % 256) ack] ++ rest) ∧
      (∃ ack rest, (HalI2CSend address buffer len s).2.calls =
        s.calls ++ [.start I2C_SUCCESS, .sendByte ((2 * address) % 256) ack] ++ rest) ∧
      (∃ ack rest, (HalI2CWriteRegisters address reg buffer len s).2.calls =
        s.calls ++ [.start I2C_SUCCESS, .sendByte ((2 * address) % 256) ack] ++ rest) ∧
      (∃ ack rest, (HalI2CReadRegisters intBits address reg buffer len s).2.calls =
        s.calls ++ [.start I2C_SUCCESS, .sendByte ((2 * address) % 256) ack] ++ rest)) ∧
    (address < 128 →
      (addressByte address I2C_OP_READ / 2 = address ∧
        addressByte address I2C_OP_READ % 2 = 1) ∧
      (addressByte address I2C_OP_WRITE / 2 = address ∧
        addressByte address I2C_OP_WRITE % 2 = 0) ∧
      (∀ other, other < 128 →
        (addressByte other I2C_OP_READ = addressByte address I2C_OP_READ → other = address) ∧
        (addressByte other I2C_OP_WRITE = addressByte address I2C_OP_WRITE →
          other = address))) := by
  refine ⟨⟨addressByte_read address, addressByte_write address⟩, ⟨?_, ?_, ?_, ?_⟩, ?_⟩
  · obtain ⟨ack, cs, rs, hc, -⟩ := HalI2CReceive_calls intBits address buffer len s hbuf hstart
    rw [addressByte_read] at hc
    exact ⟨ack, cs ++ [.stop rs], by rw [hc]; simp only [List.append_assoc]⟩
  · obtain ⟨ack, cs, rs, hc, -⟩ := HalI2CSend_calls address buffer len s hbuf hstart
    rw [addressByte_write] at hc
    exact ⟨ack, cs ++ [.stop rs], by rw [hc]; simp only [List.append_assoc]⟩
  · obtain ⟨ack, cs, rs, hc, -⟩ := HalI2CWriteRegisters_calls address reg buffer len s hbuf
      hstart
    rw [addressByte_write] at hc
    exact ⟨ack, cs ++ [.stop rs], by rw [hc]; simp only [List.append_assoc]⟩
  · obtain ⟨ack, rest, hc⟩ := HalI2CReadRegisters_calls intBits address reg buffer len s hbuf
      hstart
    rw [addressByte_write] at hc
    exact ⟨ack, rest, hc⟩
  · intro h7
    simp only [addressByte_read, addressByte_write]
    refine ⟨⟨by omega, by omega⟩, ⟨by omega, by omega⟩, ?_⟩
    intro other ho
    exact ⟨fun h => by omega, fun h => by omega⟩

set_option maxRecDepth 1000000 in
/-- Witness of C13: address `0x50` gives the bytes `0xA1` (read) and `0xA0`
(write). -/
theorem C13_address_byte_witness :
    addressByte 0x50 I2C_OP_READ = 0xA1 ∧ addressByte 0x50 I2C_OP_WRITE = 0xA0 ∧
    addressByte 0x50 I2C_OP_READ / 2 = 0x50 := by
  have h := C13_address_byte 16 0x50 7 0x100 3 absentDevice (by decide) (by decide)
  exact ⟨h.1.1, h.1.2, (h.2.2 (by decide)).1.1⟩

/-! ## The clock polls of START and STOP -/

theorem clockReads_append (t u : List Event) :
    clockReads (t ++ u) = clockReads t + clockReads u := by
  simp [clockReads]

theorem pollWaits_append (t u : List Event) :
    pollWaits (t ++ u) = pollWaits t + pollWaits u := by
  simp [pollWaits]

/-- The poll loop of `HalI2CStart` with `retry` retries left: at most
`retry + 1` reads of the clock and `retry` delays; it ends well exactly when
one of the next `retry + 1` clock levels is high, and then the last read made
is the one that read high. -/
theorem HalI2CStart_poll_spec (retry : Nat) (s : State) :
    ∃ evs, (HalI2CStart.poll retry s).2.trace = s.trace ++ evs ∧
      clockReads evs ≤ retry + 1 ∧ pollWaits evs ≤ retry ∧
      ((HalI2CStart.poll retry s).1 = true ↔ Event.sample .scl true ∈ evs) ∧
      ((HalI2CStart.poll retry s).1 = true ↔ ∃ k, k ≤ retry ∧ s.sclIn k = true) := by
  induction retry generalizing s with
  | zero =>
    refine ⟨[.sample .scl (s.sclIn 0)], ?_, by simp [clockReads], by simp [pollWaits], ?_, ?_⟩
    · simp only [HalI2CStart.poll]; split <;> rfl
    · simp only [HalI2CStart.poll]
      cases h : s.sclIn 0 <;> simp [h]
    · simp only [HalI2CStart.poll]
      cases h : s.sclIn 0 <;> simp [h]
  | succ retry ih =>
    cases h : s.sclIn 0 with
    | true =>
      refine ⟨[.sample .scl true], ?_, by simp [clockReads], by simp [pollWaits], ?_, ?_⟩
      · simp [HalI2CStart.poll, h]
      · simp [HalI2CStart.poll, h]
      · simp only [HalI2CStart.poll, OCM_SCL_STATE_fst, h, if_true, true_iff]
        exact ⟨0, Nat.zero_le _, h⟩
    | false =>
      obtain ⟨evs, he, hr, hw, hm, hk⟩ := ih (OCM_SSWAIT (OCM_SCL_STATE s).2)
      have hp : HalI2CStart.poll (retry + 1) s =
          HalI2CStart.poll retry (OCM_SSWAIT (OCM_SCL_STATE s).2) := by
        simp [HalI2CStart.poll, h]
      rw [hp]
      refine ⟨[.sample .scl false, .wait 1000] ++ evs, ?_, ?_, ?_, ?_, ?_⟩
      · rw [he]; simp [h]
      · rw [clockReads_append]
        have : clockReads [Event.sample Line.scl false, Event.wait 1000] = 1 := rfl
        omega
      · rw [pollWaits_append]
        have : pollWaits [Event.sample Line.scl false, Event.wait 1000] = 1 := rfl
        omega
      · rw [hm]; simp
      · rw [hk]
        simp only [OCM_SSWAIT_sclIn, OCM_SCL_STATE_sclIn]
        constructor
        · rintro ⟨k, hk1, hk2⟩
          exact ⟨k + 1, by omega, hk2⟩
        · rintro ⟨k, hk1, hk2⟩
          cases k with
          | zero => rw [h] at hk2; exact absurd hk2 (by decide)
          | succ k => exact ⟨k, by omega, hk2⟩

/-- The poll loop of `HalI2CStop` with `retry` retries left, entered with
`ret = I2C_SUCCESS`: at most `retry + 1` reads of the clock and `retry` delays;
it sets `I2C_E_ARB` exactly when the next `retry + 1` clock levels are all low. -/
theorem HalI2CStop_poll_spec (retry : Nat) (s : State) :
    ∃ evs, (HalI2CStop.poll retry I2C_SUCCESS s).2.trace = s.trace ++ evs ∧
      clockReads evs ≤ retry + 1 ∧ pollWaits evs ≤ retry ∧
      ((HalI2CStop.poll retry I2C_SUCCESS s).1 = I2C_SUCCESS ↔
        Event.sample .scl true ∈ evs) ∧
      ((HalI2CStop.poll retry I2C_SUCCESS s).1 = I2C_E_ARB ↔
        ∀ k, k ≤ retry → s.sclIn k = false) ∧
      ((HalI2CStop.poll retry I2C_SUCCESS s).1 = I2C_SUCCESS ↔
        ∃ k, k ≤ retry ∧ s.sclIn k = true) := by
  induction retry generalizing s with
  | zero =>
    refine ⟨[.sample .scl (s.sclIn 0)], ?_, by simp [clockReads], by simp [pollWaits], ?_, ?_,
      ?_⟩
    · simp only [HalI2CStop.poll]; split <;> rfl
    · simp only [HalI2CStop.poll]
      cases h : s.sclIn 0 <;> simp [h, I2C_E_ARB, I2C_SUCCESS]
    · simp only [HalI2CStop.poll]
      cases h : s.sclIn 0 <;> simp [h, I2C_E_ARB, I2C_SUCCESS]
    · simp only [HalI2CStop.poll]
      cases h : s.sclIn 0 <;> simp [h, I2C_E_ARB, I2C_SUCCESS]
  | succ retry ih =>
    cases h : s.sclIn 0 with
    | true =>
      refine ⟨[.sample .scl true], ?_, by simp [clockReads], by simp [pollWaits], ?_, ?_, ?_⟩
      · simp [HalI2CStop.poll, h]
      · simp [HalI2CStop.poll, h]
      · simp only [HalI2CStop.poll, OCM_SCL_STATE_fst, h, if_true]
        constructor
        · intro h0; exact absurd h0 (by decide)
        · intro h0; have := h0 0 (Nat.zero_le _); rw [h] at this; exact absurd this (by decide)
      · simp only [HalI2CStop.poll, OCM_SCL_STATE_fst, h, if_true, true_iff]
        exact ⟨0, Nat.zero_le _, h⟩
    | false =>
      obtain ⟨evs, he, hr, hw, hm, hk, hk'⟩ := ih (OCM_SSWAIT (OCM_SCL_STATE s).2)
      have hp : HalI2CStop.poll (retry + 1) I2C_SUCCESS s =
          HalI2CStop.poll retry I2C_SUCCESS (OCM_SSWAIT (OCM_SCL_STATE s).2) := by
        simp [HalI2CStop.poll, h]
      rw [hp]
      refine ⟨[.sample .scl false, .wait 1000] ++ evs, ?_, ?_, ?_, ?_, ?_, ?_⟩
      · rw [he]; simp [h]
      · rw [clockReads_append]
        have : clockReads [Event.sample Line.scl false, Event.wait 1000] = 1 := rfl
        omega
      · rw [pollWaits_append]
        have : pollWaits [Event.sample Line.scl false, Event.wait 1000] = 1 := rfl
        omega
      · rw [hm]; simp
      · rw [hk]
        simp only [OCM_SSWAIT_sclIn, OCM_SCL_STATE_sclIn]
        constructor
        · intro h0 k hk1
          cases k with
          | zero => exact h
          | succ k => exact h0 k (by omega)
        · intro h0 k hk1
          exact h0 (k + 1) (by omega)
      · rw [hk']
        simp only [OCM_SSWAIT_sclIn, OCM_SCL_STATE_sclIn]
        constructor
        · rintro ⟨k, hk1, hk2⟩
          exact ⟨k + 1, by omega, hk2⟩
        · rintro ⟨k, hk1, hk2⟩
          cases k with
          | zero => rw [h] at hk2; exact absurd hk2 (by decide)
          | succ k => exact ⟨k, by omega, hk2⟩

/-- C17: for every behaviour of the clock line, `HalI2CStart` and `HalI2CStop`
return after at most `HAL_I2C_STARTSTOP_WAITS + 1` reads of the clock line and
at most `HAL_I2C_STARTSTOP_WAITS` inter-poll delays; `HalI2CStart` returns
`I2C_SUCCESS` exactly when one of its reads is high, that is when one of the
next `HAL_I2C_STARTSTOP_WAITS + 1` clock levels is high, and `I2C_E_ARB`
exactly when they are all low; `HalI2CStop` likewise returns `I2C_E_ARB` exactly
when they are all low and `I2C_SUCCESS` exactly when one of its reads is high. -/
theorem C17_start_stop_polls (s : State) :
    ((∃ evs, (HalI2CStart s).2.trace = s.trace ++ evs ∧
        clockReads evs ≤ HAL_I2C_STARTSTOP_WAITS + 1 ∧
        pollWaits evs ≤ HAL_I2C_STARTSTOP_WAITS ∧
        ((HalI2CStart s).1 = I2C_SUCCESS ↔ Event.sample .scl true ∈ evs)) ∧
      ((HalI2CStart s).1 = I2C_SUCCESS ↔
        ∃ k, k ≤ HAL_I2C_STARTSTOP_WAITS ∧ s.sclIn k = true) ∧
      ((HalI2CStart s).1 = I2C_E_ARB ↔
        ∀ k, k ≤ HAL_I2C_STARTSTOP_WAITS → s.sclIn k = false)) ∧
    ((∃ evs, (HalI2CStop s).2.trace = s.trace ++ evs ∧
        clockReads evs ≤ HAL_I2C_STARTSTOP_WAITS + 1 ∧
        pollWaits evs ≤ HAL_I2C_STARTSTOP_WAITS ∧
        ((HalI2CStop s).1 = I2C_SUCCESS ↔ Event.sample .scl true ∈ evs)) ∧
      ((HalI2CStop s).1 = I2C_SUCCESS ↔
        ∃ k, k ≤ HAL_I2C_STARTSTOP_WAITS ∧ s.sclIn k = true) ∧
      ((HalI2CStop s).1 = I2C_E_ARB ↔
        ∀ k, k ≤ HAL_I2C_STARTSTOP_WAITS → s.sclIn k = false)) := by
  constructor
  · obtain ⟨evs, he, hr, hw, hm, hk⟩ := HalI2CStart_poll_spec HAL_I2C_STARTSTOP_WAITS
      (OCM_HPERIOD (OCM_SCL_HIGH (OCM_HPERIOD (OCM_SDA_HIGH s))))
    simp only [OCM_HPERIOD_sclIn, OCM_SCL_HIGH_sclIn, OCM_SDA_HIGH_sclIn] at hk
    have hres : (HalI2CStart s).1 = if (HalI2CStart.poll HAL_I2C_STARTSTOP_WAITS
        (OCM_HPERIOD (OCM_SCL_HIGH (OCM_HPERIOD (OCM_SDA_HIGH s))))).1 then I2C_SUCCESS
        else I2C_E_ARB := by
      simp only [HalI2CStart]; split <;> rfl
    have hok : (HalI2CStart s).1 = I2C_SUCCESS ↔ (HalI2CStart.poll HAL_I2C_STARTSTOP_WAITS
        (OCM_HPERIOD (OCM_SCL_HIGH (OCM_HPERIOD (OCM_SDA_HIGH s))))).1 = true := by
      rw [hres]; split <;> simp_all [I2C_E_ARB, I2C_SUCCESS]
    have harb : (HalI2CStart s).1 = I2C_E_ARB ↔ ¬ (HalI2CStart.poll HAL_I2C_STARTSTOP_WAITS
        (OCM_HPERIOD (OCM_SCL_HIGH (OCM_HPERIOD (OCM_SDA_HIGH s))))).1 = true := by
      rw [hres]; split <;> simp_all [I2C_E_ARB, I2C_SUCCESS]
    refine ⟨?_, hok.trans hk, ?_⟩
    · by_cases hp : (HalI2CStart.poll HAL_I2C_STARTSTOP_WAITS
          (OCM_HPERIOD (OCM_SCL_HIGH (OCM_HPERIOD (OCM_SDA_HIGH s))))).1 = true
      · refine ⟨[.dir .sda false, .wait 2, .dir .scl false, .wait 2] ++ evs ++
          [.dir .sda true, .latch .sda false, .wait 2, .dir .scl true, .latch .scl false],
          ?_, ?_, ?_, ?_⟩
        · simp only [HalI2CStart, hp, if_true]
          simp [he]
        · rw [clockReads_append, clockReads_append]
          have h1 : clockReads [Event.dir Line.sda false, Event.wait 2, Event.dir Line.scl false,
            Event.wait 2] = 0 := rfl
          have h2 : clockReads [Event.dir Line.sda true, Event.latch Line.sda false,
            Event.wait 2, Event.dir Line.scl true, Event.latch Line.scl false] = 0 := rfl
          omega
        · rw [pollWaits_append, pollWaits_append]
          have h1 : pollWaits [Event.dir Line.sda false, Event.wait 2, Event.dir Line.scl false,
            Event.wait 2] = 0 := rfl
          have h2 : pollWaits [Event.dir Line.sda true, Event.latch Line.sda false,
            Event.wait 2, Event.dir Line.scl true, Event.latch Line.scl false] = 0 := rfl
          omega
        · rw [hok, hm]; simp
      · refine ⟨[.dir .sda false, .wait 2, .dir .scl false, .wait 2] ++ evs, ?_, ?_, ?_, ?_⟩
        · simp only [HalI2CStart, hp, if_false]
          simp [he]
        · rw [clockReads_append]
          have h1 : clockReads [Event.dir Line.sda false, Event.wait 2, Event.dir Line.scl false,
            Event.wait 2] = 0 := rfl
          omega
        · rw [pollWaits_append]
          have h1 : pollWaits [Event.dir Line.sda false, Event.wait 2, Event.dir Line.scl false,
            Event.wait 2] = 0 := rfl
          omega
        · rw [hok, hm]; simp
    · rw [harb, hk]
      constructor
      · intro h0 k hk1
        cases hv : s.sclIn k with
        | false => rfl
        | true => exact absurd ⟨k, hk1, hv⟩ h0
      · rintro h0 ⟨k, hk1, hk2⟩
        rw [h0 k hk1] at hk2
        exact absurd hk2 (by decide)
  · obtain ⟨evs, he, hr, hw, hm, hk, hk'⟩ := HalI2CStop_poll_spec HAL_I2C_STARTSTOP_WAITS
      (OCM_HPERIOD (OCM_SCL_HIGH (OCM_HPERIOD (OCM_SDA_LOW s))))
    simp only [OCM_HPERIOD_sclIn, OCM_SCL_HIGH_sclIn, OCM_SDA_LOW_sclIn] at hk hk'
    have hres : (HalI2CStop s).1 = (HalI2CStop.poll HAL_I2C_STARTSTOP_WAITS I2C_SUCCESS
        (OCM_HPERIOD (OCM_SCL_HIGH (OCM_HPERIOD (OCM_SDA_LOW s))))).1 := rfl
    rw [hres]
    refine ⟨⟨[.dir .sda true, .latch .sda false, .wait 2, .dir .scl false, .wait 2] ++ evs ++
      [.wait 2, .dir .sda false, .wait 2], ?_, ?_, ?_, ?_⟩, hk', hk⟩
    · simp only [HalI2CStop]
      simp [he]
    · rw [clockReads_append, clockReads_append]
      have h1 : clockReads [Event.dir Line.sda true, Event.latch Line.sda false, Event.wait 2,
        Event.dir Line.scl false, Event.wait 2] = 0 := rfl
      have h2 : clockReads [Event.wait 2, Event.dir Line.sda false, Event.wait 2] = 0 := rfl
      omega
    · rw [pollWaits_append, pollWaits_append]
      have h1 : pollWaits [Event.dir Line.sda true, Event.latch Line.sda false, Event.wait 2,
        Event.dir Line.scl false, Event.wait 2] = 0 := rfl
      have h2 : pollWaits [Event.wait 2, Event.dir Line.sda false, Event.wait 2] = 0 := rfl
      omega
    · rw [hm]; simp

/-! ## Bit cells of the byte primitives -/

theorem stretchWaits_append (t u : List Event) :
    stretchWaits (t ++ u) = stretchWaits t + stretchWaits u := by
  simp [stretchWaits]

/-- The stretch loop from `stretch` on: only clock-side actions, as many
stretch waits as the counter advances, and never more than the budget. -/
theorem stretchLoop_trace (fuel stretch : Nat) (s : State)
    (h : stretch ≤ HAL_I2C_STRETCH_WAITS) :
    ∃ evs, (stretchLoop fuel stretch s).2.trace = s.trace ++ evs ∧
      evs.all Event.clockSide = true ∧
      (stretchLoop fuel stretch s).1 = stretch + stretchWaits evs ∧
      stretch + stretchWaits evs ≤ HAL_I2C_STRETCH_WAITS := by
  induction fuel generalizing stretch s with
  | zero => exact ⟨[], by simp [stretchLoop], rfl, rfl, h⟩
  | succ fuel ih =>
    rw [stretchLoop_succ]
    split
    · rename_i hc
      simp only [Bool.and_eq_true, decide_eq_true_eq] at hc
      have hw : HAL_I2C_STRETCH_WAITS = 100 := rfl
      rw [Nat.mod_eq_of_lt (by omega)]
      obtain ⟨evs, he, ha, hr, hb⟩ := ih (stretch + 1) (OCM_STRETCH (OCM_SCL_STATE s).2)
        (by omega)
      refine ⟨[.sample .scl (s.sclIn 0), .wait 10] ++ evs, ?_, ?_, ?_, ?_⟩
      · rw [he]; simp
      · simpa [Event.clockSide] using ha
      · rw [hr, stretchWaits_append]
        have : stretchWaits [Event.sample Line.scl (s.sclIn 0), Event.wait 10] = 1 := rfl
        omega
      · rw [stretchWaits_append]
        have : stretchWaits [Event.sample Line.scl (s.sclIn 0), Event.wait 10] = 1 := rfl
        omega
    · exact ⟨[.sample .scl (s.sclIn 0)], rfl, rfl, rfl, h⟩

/-- The clock-high half of a bit cell, for every behaviour of the clock line. -/
theorem clockHigh_trace (s : State) :
    ∃ clk, (clockHigh s).trace = s.trace ++ clk ∧ ClockHigh clk := by
  obtain ⟨evs, he, ha, hr, hb⟩ := stretchLoop_trace (HAL_I2C_STRETCH_WAITS + 1) 0
    (OCM_HPERIOD (OCM_SCL_HIGH s)) (Nat.zero_le _)
  simp only [clockHigh]
  split
  · refine ⟨[.dir .scl false, .wait 2] ++ evs ++ [.wait 2], ?_, ?_, ?_⟩
    · simp [he]
    · simpa [Event.clockSide] using ha
    · rw [stretchWaits_append, stretchWaits_append]
      have h1 : stretchWaits [Event.dir Line.scl false, Event.wait 2] = 0 := rfl
      have h2 : stretchWaits [Event.wait 2] = 0 := rfl
      omega
  · refine ⟨[.dir .scl false, .wait 2] ++ evs, ?_, ?_, ?_⟩
    · simp [he]
    · simpa [Event.clockSide] using ha
    · rw [stretchWaits_append]
      have h1 : stretchWaits [Event.dir Line.scl false, Event.wait 2] = 0 := rfl
      omega

theorem and_0x80_ne_zero (value : Nat) : (value &&& 0x80 ≠ 0) ↔ value.testBit 7 = true := by
  have h : value &&& 0x80 = (value.testBit 7).toNat * 2 ^ 7 := Nat.and_two_pow value 7
  rw [h]
  cases value.testBit 7 <;> simp

theorem testBit_shifted (value j : Nat) (h1 : 1 ≤ j) (h8 : j < 8) :
    ((value <<< 1) % 256).testBit j = value.testBit (j - 1) := by
  have h : (256 : Nat) = 2 ^ 8 := rfl
  rw [h, Nat.testBit_mod_two_pow, Nat.testBit_shiftLeft]
  simp [h1, h8]

/-- The pin-level actions of one pass of the bit loop of `HalI2CSendByte`. -/
theorem sendBit_trace (value : Nat) (s : State) :
    ∃ cell, (OCM_SCL_LOW (clockHigh (OCM_HPERIOD
        (if value &&& 0x80 ≠ 0 then OCM_SDA_HIGH s else OCM_SDA_LOW s)))).trace =
      s.trace ++ cell ∧ SendCell (value.testBit 7) cell := by
  by_cases hb : value &&& 0x80 ≠ 0
  · have ht := (and_0x80_ne_zero value).mp hb
    obtain ⟨clk, hc, hk⟩ := clockHigh_trace (OCM_HPERIOD (OCM_SDA_HIGH s))
    rw [if_pos hb, ht]
    exact ⟨_, by rw [OCM_SCL_LOW_trace, hc]; simp [sdaDrive, sclLowEvents],
      clk, hk, rfl⟩
  · have ht : value.testBit 7 = false := by
      cases h : value.testBit 7
      · rfl
      · exact absurd ((and_0x80_ne_zero value).mpr h) hb
    obtain ⟨clk, hc, hk⟩ := clockHigh_trace (OCM_HPERIOD (OCM_SDA_LOW s))
    rw [if_neg hb, ht]
    exact ⟨_, by rw [OCM_SCL_LOW_trace, hc]; simp [sdaDrive, sclLowEvents],
      clk, hk, rfl⟩

/-- The bit loop of `HalI2CSendByte`: one cell per bit, the cell of pass `k`
carrying bit `7 - k` of `value`. -/
theorem HalI2CSendByte_bits_cells (n : Nat) :
    ∀ (value : Nat) (s : State), n ≤ 8 →
      ∃ cells, (HalI2CSendByte.bits n value s).trace = s.trace ++ cells.flatten ∧
        List.Forall₂ SendCell ((List.range n).map (fun k => value.testBit (7 - k))) cells := by
  induction n with
  | zero =>
    intro value s _
    exact ⟨[], by simp [HalI2CSendByte.bits], List.Forall₂.nil⟩
  | succ n ih =>
    intro value s hn
    obtain ⟨cell, hc, hcell⟩ := sendBit_trace value s
    obtain ⟨cells, hcs, hall⟩ := ih ((value <<< 1) % 256)
      (OCM_SCL_LOW (clockHigh (OCM_HPERIOD
        (if value &&& 0x80 ≠ 0 then OCM_SDA_HIGH s else OCM_SDA_LOW s)))) (by omega)
    refine ⟨cell :: cells, ?_, ?_⟩
    · simp only [HalI2CSendByte.bits]
      rw [hcs, hc, List.flatten_cons, List.append_assoc]
    · rw [List.range_succ_eq_map, List.map_cons, List.map_map]
      refine List.Forall₂.cons hcell ?_
      have e : (List.range n).map ((fun k => value.testBit (7 - k)) ∘ Nat.succ) =
          (List.range n).map (fun k => ((value <<< 1) % 256).testBit (7 - k)) := by
        apply List.map_congr_left
        intro k hk
        rw [List.mem_range] at hk
        simp only [Function.comp]
        rw [testBit_shifted value (7 - k) (by omega) (by omega)]
        congr 1
      rw [e]
      exact hall

/-- The pin-level actions of `HalI2CSendByte`: eight cells carrying the bits of
`value`, most significant first, then a cell in which the data line is
released and read. -/
theorem HalI2CSendByte_cells (value : Nat) (s : State) :
    ∃ cells ackCell, (HalI2CSendByte value s).2.trace = s.trace ++ cells.flatten ++ ackCell ∧
      List.Forall₂ SendCell ((List.range 8).map (fun k => value.testBit (7 - k))) cells ∧
      ReadCell (s.sdaIn 0) ackCell := by
  obtain ⟨cells, hcs, hall⟩ := HalI2CSendByte_bits_cells 8 value s (Nat.le_refl 8)
  obtain ⟨clk, hc, hk⟩ := clockHigh_trace
    (OCM_HPERIOD (OCM_SDA_HIGH (HalI2CSendByte.bits 8 value s)))
  have hsda : (HalI2CSendByte.bits 8 value s).sdaIn = s.sdaIn :=
    (HalI2CSendByte_bits_frame s 8 value).2.2
  refine ⟨cells, _, ?_, hall, clk, hk, rfl⟩
  simp only [HalI2CSendByte, logCall_trace, OCM_SCL_LOW_trace, OCM_SDA_STATE_trace, hc,
    OCM_HPERIOD_trace, OCM_SDA_HIGH_trace, hcs, clockHigh_sdaIn, OCM_HPERIOD_sdaIn,
    OCM_SDA_HIGH_sdaIn, hsda, sclLowEvents]
  simp only [List.append_assoc, List.singleton_append, List.cons_append, List.nil_append]

/-- The pin-level actions of one pass of the bit loop of `HalI2CReceiveByte`. -/
theorem receiveBit_trace (s : State) :
    ∃ cell, (OCM_SCL_LOW (OCM_SDA_STATE (clockHigh (OCM_HPERIOD (OCM_SDA_HIGH s)))).2).trace =
      s.trace ++ cell ∧ ReadCell (s.sdaIn 0) cell := by
  obtain ⟨clk, hc, hk⟩ := clockHigh_trace (OCM_HPERIOD (OCM_SDA_HIGH s))
  refine ⟨_, ?_, clk, hk, rfl⟩
  simp only [OCM_SCL_LOW_trace, OCM_SDA_STATE_trace, hc, OCM_HPERIOD_trace, OCM_SDA_HIGH_trace,
    clockHigh_sdaIn, OCM_HPERIOD_sdaIn, OCM_SDA_HIGH_sdaIn, sclLowEvents]
  simp only [List.append_assoc, List.singleton_append, List.cons_append, List.nil_append]

/-- The bit loop of `HalI2CReceiveByte`: one cell per bit, the cell of pass `k`
reading the `k`-th next level of the data line. -/
theorem HalI2CReceiveByte_bits_cells (n : Nat) :
    ∀ (rval : Nat) (s : State),
      ∃ cells, (HalI2CReceiveByte.bits n rval s).2.trace = s.trace ++ cells.flatten ∧
        List.Forall₂ ReadCell ((List.range n).map s.sdaIn) cells := by
  induction n with
  | zero =>
    intro rval s
    exact ⟨[], by simp [HalI2CReceiveByte.bits], List.Forall₂.nil⟩
  | succ n ih =>
    intro rval s
    obtain ⟨cell, hc, hcell⟩ := receiveBit_trace s
    obtain ⟨cells, hcs, hall⟩ := ih
      (((rval <<< 1) ||| (if (OCM_SDA_STATE (clockHigh (OCM_HPERIOD (OCM_SDA_HIGH s)))).1
        then 1 else 0)) % 256)
      (OCM_SCL_LOW (OCM_SDA_STATE (clockHigh (OCM_HPERIOD (OCM_SDA_HIGH s)))).2)
    refine ⟨cell :: cells, ?_, ?_⟩
    · simp only [HalI2CReceiveByte.bits]
      rw [hcs, hc, List.flatten_cons, List.append_assoc]
    · rw [List.range_succ_eq_map, List.map_cons, List.map_map]
      refine List.Forall₂.cons hcell ?_
      simpa [Function.comp] using hall

/-- The pin-level actions of `HalI2CReceiveByte`: eight cells reading the next
eight levels of the data line, then a cell in which the data pin is driven low
for `ack = 0` and released otherwise. -/
theorem HalI2CReceiveByte_cells (ack : Int) (s : State) :
    ∃ cells ackCell, (HalI2CReceiveByte ack s).2.trace = s.trace ++ cells.flatten ++ ackCell ∧
      List.Forall₂ ReadCell ((List.range 8).map s.sdaIn) cells ∧
      SendCell (decide (ack ≠ 0)) ackCell := by
  obtain ⟨cells, hcs, hall⟩ := HalI2CReceiveByte_bits_cells 8 0 s
  by_cases hack : ack ≠ 0
  · obtain ⟨clk, hc, hk⟩ := clockHigh_trace
      (OCM_HPERIOD (OCM_SDA_HIGH (HalI2CReceiveByte.bits 8 0 s).2))
    refine ⟨cells, _, ?_, hall, clk, hk, rfl⟩
    simp only [HalI2CReceiveByte, if_pos hack, logCall_trace, OCM_SCL_LOW_trace, hc,
      OCM_HPERIOD_trace, OCM_SDA_HIGH_trace, hcs, sclLowEvents, sdaDrive, decide_eq_true hack,
      if_true]
    simp only [List.append_assoc, List.singleton_append, List.cons_append, List.nil_append]
  · obtain ⟨clk, hc, hk⟩ := clockHigh_trace
      (OCM_HPERIOD (OCM_SDA_LOW (HalI2CReceiveByte.bits 8 0 s).2))
    refine ⟨cells, _, ?_, hall, clk, hk, rfl⟩
    simp only [HalI2CReceiveByte, if_neg hack, logCall_trace, OCM_SCL_LOW_trace, hc,
      OCM_HPERIOD_trace, OCM_SDA_LOW_trace, hcs, sclLowEvents, sdaDrive, decide_eq_false hack,
      Bool.false_eq_true, if_false]
    simp only [List.append_assoc, List.singleton_append, List.cons_append, List.nil_append]

/-- Cells related one by one to the values `f 0`, ..., `f (n - 1)`, read by
index. -/
theorem forall₂_range_index {R : Bool → List Event → Prop} (f : Nat → Bool) (n : Nat)
    (cells : List (List Event)) (h : List.Forall₂ R ((List.range n).map f) cells) :
    cells.length = n ∧ ∀ k, k < n → ∃ cell, cells[k]? = some cell ∧ R (f k) cell := by
  obtain ⟨hl, hg⟩ := List.forall₂_iff_get.mp h
  simp only [List.length_map, List.length_range] at hl
  refine ⟨hl.symm, ?_⟩
  intro k hk
  have h2 : k < cells.length := by omega
  refine ⟨cells[k], List.getElem?_eq_getElem h2, ?_⟩
  have := hg k (by simp; omega) h2
  simpa using this

theorem clockPulses_of_clockSide (clk : List Event) (h : clk.all Event.clockSide = true) :
    clockPulses clk = 0 := by
  induction clk with
  | nil => rfl
  | cons e clk ih =>
    simp only [List.all_cons, Bool.and_eq_true] at h
    have h1 : clockPulses (e :: clk) = clockPulses [e] + clockPulses clk :=
      clockPulses_append [e] clk
    rw [h1, ih h.2]
    have he := h.1
    cases e with
    | dir l out => rfl
    | latch l v => cases l <;> simp [Event.clockSide] at he
    | sample l v => rfl
    | wait us => rfl

/-- A send cell has at most `HAL_I2C_STRETCH_WAITS` stretch waits and one clock
pulse, the one it ends with. -/
theorem SendCell_bounds (bit : Bool) (cell : List Event) (h : SendCell bit cell) :
    stretchWaits cell ≤ HAL_I2C_STRETCH_WAITS ∧ clockPulses cell = 1 ∧
    ∃ pre, cell = pre ++ sclLowEvents := by
  obtain ⟨clk, ⟨hside, hw⟩, rfl⟩ := h
  refine ⟨?_, ?_, ⟨_, rfl⟩⟩
  · rw [stretchWaits_append, stretchWaits_append, stretchWaits_append]
    have h1 : stretchWaits (sdaDrive bit) = 0 := by cases bit <;> rfl
    have h2 : stretchWaits [Event.wait 2] = 0 := rfl
    have h3 : stretchWaits sclLowEvents = 0 := rfl
    omega
  · rw [clockPulses_append, clockPulses_append, clockPulses_append,
      clockPulses_of_clockSide clk hside]
    have h1 : clockPulses (sdaDrive bit) = 0 := by cases bit <;> rfl
    have h2 : clockPulses [Event.wait 2] = 0 := rfl
    have h3 : clockPulses sclLowEvents = 1 := rfl
    omega

/-- A read cell has at most `HAL_I2C_STRETCH_WAITS` stretch waits and one clock
pulse, the one it ends with. -/
theorem ReadCell_bounds (v : Bool) (cell : List Event) (h : ReadCell v cell) :
    stretchWaits cell ≤ HAL_I2C_STRETCH_WAITS ∧ clockPulses cell = 1 ∧
    ∃ pre, cell = pre ++ sclLowEvents := by
  obtain ⟨clk, ⟨hside, hw⟩, rfl⟩ := h
  refine ⟨?_, ?_, ⟨_, rfl⟩⟩
  · rw [stretchWaits_append, stretchWaits_append, stretchWaits_append]
    have h1 : stretchWaits [Event.dir Line.sda false, Event.wait 2] = 0 := rfl
    have h2 : stretchWaits [Event.sample Line.sda v] = 0 := rfl
    have h3 : stretchWaits sclLowEvents = 0 := rfl
    omega
  · rw [clockPulses_append, clockPulses_append, clockPulses_append,
      clockPulses_of_clockSide clk hside]
    have h1 : clockPulses [Event.dir Line.sda false, Event.wait 2] = 0 := rfl
    have h2 : clockPulses [Event.sample Line.sda v] = 0 := rfl
    have h3 : clockPulses sclLowEvents = 1 := rfl
    omega

theorem forall₂_bounds {R : Bool → List Event → Prop} (bits : List Bool)
    (cells : List (List Event)) (h : List.Forall₂ R bits cells)
    (hR : ∀ b c, R b c → stretchWaits c ≤ HAL_I2C_STRETCH_WAITS ∧ clockPulses c = 1 ∧
      ∃ pre, c = pre ++ sclLowEvents) :
    ∀ c ∈ cells, stretchWaits c ≤ HAL_I2C_STRETCH_WAITS ∧ clockPulses c = 1 ∧
      ∃ pre, c = pre ++ sclLowEvents := by
  induction h with
  | nil => intro c hc; cases hc
  | cons hab _ ih =>
    intro c hc
    rcases List.mem_cons.mp hc with rfl | hc
    · exact hR _ _ hab
    · exact ih c hc

/-- The stretch loop when the clock reads low at every read up to the budget:
it leaves after exactly `HAL_I2C_STRETCH_WAITS` waits, whatever the clock does
afterwards. -/
theorem stretchLoop_exhausted (fuel stretch : Nat) (s : State)
    (h : stretch ≤ HAL_I2C_STRETCH_WAITS) (hf : HAL_I2C_STRETCH_WAITS - stretch < fuel)
    (hlow : ∀ k, k < HAL_I2C_STRETCH_WAITS - stretch → s.sclIn k = false) :
    (stretchLoop fuel stretch s).1 = HAL_I2C_STRETCH_WAITS := by
  induction fuel generalizing stretch s with
  | zero => omega
  | succ fuel ih =>
    rw [stretchLoop_succ]
    have hw : HAL_I2C_STRETCH_WAITS = 100 := rfl
    by_cases hs : stretch < HAL_I2C_STRETCH_WAITS
    · have h0 := hlow 0 (by omega)
      rw [if_pos (by simp [h0, hs]), Nat.mod_eq_of_lt (by omega)]
      apply ih (stretch + 1) _ (by omega) (by omega)
      intro k hk
      exact hlow (k + 1) (by omega)
    · rw [if_neg (by simp [hs])]
      show stretch = HAL_I2C_STRETCH_WAITS
      omega

/-- C14: for every byte value, acknowledge argument and behaviour of the clock
line, `HalI2CSendByte` and `HalI2CReceiveByte` return after nine bit cells,
each with at most `HAL_I2C_STRETCH_WAITS` stretch waits and each ending by
pulling the clock low (its only clock pulse); what they return depends on the
data line only: the acknowledge bit read, respectively the byte read, never an
error code. The stretch loop is never cut short by the bound of its embedding,
and when the clock reads low throughout the budget (for exactly
`HAL_I2C_STRETCH_WAITS` reads or for ever) it leaves after exactly
`HAL_I2C_STRETCH_WAITS` waits and the cell goes on. -/
theorem C14_stretch_bounded (value : Nat) (ack : Int) (s : State) :
    ((∃ cells : List (List Event), (HalI2CSendByte value s).2.trace = s.trace ++ cells.flatten ∧
        cells.length = 9 ∧
        ∀ c ∈ cells, stretchWaits c ≤ HAL_I2C_STRETCH_WAITS ∧ clockPulses c = 1 ∧
          ∃ pre, c = pre ++ sclLowEvents) ∧
      (HalI2CSendByte value s).1 = (if s.sdaIn 0 then I2C_NAK else I2C_ACK)) ∧
    ((∃ cells : List (List Event), (HalI2CReceiveByte ack s).2.trace = s.trace ++ cells.flatten ∧
        cells.length = 9 ∧
        ∀ c ∈ cells, stretchWaits c ≤ HAL_I2C_STRETCH_WAITS ∧ clockPulses c = 1 ∧
          ∃ pre, c = pre ++ sclLowEvents) ∧
      (HalI2CReceiveByte ack s).1 = sampledByte s.sdaIn 0) ∧
    (∀ (extra : Nat) (t : State),
      stretchLoop (HAL_I2C_STRETCH_WAITS + 1 + extra) 0 t =
        stretchLoop (HAL_I2C_STRETCH_WAITS + 1) 0 t) ∧
    (∀ t : State, (∀ k, k < HAL_I2C_STRETCH_WAITS → t.sclIn k = false) →
      (stretchLoop (HAL_I2C_STRETCH_WAITS + 1) 0 t).1 = HAL_I2C_STRETCH_WAITS) := by
  refine ⟨⟨?_, (HalI2CSendByte_spec s value).1⟩, ⟨?_, (HalI2CReceiveByte_spec s ack).1⟩,
    stretchLoop_fuel_enough, ?_⟩
  · obtain ⟨cells, ackCell, ht, hall, hack⟩ := HalI2CSendByte_cells value s
    refine ⟨cells ++ [ackCell], ?_, ?_, ?_⟩
    · rw [ht, List.flatten_append, List.flatten_singleton, List.append_assoc]
    · rw [List.length_append, ← hall.length_eq]; simp
    · intro c hc
      rcases List.mem_append.mp hc with hc | hc
      · exact forall₂_bounds _ cells hall SendCell_bounds c hc
      · rw [List.mem_singleton] at hc
        subst hc
        exact ReadCell_bounds _ _ hack
  · obtain ⟨cells, ackCell, ht, hall, hack⟩ := HalI2CReceiveByte_cells ack s
    refine ⟨cells ++ [ackCell], ?_, ?_, ?_⟩
    · rw [ht, List.flatten_append, List.flatten_singleton, List.append_assoc]
    · rw [List.length_append, ← hall.length_eq]; simp
    · intro c hc
      rcases List.mem_append.mp hc with hc | hc
      · exact forall₂_bounds _ cells hall ReadCell_bounds c hc
      · rw [List.mem_singleton] at hc
        subst hc
        exact SendCell_bounds _ _ hack
  · intro t hlow
    exact stretchLoop_exhausted _ 0 t (Nat.zero_le _) (by simp) (by simpa using hlow)

/-- C15: for every value, the pin-level actions of `HalI2CSendByte` are eight
send cells followed by one read cell. In cell `k` (`k = 0..7`) the data pin is
released (`OCM_SDA_HIGH`) if bit `7 - k` of `value` is 1 and driven low
(`OCM_SDA_LOW`) if it is 0, before the clock is released, and no action touches
the data pin until the clock is pulled low again. In the ninth cell the data
pin is released and the data line is read once, at the end of the clock-high
half; the function returns `I2C_ACK = 0` if that read is low and `I2C_NAK = 1`
if it is high, and nothing else. -/
theorem C15_send_byte_bits (value : Nat) (s : State) :
    ∃ (cells : List (List Event)) (ackCell : List Event),
      (HalI2CSendByte value s).2.trace = s.trace ++ cells.flatten ++ ackCell ∧
      cells.length = 8 ∧
      (∀ k, k < 8 → ∃ cell, cells[k]? = some cell ∧ ∃ clk, ClockHigh clk ∧
        cell = sdaDrive (value.testBit (7 - k)) ++ [.wait 2] ++ clk ++ sclLowEvents) ∧
      (∃ clk, ClockHigh clk ∧
        ackCell = [.dir .sda false, .wait 2] ++ clk ++ [.sample .sda (s.sdaIn 0)] ++
          sclLowEvents) ∧
      (s.sdaIn 0 = false → (HalI2CSendByte value s).1 = I2C_ACK) ∧
      (s.sdaIn 0 = true → (HalI2CSendByte value s).1 = I2C_NAK) ∧
      ((HalI2CSendByte value s).1 = 0 ∨ (HalI2CSendByte value s).1 = 1) := by
  obtain ⟨cells, ackCell, ht, hall, hack⟩ := HalI2CSendByte_cells value s
  obtain ⟨hl, hk⟩ := forall₂_range_index _ 8 cells hall
  have hr := (HalI2CSendByte_spec s value).1
  refine ⟨cells, ackCell, ht, hl, hk, hack, ?_, ?_, ?_⟩
  · intro h; rw [hr, h]; rfl
  · intro h; rw [hr, h]; rfl
  · rw [hr]; cases s.sdaIn 0
    · left; rfl
    · right; rfl

/-- C16: for every acknowledge argument and every eight levels `b0 .. b7` of the
data line, `HalI2CReceiveByte` reads the data line exactly once in each of its
first eight cells, getting `b0 .. b7` in this order, and returns
`b0 * 128 + b1 * 64 + ... + b7`. Each pass computes
`rval = (rval << 1) | ((OCM_SDA_STATE) != 0)`, the reading of the source
expression under the C precedence of `!=` over `|`, truncated to `uint8_t`; on
the values that occur this is `2 * rval + b`, a pure shift-and-or. The result
does not depend on the acknowledge argument. -/
theorem C16_receive_byte_value (ack : Int) (s : State) :
    (HalI2CReceiveByte ack s).1 =
      (s.sdaIn 0).toNat * 128 + (s.sdaIn 1).toNat * 64 + (s.sdaIn 2).toNat * 32 +
      (s.sdaIn 3).toNat * 16 + (s.sdaIn 4).toNat * 8 + (s.sdaIn 5).toNat * 4 +
      (s.sdaIn 6).toNat * 2 + (s.sdaIn 7).toNat ∧
    (∃ (cells : List (List Event)) (ackCell : List Event),
      (HalI2CReceiveByte ack s).2.trace = s.trace ++ cells.flatten ++ ackCell ∧
      cells.length = 8 ∧
      (∀ k, k < 8 → ∃ cell, cells[k]? = some cell ∧ ∃ clk, ClockHigh clk ∧
        cell = [.dir .sda false, .wait 2] ++ clk ++ [.sample .sda (s.sdaIn k)] ++
          sclLowEvents) ∧
      (∃ clk, ClockHigh clk ∧
        ackCell = sdaDrive (decide (ack ≠ 0)) ++ [.wait 2] ++ clk ++ sclLowEvents)) ∧
    (∀ (rval : Nat) (b : Bool), rval < 128 →
      ((rval <<< 1) ||| (if b then 1 else 0)) % 256 = 2 * rval + b.toNat) ∧
    (∀ ack' : Int, (HalI2CReceiveByte ack' s).1 = (HalI2CReceiveByte ack s).1) := by
  refine ⟨?_, ?_, ?_, ?_⟩
  · rw [(HalI2CReceiveByte_spec s ack).1]
    simp only [sampledByte, Nat.zero_add]
  · obtain ⟨cells, ackCell, ht, hall, hack⟩ := HalI2CReceiveByte_cells ack s
    obtain ⟨hl, hk⟩ := forall₂_range_index _ 8 cells hall
    exact ⟨cells, ackCell, ht, hl, hk, hack⟩
  · intro rval b hr
    rw [Nat.shiftLeft_eq, Nat.pow_one, Nat.mul_comm]
    cases b
    · simp only [Bool.false_eq_true, if_false, Nat.or_zero, Bool.toNat_false, Nat.add_zero]
      exact Nat.mod_eq_of_lt (by omega)
    · simp only [if_true, Bool.toNat_true]
      rw [← Nat.mul_add_lt_is_or (i := 1) (by decide) rval]
      exact Nat.mod_eq_of_lt (by omega)
  · intro ack'
    rw [(HalI2CReceiveByte_spec s ack).1, (HalI2CReceiveByte_spec s ack').1]

/-! ## Pin states reached during an operation -/

theorem Traced_refl (s : State) : Traced s s :=
  ⟨[], by simp, rfl, rfl⟩

theorem Traced_step {s0 s : State} (h : Traced s0 s) (t : State) (evs : List Event)
    (ht : t.trace = s.trace ++ evs) (hp : t.pins = evs.foldl Pins.step s.pins)
    (hw : evs.all (fun e => !e.writesOne) = true) : Traced s0 t := by
  obtain ⟨evs0, h1, h2, h3⟩ := h
  refine ⟨evs0 ++ evs, ?_, ?_, ?_⟩
  · rw [ht, h1, List.append_assoc]
  · rw [hp, h2, List.foldl_append]
  · rw [List.all_append, h3, hw]; rfl

theorem Traced_OCM_SCL_HIGH {s0 s : State} (h : Traced s0 s) : Traced s0 (OCM_SCL_HIGH s) :=
  Traced_step h _ [.dir .scl false] (OCM_SCL_HIGH_trace s) rfl rfl

theorem Traced_OCM_SCL_LOW {s0 s : State} (h : Traced s0 s) : Traced s0 (OCM_SCL_LOW s) :=
  Traced_step h _ [.dir .scl true, .latch .scl false] (OCM_SCL_LOW_trace s) rfl rfl

theorem Traced_OCM_SDA_HIGH {s0 s : State} (h : Traced s0 s) : Traced s0 (OCM_SDA_HIGH s) :=
  Traced_step h _ [.dir .sda false] (OCM_SDA_HIGH_trace s) rfl rfl

theorem Traced_OCM_SDA_LOW {s0 s : State} (h : Traced s0 s) : Traced s0 (OCM_SDA_LOW s) :=
  Traced_step h _ [.dir .sda true, .latch .sda false] (OCM_SDA_LOW_trace s) rfl rfl

theorem Traced_OCM_HPERIOD {s0 s : State} (h : Traced s0 s) : Traced s0 (OCM_HPERIOD s) :=
  Traced_step h _ [.wait 2] (OCM_HPERIOD_trace s) rfl rfl

theorem Traced_OCM_STRETCH {s0 s : State} (h : Traced s0 s) : Traced s0 (OCM_STRETCH s) :=
  Traced_step h _ [.wait 10] (OCM_STRETCH_trace s) rfl rfl

theorem Traced_OCM_SSWAIT {s0 s : State} (h : Traced s0 s) : Traced s0 (OCM_SSWAIT s) :=
  Traced_step h _ [.wait 1000] (OCM_SSWAIT_trace s) rfl rfl

theorem Traced_OCM_SCL_STATE {s0 s : State} (h : Traced s0 s) :
    Traced s0 (OCM_SCL_STATE s).2 :=
  Traced_step h _ [.sample .scl (s.sclIn 0)] rfl rfl rfl

theorem Traced_OCM_SDA_STATE {s0 s : State} (h : Traced s0 s) :
    Traced s0 (OCM_SDA_STATE s).2 :=
  Traced_step h _ [.sample .sda (s.sdaIn 0)] rfl rfl rfl

theorem Traced_logCall {s0 s : State} (c : Call) (h : Traced s0 s) : Traced s0 (logCall c s) :=
  Traced_step h _ [] (by simp) rfl rfl

theorem Traced_store {s0 s : State} (a v : Nat) (h : Traced s0 s) : Traced s0 (store a v s) :=
  Traced_step h _ [] (by simp) rfl rfl

theorem Traced_HalI2CStart_poll {s0 : State} (retry : Nat) :
    ∀ {s : State}, Traced s0 s → Traced s0 (HalI2CStart.poll retry s).2 := by
  induction retry with
  | zero =>
    intro s h
    simp only [HalI2CStart.poll]
    split <;> exact Traced_OCM_SCL_STATE h
  | succ retry ih =>
    intro s h
    simp only [HalI2CStart.poll]
    split
    · exact Traced_OCM_SCL_STATE h
    · exact ih (Traced_OCM_SSWAIT (Traced_OCM_SCL_STATE h))

theorem Traced_HalI2CStop_poll {s0 : State} (retry : Nat) (ret : Int) :
    ∀ {s : State}, Traced s0 s → Traced s0 (HalI2CStop.poll retry ret s).2 := by
  induction retry with
  | zero =>
    intro s h
    simp only [HalI2CStop.poll]
    split <;> exact Traced_OCM_SCL_STATE h
  | succ retry ih =>
    intro s h
    simp only [HalI2CStop.poll]
    split
    · exact Traced_OCM_SCL_STATE h
    · exact ih (Traced_OCM_SSWAIT (Traced_OCM_SCL_STATE h))

theorem Traced_HalI2CStart {s0 s : State} (h : Traced s0 s) : Traced s0 (HalI2CStart s).2 := by
  have hp := Traced_HalI2CStart_poll HAL_I2C_STARTSTOP_WAITS
    (Traced_OCM_HPERIOD (Traced_OCM_SCL_HIGH (Traced_OCM_HPERIOD (Traced_OCM_SDA_HIGH h))))
  simp only [HalI2CStart]
  split
  · exact Traced_logCall _ (Traced_OCM_SCL_LOW (Traced_OCM_HPERIOD (Traced_OCM_SDA_LOW hp)))
  · exact Traced_logCall _ hp

theorem Traced_HalI2CStop {s0 s : State} (h : Traced s0 s) : Traced s0 (HalI2CStop s).2 := by
  have hp := Traced_HalI2CStop_poll HAL_I2C_STARTSTOP_WAITS I2C_SUCCESS
    (Traced_OCM_HPERIOD (Traced_OCM_SCL_HIGH (Traced_OCM_HPERIOD (Traced_OCM_SDA_LOW h))))
  simp only [HalI2CStop]
  exact Traced_logCall _ (Traced_OCM_HPERIOD (Traced_OCM_SDA_HIGH (Traced_OCM_HPERIOD hp)))

theorem Traced_stretchLoop {s0 : State} (fuel : Nat) :
    ∀ (stretch : Nat) {s : State}, Traced s0 s → Traced s0 (stretchLoop fuel stretch s).2 := by
  induction fuel with
  | zero => intro stretch s h; exact h
  | succ fuel ih =>
    intro stretch s h
    rw [stretchLoop_succ]
    split
    · exact ih _ (Traced_OCM_STRETCH (Traced_OCM_SCL_STATE h))
    · exact Traced_OCM_SCL_STATE h

theorem Traced_clockHigh {s0 s : State} (h : Traced s0 s) : Traced s0 (clockHigh s) := by
  have hl := Traced_stretchLoop (HAL_I2C_STRETCH_WAITS + 1) 0
    (Traced_OCM_HPERIOD (Traced_OCM_SCL_HIGH h))
  simp only [clockHigh]
  split
  · exact Traced_OCM_HPERIOD hl
  · exact hl

theorem Traced_HalI2CSendByte_bits {s0 : State} (n : Nat) :
    ∀ (value : Nat) {s : State}, Traced s0 s → Traced s0 (HalI2CSendByte.bits n value s) := by
  induction n with
  | zero => intro value s h; exact h
  | succ n ih =>
    intro value s h
    simp only [HalI2CSendByte.bits]
    apply ih
    split
    · exact Traced_OCM_SCL_LOW (Traced_clockHigh (Traced_OCM_HPERIOD (Traced_OCM_SDA_HIGH h)))
    · exact Traced_OCM_SCL_LOW (Traced_clockHigh (Traced_OCM_HPERIOD (Traced_OCM_SDA_LOW h)))

theorem Traced_HalI2CSendByte {s0 s : State} (value : Nat) (h : Traced s0 s) :
    Traced s0 (HalI2CSendByte value s).2 := by
  simp only [HalI2CSendByte]
  exact Traced_logCall _ (Traced_OCM_SCL_LOW (Traced_OCM_SDA_STATE (Traced_clockHigh
    (Traced_OCM_HPERIOD (Traced_OCM_SDA_HIGH (Traced_HalI2CSendByte_bits 8 value h))))))

theorem Traced_HalI2CReceiveByte_bits {s0 : State} (n : Nat) :
    ∀ (rval : Nat) {s : State}, Traced s0 s →
      Traced s0 (HalI2CReceiveByte.bits n rval s).2 := by
  induction n with
  | zero => intro rval s h; exact h
  | succ n ih =>
    intro rval s h
    simp only [HalI2CReceiveByte.bits]
    apply ih
    exact Traced_OCM_SCL_LOW (Traced_OCM_SDA_STATE (Traced_clockHigh
      (Traced_OCM_HPERIOD (Traced_OCM_SDA_HIGH h))))

theorem Traced_HalI2CReceiveByte {s0 s : State} (ack : Int) (h : Traced s0 s) :
    Traced s0 (HalI2CReceiveByte ack s).2 := by
  have hb := Traced_HalI2CReceiveByte_bits 8 0 h
  simp only [HalI2CReceiveByte]
  split
  · exact Traced_logCall _ (Traced_OCM_SCL_LOW (Traced_clockHigh
      (Traced_OCM_HPERIOD (Traced_OCM_SDA_HIGH hb))))
  · exact Traced_logCall _ (Traced_OCM_SCL_LOW (Traced_clockHigh
      (Traced_OCM_HPERIOD (Traced_OCM_SDA_LOW hb))))

theorem Traced_HalI2CSend_loop {s0 : State} (buffer len : Nat) (fuel : Nat) :
    ∀ (i : Nat) (ret : Int) {s : State}, Traced s0 s →
      Traced s0 (HalI2CSend.loop buffer len fuel i ret s).2 := by
  induction fuel with
  | zero => intro i ret s h; exact h
  | succ fuel ih =>
    intro i ret s h
    simp only [HalI2CSend.loop]
    split
    · split
      · exact Traced_HalI2CSendByte _ h
      · exact ih _ _ (Traced_HalI2CSendByte _ h)
    · exact h

theorem Traced_HalI2CWriteRegisters_loop {s0 : State} (buffer len : Nat) (fuel : Nat) :
    ∀ (i : Nat) (ret : Int) {s : State}, Traced s0 s →
      Traced s0 (HalI2CWriteRegisters.loop buffer len fuel i ret s).2 := by
  induction fuel with
  | zero => intro i ret s h; exact h
  | succ fuel ih =>
    intro i ret s h
    simp only [HalI2CWriteRegisters.loop]
    split
    · split
      · exact Traced_HalI2CSendByte _ h
      · exact ih _ _ (Traced_HalI2CSendByte _ h)
    · exact h

theorem Traced_HalI2CReceive_loop {s0 : State} (intBits buffer len : Nat) (fuel : Nat) :
    ∀ (i : Nat) {s : State}, Traced s0 s →
      Traced s0 (HalI2CReceive.loop intBits buffer len fuel i s).2 := by
  induction fuel with
  | zero => intro i s h; exact h
  | succ fuel ih =>
    intro i s h
    simp only [HalI2CReceive.loop]
    split
    · exact ih _ (Traced_store _ _ (Traced_HalI2CReceiveByte _ h))
    · exact h

theorem Traced_HalI2CSend {s0 s : State} (address buffer len : Nat) (h : Traced s0 s) :
    Traced s0 (HalI2CSend address buffer len s).2 := by
  have hst := Traced_HalI2CStart h
  have ha := Traced_HalI2CSendByte (addressByte address I2C_OP_WRITE) hst
  simp only [HalI2CSend]
  split
  · exact h
  · split
    · exact hst
    · split
      · split <;> exact Traced_HalI2CStop ha
      · split <;> exact Traced_HalI2CStop (Traced_HalI2CSend_loop _ _ _ _ _ ha)

theorem Traced_HalI2CReceive {s0 s : State} (intBits address buffer len : Nat)
    (h : Traced s0 s) : Traced s0 (HalI2CReceive intBits address buffer len s).2 := by
  have hst := Traced_HalI2CStart h
  have ha := Traced_HalI2CSendByte (addressByte address I2C_OP_READ) hst
  simp only [HalI2CReceive]
  split
  · exact h
  · split
    · exact hst
    · split
      · split <;> exact Traced_HalI2CStop ha
      · split <;> exact Traced_HalI2CStop (Traced_store _ _ (Traced_HalI2CReceiveByte _
          (Traced_HalI2CReceive_loop _ _ _ _ _ ha)))

theorem Traced_HalI2CWriteRegisters {s0 s : State} (address reg buffer len : Nat)
    (h : Traced s0 s) : Traced s0 (HalI2CWriteRegisters address reg buffer len s).2 := by
  have hst := Traced_HalI2CStart h
  have ha := Traced_HalI2CSendByte (addressByte address I2C_OP_WRITE) hst
  have hr := Traced_HalI2CSendByte (reg % 256) ha
  simp only [HalI2CWriteRegisters]
  split
  · exact h
  · split
    · exact hst
    · split
      · split <;> exact Traced_HalI2CStop ha
      · split
        · split <;> exact Traced_HalI2CStop hr
        · split <;> exact Traced_HalI2CStop (Traced_HalI2CWriteRegisters_loop _ _ _ _ _ hr)

theorem Traced_HalI2CReadRegisters {s0 s : State} (intBits address reg buffer len : Nat)
    (h : Traced s0 s) : Traced s0 (HalI2CReadRegisters intBits address reg buffer len s).2 := by
  have hst := Traced_HalI2CStart h
  have ha := Traced_HalI2CSendByte (addressByte address I2C_OP_WRITE) hst
  have hr := Traced_HalI2CSendByte (reg % 256) ha
  simp only [HalI2CReadRegisters]
  split
  · exact h
  · split
    · exact hst
    · split
      · split
        · split <;> exact Traced_HalI2CStop ha
        · exact Traced_HalI2CReceive _ _ _ _ ha
      · split
        · split
          · split <;> exact Traced_HalI2CStop hr
          · exact Traced_HalI2CReceive _ _ _ _ hr
        · exact Traced_HalI2CReceive _ _ _ _ hr

theorem Traced_HalI2CInit {s0 s : State} (h : Traced s0 s) : Traced s0 (HalI2CInit s) :=
  Traced_step h _ [.dir .scl false, .dir .sda false]
    (by simp [HalI2CInit, IO_DIR_PORT_PIN, IO_FUNC_PORT_PIN, IO_IMODE_PORT_PIN, IO_PUD_PORT,
      emit, IO_IN, IO_OUT]) rfl rfl

/-- With both latches at 0 and no write of 1 to a latch, no reached pin state
has a line driven high. -/
theorem reached_not_drivenHigh (evs : List Event) :
    ∀ (p : Pins), p.sclOut = false → p.sdaOut = false →
      evs.all (fun e => !e.writesOne) = true →
      ∀ q ∈ p.reached evs, q.drivenHigh = false := by
  induction evs with
  | nil => intro p _ _ _ q hq; simp [Pins.reached] at hq
  | cons e evs ih =>
    intro p h1 h2 hw q hq
    rw [List.all_cons, Bool.and_eq_true] at hw
    have hs : (p.step e).sclOut = false ∧ (p.step e).sdaOut = false := by
      rcases e with ⟨l, o⟩ | ⟨l, v⟩ | ⟨l, v⟩ | us
      · cases l <;> exact ⟨h1, h2⟩
      · have hv : v = false := by simpa [Event.writesOne] using hw.1
        subst hv
        cases l
        · exact ⟨rfl, h2⟩
        · exact ⟨h1, rfl⟩
      · exact ⟨h1, h2⟩
      · exact ⟨h1, h2⟩
    simp only [Pins.reached, List.mem_cons] at hq
    rcases hq with hq | hq
    · subst hq
      simp [Pins.drivenHigh, hs.1, hs.2]
    · exact ih _ hs.1 hs.2 hw.2 q hq

/-- The pins after the operation are the last reached pin state. -/
theorem reached_getLast (evs : List Event) :
    ∀ (p : Pins), evs ≠ [] → (p.reached evs).getLast? = some (evs.foldl Pins.step p) := by
  induction evs with
  | nil => intro p h; exact absurd rfl h
  | cons e evs ih =>
    intro p _
    by_cases he : evs = []
    · subst he; rfl
    · have := ih (p.step e) he
      simp only [Pins.reached, List.foldl_cons]
      rw [List.getLast?_cons, this]
      rfl

/-- From a state with both latches at 0, every public operation performs only
logged pin actions, and no pin state reached while it runs has a line driven
high. -/
theorem latches_low_never_driven_high (intBits address reg buffer len value : Nat) (ack : Int)
    (s : State) (hscl : s.sclOut = false) (hsda : s.sdaOut = false) :
    ∀ t ∈ [HalI2CInit s, (HalI2CStart s).2, (HalI2CStop s).2,
        (HalI2CSendByte value s).2, (HalI2CReceiveByte ack s).2,
        (HalI2CSend address buffer len s).2,
        (HalI2CReceive intBits address buffer len s).2,
        (HalI2CWriteRegisters address reg buffer len s).2,
        (HalI2CReadRegisters intBits address reg buffer len s).2],
      (∃ evs, t.trace = s.trace ++ evs ∧ t.pins = evs.foldl Pins.step s.pins) ∧
        ∀ q ∈ reachedDuring s t, q.drivenHigh = false := by
  have key : ∀ t, Traced s t →
      (∃ evs, t.trace = s.trace ++ evs ∧ t.pins = evs.foldl Pins.step s.pins) ∧
        ∀ q ∈ reachedDuring s t, q.drivenHigh = false := by
    rintro t ⟨evs, h1, h2, h3⟩
    refine ⟨⟨evs, h1, h2⟩, ?_⟩
    rw [reachedDuring, h1, List.drop_left]
    exact reached_not_drivenHigh evs s.pins hscl hsda h3
  have h0 := Traced_refl s
  intro t ht
  simp only [List.mem_cons, List.mem_singleton, List.not_mem_nil, or_false] at ht
  rcases ht with rfl | rfl | rfl | rfl | rfl | rfl | rfl | rfl | rfl
  · exact key _ (Traced_HalI2CInit h0)
  · exact key _ (Traced_HalI2CStart h0)
  · exact key _ (Traced_HalI2CStop h0)
  · exact key _ (Traced_HalI2CSendByte _ h0)
  · exact key _ (Traced_HalI2CReceiveByte _ h0)
  · exact key _ (Traced_HalI2CSend _ _ _ h0)
  · exact key _ (Traced_HalI2CReceive _ _ _ _ h0)
  · exact key _ (Traced_HalI2CWriteRegisters _ _ _ _ h0)
  · exact key _ (Traced_HalI2CReadRegisters _ _ _ _ _ h0)

set_option maxRecDepth 1000000 in
/-- C18 (fails on the code): a line is actively driven high at the first use
of the driver after power-up. `HalI2CInit` leaves both output latches at their
reset value 1, and `OCM_SDA_LOW()` / `OCM_SCL_LOW()` make the pin an output
before they write 0 to its latch. So in the first successful `HalI2CStart` the
state after the sixth pin action has the data pin configured as an output with
its latch at 1, and the state after the ninth has the clock pin so; the same
two states are reached in the first `HalI2CSend`, `HalI2CReceive`,
`HalI2CWriteRegisters` and `HalI2CReadRegisters`. -/
theorem C18_driven_high_at_first_use :
    firstUse.pins = { sclDir := false, sclOut := true, sdaDir := false, sdaOut := true } ∧
    firstUse.pins.drivenHigh = false ∧
    (HalI2CStart firstUse).1 = I2C_SUCCESS ∧
    (HalI2CStart firstUse).2.trace = firstUse.trace ++
      [.dir .sda false, .wait 2, .dir .scl false, .wait 2, .sample .scl true,
       .dir .sda true, .latch .sda false, .wait 2, .dir .scl true, .latch .scl false] ∧
    reachedDuring firstUse (HalI2CStart firstUse).2 =
      [{ sclDir := false, sclOut := true, sdaDir := false, sdaOut := true },
       { sclDir := false, sclOut := true, sdaDir := false, sdaOut := true },
       { sclDir := false, sclOut := true, sdaDir := false, sdaOut := true },
       { sclDir := false, sclOut := true, sdaDir := false, sdaOut := true },
       { sclDir := false, sclOut := true, sdaDir := false, sdaOut := true },
       { sclDir := false, sclOut := true, sdaDir := true, sdaOut := true },
       { sclDir := false, sclOut := true, sdaDir := true, sdaOut := false },
       { sclDir := false, sclOut := true, sdaDir := true, sdaOut := false },
       { sclDir := true, sclOut := true, sdaDir := true, sdaOut := false },
       { sclDir := true, sclOut := false, sdaDir := true, sdaOut := false }] ∧
    (reachedDuring firstUse (HalI2CStart firstUse).2).map Pins.drivenHigh =
      [false, false, false, false, false, true, false, false, true, false] ∧
    (reachedDuring firstUse (HalI2CSend 0x50 0x100 3 firstUse).2).filter Pins.drivenHigh =
      [{ sclDir := false, sclOut := true, sdaDir := true, sdaOut := true },
       { sclDir := true, sclOut := true, sdaDir := true, sdaOut := false }] ∧
    (reachedDuring firstUse (HalI2CReceive 16 0x50 0x100 3 firstUse).2).filter Pins.drivenHigh =
      [{ sclDir := false, sclOut := true, sdaDir := true, sdaOut := true },
       { sclDir := true, sclOut := true, sdaDir := true, sdaOut := false }] ∧
    (reachedDuring firstUse (HalI2CWriteRegisters 0x50 7 0x100 3 firstUse).2).filter
        Pins.drivenHigh =
      [{ sclDir := false, sclOut := true, sdaDir := true, sdaOut := true },
       { sclDir := true, sclOut := true, sdaDir := true, sdaOut := false }] ∧
    (reachedDuring firstUse (HalI2CReadRegisters 16 0x50 7 0x100 3 firstUse).2).filter
        Pins.drivenHigh =
      [{ sclDir := false, sclOut := true, sdaDir := true, sdaOut := true },
       { sclDir := true, sclOut := true, sdaDir := true, sdaOut := false }] := by
  decide

set_option maxRecDepth 1000000 in
/-- The statement `latches_low_never_driven_high` applied to a bus whose
latches have been cleared, for a three-byte `HalI2CSend`. -/
theorem latches_low_never_driven_high_example :
    ∀ q ∈ reachedDuring { acknowledgingDevice with sclOut := false, sdaOut := false }
        (HalI2CSend 0x50 0x100 3
          { acknowledgingDevice with sclOut := false, sdaOut := false }).2,
      q.drivenHigh = false :=
  (latches_low_never_driven_high 16 0x50 7 0x100 3 0 0
    { acknowledgingDevice with sclOut := false, sdaOut := false } rfl rfl _
    (by simp only [List.mem_cons, true_or, or_true])).2

end HalI2C
